import Mathlib

/-!
# Signals_Generation: waveform generator firmware for a DAC0808

Shallow embedding of the two firmware variants `c_irq/main.c` (interrupt driven)
and `c_pol/main.c` (polling).  Machine integers are naturals or integers with the
width of the C type made explicit by a reduction modulo `2 ^ w`; operations whose
behaviour is undefined in C (division by zero, a read or write outside an array, a read
of an uninitialised local) return `none`.  The globals are the fields of a state record
and each handler is a function on it; the text sent to the console by `printf` and the
programming of the timer alarms are left out.
-/

namespace SignalsGeneration

/-! ## Waveform tables (identical in both variants) -/

/-- Table `seno`: sine waveform. -/
def seno : List Nat := [
  128, 136, 144, 152, 160, 167, 175, 182, 189, 196, 203, 209, 215, 221, 226, 231, 236, 240,
  243, 247, 249, 251, 253, 254, 255, 255, 255, 254, 252, 250, 248, 245, 242, 238, 234, 229,
  224, 218, 213, 206, 200, 193, 186, 179, 171, 163, 156, 148, 140, 132, 123, 115, 107,  99,
  92,  84,  76,  69,  62,  55,  49,  42,  37,  31,  26,  21,  17,  13,  10,   7,   5,   3,
  1,   0,   0,   0,   1,   2,   4,   6,   8,  12,  15,  19,  24,  29,  34,  40,  46,  52,
  59,  66,  73,  80,  88,  95, 103, 111, 119, 127]

/-- Table `triangular`: triangle waveform. -/
def triangular : List Nat := [
  0,   5,  10,  15,  20,  26,  31,  36,  41,  46,  51,  56,  61,  66,  71,  76,  82,
  87,  92,  97, 102, 107, 112, 117, 122, 127, 133, 138, 143, 148, 153, 158, 163, 168,
  173, 178, 184, 189, 194, 199, 204, 209, 214, 219, 224, 229, 235, 240, 245, 250, 255,
  250, 245, 240, 235, 229, 224, 219, 214, 209, 204, 199, 194, 189, 184, 178, 173, 168,
  163, 158, 153, 148, 143, 138, 133, 127, 122, 117, 112, 107, 102,  97,  92,  87,  82,
  77,  71,  66,  61,  56,  51,  46,  41,  36,  31,  25,  20,  15,  10,   5]

/-- Table `sierra`: sawtooth waveform. -/
def sierra : List Nat := [
  129, 131, 134, 137, 139, 142, 144, 147, 149, 152, 155, 157, 160, 162, 165, 167,
  170, 173, 175, 178, 180, 183, 185, 188, 191, 193, 196, 198, 201, 203, 206, 209,
  211, 214, 216, 219, 222, 224, 227, 229, 232, 234, 237, 240, 242, 245, 247, 250,
  252, 255,   0,   3,   5,   8,  10,  13,  15,  18,  21,  23,  26,  28,  31,  33,
  36,  39,  41,  44,  46,  49,  52,  54,  57,  59,  62,  64,  67,  70,  72,  75,
  77,  80,  82,  85,  88,  90,  93,  95,  98, 100, 103, 106, 108, 111, 113, 116,
  118, 121, 124, 126]

/-- Table `cuadrada`: square waveform (the initialiser in the source has 101 entries). -/
def cuadrada : List Nat := [
  255, 255, 255, 255, 255, 255, 255, 255, 255, 255, 255, 255, 255, 255, 255, 255, 255, 255,
  255, 255, 255, 255, 255, 255, 255, 255, 255, 255, 255, 255, 255, 255, 255, 255, 255, 255,
  255, 255, 255, 255, 255, 255, 255, 255, 255, 255, 255, 255, 255, 255, 255,   0,   0,   0,
  0,   0,   0,   0,   0,   0,   0,   0,   0,   0,   0,   0,   0,   0,   0,   0,   0,   0,
  0,   0,   0,   0,   0,   0,   0,   0,   0,   0,   0,   0,   0,   0,   0,   0,   0,   0,
  0,   0,   0,   0,   0,   0,   0,   0,   0,   0,   0]

/-! ## Signal generator (identical in both variants) -/

/-- The `switch (type)` of `generator`: the table sample loaded into `signal`.
`none` when `type` selects no case (`signal` stays uninitialised) or when
`signal_index` lies outside the selected array. -/
def generator_signal (type signal_index : Nat) : Option Nat :=
  match type with
  | 0 => seno[signal_index]?
  | 1 => triangular[signal_index]?
  | 2 => sierra[signal_index]?
  | 3 => cuadrada[signal_index]?
  | _ => none

/-- Line `uint16_t norm_DC = 255 - ((DC*255)/1250);` with `DC : uint32_t`:
the arithmetic is done modulo `2 ^ 32`, the result is stored in 16 bits. -/
def norm_DC (DC : Nat) : Nat :=
  ((255 + 2 ^ 32 - (DC * 255 % 2 ^ 32) / 1250) % 2 ^ 32) % 2 ^ 16

/-- Line `uint16_t norm_Amp = 2500/Amp;` after `Amp /= 2`; `none` when the halved
amplitude is zero. -/
def norm_Amp (Amp : Nat) : Option Nat :=
  if Amp / 2 = 0 then none else some ((2500 / (Amp / 2)) % 2 ^ 16)

/-- Line `signal = (signal/norm_Amp) - norm_DC;`: both operands are promoted to `int`,
the difference is stored back into the 16-bit `signal`.  `none` when `norm_Amp` is zero. -/
def scale_signal (signal normAmp normDC : Nat) : Option Nat :=
  if normAmp = 0 then none
  else some ((((signal / normAmp : Nat) : Int) - (normDC : Int)) % 65536).toNat

/-- Value of the 16-bit local `signal` of `generator` when `set_dac_value` is called. -/
def generator_value (signal_index type Amp DC : Nat) : Option Nat :=
  match generator_signal type signal_index, norm_Amp Amp with
  | some signal, some normAmp => scale_signal signal normAmp (norm_DC DC)
  | _, _ => none

/-- The byte received by `set_dac_value(uint8_t value)` from `generator`. -/
def generator_byte (signal_index type Amp DC : Nat) : Option Nat :=
  (generator_value signal_index type Amp DC).map (fun v => v % 256)

/-- Lines `signal_index += 1; signal_index %= 100;` on the 8-bit `signal_index`. -/
def next_signal_index (signal_index : Nat) : Nat :=
  ((signal_index + 1) % 256) % 100

/-- The table selected by a waveform selector. -/
def waveform_table (type : Nat) : List Nat :=
  match type with
  | 0 => seno
  | 1 => triangular
  | 2 => sierra
  | _ => cuadrada


/-! ## GPIO output register (hardware collaborator)

The SIO output register is a 32-bit mask, bit `k` being the level driven on pin `k`. -/

def D0_PIN : Nat := 16
def D1_PIN : Nat := 17
def D2_PIN : Nat := 18
def D3_PIN : Nat := 19
def D4_PIN : Nat := 20
def D5_PIN : Nat := 21
def D6_PIN : Nat := 22
def D7_PIN : Nat := 26
def Button_pin : Nat := 1
def MAX_LETTERS_PRESSED : Nat := 10

/-- SDK call `gpio_put(gpio, value)`: sets or clears bit `gpio` of the output register. -/
def gpio_put (out gpio : Nat) (value : Bool) : Nat :=
  if value then out ||| (1 <<< gpio) else out &&& (0xFFFFFFFF ^^^ (1 <<< gpio))

/-- SDK call `gpio_put_masked(mask, value)`: the bits of `mask` take the levels of `value`. -/
def gpio_put_masked (out mask value : Nat) : Nat :=
  out ^^^ ((out ^^^ value) &&& mask)

/-- Function `set_dac_value`: one `gpio_put` per data line, `value` being a byte. -/
def set_dac_value (out value : Nat) : Nat :=
  let out := gpio_put out D0_PIN (value &&& 0x01 != 0)
  let out := gpio_put out D1_PIN (value &&& 0x02 != 0)
  let out := gpio_put out D2_PIN (value &&& 0x04 != 0)
  let out := gpio_put out D3_PIN (value &&& 0x08 != 0)
  let out := gpio_put out D4_PIN (value &&& 0x10 != 0)
  let out := gpio_put out D5_PIN (value &&& 0x20 != 0)
  let out := gpio_put out D6_PIN (value &&& 0x40 != 0)
  gpio_put out D7_PIN (value &&& 0x80 != 0)

/-! ## binary64 arithmetic of `initialize_samp_freq`

The sampling interval is computed in `double`.  Only non-negative values occur; a finite
value is kept as `m * 2 ^ e`, and every operation rounds the exact result to the nearest
value with a 53-bit significand, ties to even (IEEE 754 binary64, with gradual underflow
below `2 ^ (-1022)` and overflow to infinity from `2 ^ 1024`). -/

/-- Non-negative binary64 values. -/
inductive Dbl where
  | fin (m : Nat) (e : Int)
  | inf
  | nan
  deriving DecidableEq, Repr

/-- Number of binary digits of `n`, with `fuel` bounding the recursion. -/
def bitLenAux : Nat → Nat → Nat
  | 0, _ => 0
  | fuel + 1, n => if n = 0 then 0 else bitLenAux fuel (n / 2) + 1

/-- Number of binary digits of `n` (`0` for `0`). -/
def bitLen (n : Nat) : Nat := bitLenAux n n

/-- Integer nearest to `n / d`, ties to the even neighbour. -/
def roundHalfEven (n d : Nat) : Nat :=
  let q := n / d
  let r := n % d
  if 2 * r < d then q
  else if d < 2 * r then q + 1
  else if q % 2 = 0 then q else q + 1

/-- Binary exponent `⌊log₂ (n / d)⌋` of a positive rational. -/
def binade (n d : Nat) : Int :=
  let l : Int := (bitLen n : Int) - (bitLen d : Int)
  if d * 2 ^ l.toNat ≤ n * 2 ^ (-l).toNat then l else l - 1

/-- Round the non-negative rational `n / d` (`d ≠ 0`) to binary64: the significand `m`
is the nearest integer to `n / d / 2 ^ e`; the result is infinite when `m * 2 ^ e` reaches
`2 ^ 1024`, that is when it has more than 1024 binary digits. -/
def Dbl.round (n d : Nat) : Dbl :=
  if n = 0 then .fin 0 0
  else
    let e : Int := max (binade n d - 52) (-1074)
    let m := roundHalfEven (n * 2 ^ (-e).toNat) (d * 2 ^ e.toNat)
    if 1024 < (bitLen m : Int) + e then .inf else .fin m e

/-- Product of two `double` values. -/
def Dbl.mul : Dbl → Dbl → Dbl
  | .fin m1 e1, .fin m2 e2 =>
      Dbl.round (m1 * m2 * 2 ^ (e1 + e2).toNat) (2 ^ (-(e1 + e2)).toNat)
  | .fin m _, .inf => if m = 0 then .nan else .inf
  | .inf, .fin m _ => if m = 0 then .nan else .inf
  | .inf, .inf => .inf
  | _, _ => .nan

/-- Quotient of two `double` values. -/
def Dbl.div : Dbl → Dbl → Dbl
  | .fin m1 e1, .fin m2 e2 =>
      if m2 = 0 then (if m1 = 0 then .nan else .inf)
      else Dbl.round (m1 * 2 ^ (e1 - e2).toNat) (m2 * 2 ^ (e2 - e1).toNat)
  | .fin _ _, .inf => .fin 0 0
  | .inf, .fin _ _ => .inf
  | _, _ => .nan

/-- Conversion of a `uint32_t` (or of an integer literal such as `1000000.0`) to `double`;
exact, since the value is below `2 ^ 53`. -/
def Dbl.ofUInt32 (n : Nat) : Dbl := .fin n 0

/-- Cast `(uint32_t) x`: truncation towards zero.  A value that does not fit is undefined
in ISO C; the conversion routine of the target (`__aeabi_d2uiz`) saturates, giving
`0xFFFFFFFF` for a value too large and `0` for a NaN. -/
def Dbl.toUInt32 : Dbl → Nat
  | .fin m e => min (m * 2 ^ e.toNat / 2 ^ (-e).toNat) (2 ^ 32 - 1)
  | .inf => 2 ^ 32 - 1
  | .nan => 0

/-- Global `uint32_t points = 100;` of both variants (never assigned). -/
def points : Nat := 100

/-- Function `initialize_samp_freq`, as a function of the global `frequency`:
`(uint32_t)((1000000.0) * (1.0 / points) * (1.0 / frequency))`. -/
def initialize_samp_freq (frequency : Nat) : Nat :=
  Dbl.toUInt32
    (Dbl.mul
      (Dbl.mul (Dbl.ofUInt32 1000000) (Dbl.div (Dbl.ofUInt32 1) (Dbl.ofUInt32 points)))
      (Dbl.div (Dbl.ofUInt32 1) (Dbl.ofUInt32 frequency)))

/-! ## Library call `atoi`

The argument is the list of the bytes from the pointer to the end of the array it points
into.  The scan skips white space, takes an optional sign and accumulates decimal digits
up to the first other byte.  `none` when the scan runs past the end of the array or the
value does not fit an `int`. -/

/-- Library predicate `isspace` in the C locale. -/
def isspace (c : Char) : Bool := c.toNat = 32 || (9 ≤ c.toNat && c.toNat ≤ 13)

/-- Library predicate `isdigit`. -/
def isdigit (c : Char) : Bool := 48 ≤ c.toNat && c.toNat ≤ 57

/-- Digit loop of `atoi`. -/
def atoi_digits : List Char → Nat → Option Nat
  | [], _ => none
  | c :: cs, acc =>
      if isdigit c then atoi_digits cs (10 * acc + (c.toNat - 48)) else some acc

/-- Optional sign, then the digit loop. -/
def atoi_sign : List Char → Option Int
  | [] => none
  | c :: cs =>
      if c = '-' then (atoi_digits cs 0).map (fun v => -Int.ofNat v)
      else if c = '+' then (atoi_digits cs 0).map Int.ofNat
      else (atoi_digits (c :: cs) 0).map Int.ofNat

/-- Leading white space, then sign and digits. -/
def atoi_skip : List Char → Option Int
  | [] => none
  | c :: cs => if isspace c then atoi_skip cs else atoi_sign (c :: cs)

/-- Library call `atoi`. -/
def atoi (s : List Char) : Option Int :=
  match atoi_skip s with
  | some v => if -(2 ^ 31) ≤ v ∧ v < 2 ^ 31 then some v else none
  | none => none

/-- The number written by a string of decimal digits (`0` for the empty string). -/
def decimal_value (ds : List Char) : Nat :=
  ds.foldl (fun acc c => 10 * acc + (c.toNat - 48)) 0

/-! ## Interrupt variant (`c_irq/main.c`) -/

/-- Keypad layout `matrix_keys`. -/
def matrix_keys : List (List Char) :=
  [['1', '2', '3', 'A'],
   ['4', '5', '6', 'B'],
   ['7', '8', '9', 'C'],
   ['*', '0', '#', 'D']]

def gpio_rows : List Nat := [2, 3, 4, 5]
def gpio_columns : List Nat := [6, 7, 8, 9]

/-- Constant `DEBOUNCE_TIME_US` (500 ms). -/
def DEBOUNCE_TIME_US : Nat := 500000

/-- The zero byte. -/
def NUL : Char := Char.ofNat 0

/-- The globals of the interrupt variant, and the GPIO output register.  The array
`text_input` is a list of `MAX_LETTERS_PRESSED` characters. -/
structure State where
  signal_index : Nat
  sequence : Nat
  signal_count : Nat
  amplitude : Nat
  offsete : Nat
  frequency : Nat
  samp_freq : Nat
  letter_index : Nat
  current_key : Char
  text_input : List Char
  last_press_time : Nat
  last_press_button_time : Nat
  gpio_out : Nat
  deriving DecidableEq, Repr

/-- The globals as initialised at start-up. -/
def State.init : State where
  signal_index := 0
  sequence := 0
  signal_count := 0
  amplitude := 1000
  offsete := 100
  frequency := 10
  samp_freq := 0
  letter_index := 0
  current_key := NUL
  text_input := List.replicate MAX_LETTERS_PRESSED NUL
  last_press_time := 0
  last_press_button_time := 0
  gpio_out := 0

/-- Difference of two `uint64_t` time stamps. -/
def sub64 (a b : Nat) : Nat := (a % 2 ^ 64 + 2 ^ 64 - b % 2 ^ 64) % 2 ^ 64

/-- Tail of `analyze_text_input`: `letter_index = 0; memset(text_input, 0, ...)`. -/
def clear_text_input (s : State) : State :=
  { s with letter_index := 0,
           text_input := List.replicate MAX_LETTERS_PRESSED NUL }

/-- Function `analyze_text_input` (console output is not part of the state). -/
def analyze_text_input (s : State) : Option State :=
  match s.text_input[0]? with
  | none => none
  | some c =>
    if c = 'A' then
      match atoi (s.text_input.drop 1) with
      | none => none
      | some v =>
        let amplitud : Nat := (v % 2 ^ 16).toNat
        if 100 ≤ amplitud ∧ amplitud ≤ 2500 then
          some (clear_text_input { s with amplitude := amplitud })
        else some (clear_text_input s)
    else if c = 'B' then
      match atoi (s.text_input.drop 1) with
      | none => none
      | some v =>
        let offset : Nat := (v % 2 ^ 16).toNat
        if 50 ≤ offset ∧ offset ≤ 1250 then
          some (clear_text_input { s with offsete := offset })
        else some (clear_text_input s)
    else if c = 'C' then
      match atoi (s.text_input.drop 1) with
      | none => none
      | some v =>
        let frequency : Nat := (v % 2 ^ 32).toNat
        some (clear_text_input
          { s with frequency := frequency, samp_freq := initialize_samp_freq frequency })
    else some (clear_text_input s)

/-- Function `generator` on the globals: the sample goes to the DAC lines and
`signal_index` advances. -/
def generator (s : State) (type Amp DC : Nat) : Option State :=
  match generator_byte s.signal_index type Amp DC with
  | none => none
  | some value =>
    some { s with gpio_out := set_dac_value s.gpio_out value,
                  signal_index := next_signal_index s.signal_index }

/-- Lines `current_key = ...; text_input[letter_index] = current_key;
letter_index = (letter_index + 1) % MAX_LETTERS_PRESSED;` of `callback_keypress`. -/
def store_key (s : State) (key : Char) : State :=
  { s with current_key := key,
           text_input := s.text_input.set s.letter_index key,
           letter_index := (s.letter_index + 1) % MAX_LETTERS_PRESSED }

/-- Body of the `for (col ...)` loop of `callback_keypress` for one column; `later` is
the value of `time_us_64()` read inside the body.  `none` when an array is indexed
outside its bounds. -/
def keypress_column (gpio later : Nat) (s : State) (col : Nat) : Option State :=
  match gpio_columns[col]? with
  | none => none
  | some pin =>
    if pin = gpio then
      match matrix_keys[s.sequence]? with
      | none => none
      | some row =>
        match row[col]? with
        | none => none
        | some key =>
          if s.letter_index < s.text_input.length then
            (if key = 'D' then analyze_text_input (store_key s key)
              else some (store_key s key)).map
                (fun s2 => { s2 with last_press_time := later })
          else none
    else some s

/-- Function `callback_keypress(gpio, events)`; `now` is the time read by the debounce
check, `later` the time read when the key is recorded. -/
def callback_keypress (s : State) (gpio now later : Nat) : Option State :=
  if sub64 now s.last_press_time < DEBOUNCE_TIME_US then some s
  else [0, 1, 2, 3].foldlM (keypress_column gpio later) s

/-- Function `callback_pressed(gpio, events)`; `now` is the time read by the debounce
check, `later` the time stored as the new debounce stamp. -/
def callback_pressed (s : State) (now later : Nat) : State :=
  if sub64 now s.last_press_button_time < DEBOUNCE_TIME_US then s
  else { s with last_press_button_time := later,
                signal_count := (s.signal_count + 1) % 4 }

/-- Function `gpio_callback`: dispatch on the pin. -/
def gpio_callback (s : State) (gpio now later : Nat) : Option State :=
  if gpio = Button_pin then some (callback_pressed s now later)
  else callback_keypress s gpio now later

/-- Function `timer_sequence_handler`: next row, driven one-hot on the row pins (the
re-arming of the alarm is not part of the state). -/
def timer_sequence_handler (s : State) : State :=
  let sequence := (s.sequence + 1) % 4
  let sq := (1 <<< sequence) % 2 ^ 8
  { s with sequence := sequence,
           gpio_out := gpio_put_masked s.gpio_out
             ((0xF <<< gpio_rows.getD 0 0) % 2 ^ 32) ((sq <<< gpio_rows.getD 0 0) % 2 ^ 32) }

/-- Function `timerSignalHandler`: one call of `generator` on the current parameters. -/
def timerSignalHandler (s : State) : Option State :=
  generator s s.signal_count s.amplitude s.offsete

/-- Function `timerPrintHandler`: prints the parameters, changes no global. -/
def timerPrintHandler (s : State) : State := s

/-- The interrupt sources. -/
inductive Event where
  | gpio (pin now later : Nat)
  | timer_sequence
  | timer_print
  | timer_signal
  deriving DecidableEq, Repr

/-- One handler run to completion. -/
def step (s : State) : Event → Option State
  | .gpio pin now later => gpio_callback s pin now later
  | .timer_sequence => some (timer_sequence_handler s)
  | .timer_print => some (timerPrintHandler s)
  | .timer_signal => timerSignalHandler s

/-- A finite sequence of handler runs. -/
def run (s : State) (events : List Event) : Option State :=
  events.foldlM step s

/-- A column edge on pin `gpio` arriving while keypad row `row` is the active one. -/
def key_edge (s : State) (row gpio now later : Nat) : Option State :=
  callback_keypress { s with sequence := row } gpio now later

/-- The key `matrix_keys[row][col]`. -/
def key_at (row col : Nat) : Option Char :=
  match matrix_keys[row]? with
  | some keys => keys[col]?
  | none => none

/-- One column edge: the keypad row active when it arrives, the column pin, and the two
times read by `callback_keypress`. -/
structure Edge where
  row : Nat
  gpio : Nat
  now : Nat
  later : Nat
  deriving DecidableEq, Repr

/-- A sequence of column edges handled one after the other. -/
def key_edges (s : State) : List Edge → Option State
  | [] => some s
  | e :: es =>
    match key_edge s e.row e.gpio e.now e.later with
    | none => none
    | some s1 => key_edges s1 es

/-- Each edge of the sequence passes the debounce check against the time stored by the
edge before it (`last` for the first one). -/
def spaced (last : Nat) : List Edge → Prop
  | [] => True
  | e :: es => ¬ sub64 e.now last < DEBOUNCE_TIME_US ∧ spaced e.later es

/-- The edge sits on a column pin and, with its active row, selects key `key`. -/
def decodes (e : Edge) (key : Char) : Prop :=
  ∃ col, gpio_columns[col]? = some e.gpio ∧ key_at e.row col = some key

/-- The ranges kept by the handlers, together with the size of the array `text_input`. -/
def Inv (s : State) : Prop :=
  (100 ≤ s.amplitude ∧ s.amplitude ≤ 2500) ∧ (50 ≤ s.offsete ∧ s.offsete ≤ 1250) ∧
    s.signal_count < 4 ∧ s.signal_index < 100 ∧ s.sequence < 4 ∧
    s.letter_index < MAX_LETTERS_PRESSED ∧ s.text_input.length = MAX_LETTERS_PRESSED

/-- The key presses `A 6 5 7 3 6 D` from start-up, 600 ms apart, with the row-scan ticks
that bring each key's row into place. -/
def keys_A65736D : List Event :=
  [.gpio 9 600000 600000, .timer_sequence, .gpio 8 1200000 1200000,
   .gpio 7 1800000 1800000, .timer_sequence, .gpio 6 2400000 2400000,
   .timer_sequence, .timer_sequence, .gpio 8 3000000 3000000,
   .timer_sequence, .gpio 8 3600000 3600000, .timer_sequence, .timer_sequence,
   .gpio 9 4200000 4200000]

/-- The key presses `B 6 5 5 8 6 D` from start-up, 600 ms apart, with the row-scan ticks
that bring each key's row into place. -/
def keys_B65586D : List Event :=
  [.timer_sequence, .gpio 9 600000 600000, .gpio 8 1200000 1200000,
   .gpio 7 1800000 1800000, .gpio 7 2400000 2400000, .timer_sequence,
   .gpio 7 3000000 3000000, .timer_sequence, .timer_sequence, .timer_sequence,
   .gpio 8 3600000 3600000, .timer_sequence, .timer_sequence,
   .gpio 9 4200000 4200000]

/-- `n` consecutive calls of `generator` with fixed arguments. -/
def generator_iter (type Amp DC : Nat) : Nat → State → Option State
  | 0, s => some s
  | n + 1, s =>
    match generator s type Amp DC with
    | none => none
    | some s1 => generator_iter type Amp DC n s1

/-- A sequence of button edges, each with the two times read by `callback_pressed`. -/
def button_edges (s : State) : List (Nat × Nat) → State
  | [] => s
  | t :: ts => button_edges (callback_pressed s t.1 t.2) ts

/-- Every edge of the sequence passes the debounce check of `callback_pressed`. -/
def button_accepted (s : State) : List (Nat × Nat) → Prop
  | [] => True
  | t :: ts =>
      ¬ sub64 t.1 s.last_press_button_time < DEBOUNCE_TIME_US ∧
        button_accepted (callback_pressed s t.1 t.2) ts

/-- A byte at which the scan of `atoi` ends whatever came before it: no digit, no white
space, no sign.  The keys `A B C D * #` and the zero byte are of this kind. -/
def atoi_stop (c : Char) : Bool :=
  !isdigit c && !isspace c && !(c == '+') && !(c == '-')

/-- The pins of the DAC data lines `D0 .. D7`. -/
def dac_pins : List Nat :=
  [D0_PIN, D1_PIN, D2_PIN, D3_PIN, D4_PIN, D5_PIN, D6_PIN, D7_PIN]

/-- The levels of the eight DAC data lines in an output register, `D0` first. -/
def dac_lines (out : Nat) : List Bool :=
  dac_pins.map (fun pin => out.testBit pin)

/-- The byte whose bit `k` is the `k`-th level of the list. -/
def byte_of_lines : List Bool → Nat
  | [] => 0
  | b :: bs => b.toNat + 2 * byte_of_lines bs

/-! ## Polling variant (`c_pol/main.c`) -/

/-- Button block of the main loop: `count` and `last_button_press` are `int` globals,
`pin` is the level read from `Button_pin` and `time_us_32` the 32-bit timer value. -/
def button_poll (count last_button_press : Int) (pin : Bool) (time_us_32 : Nat) :
    Int × Int :=
  if pin then
    let current_time : Int := ((time_us_32 % 2 ^ 32 / 1000 : Nat) : Int)
    if current_time - last_button_press > 300 then
      (Int.tmod (count + 1) 4, current_time)
    else (count, last_button_press)
  else (count, last_button_press)

/-- The locals of `main` that the keypad and status blocks of the polling loop read or
write.  The C string held in `char text_input[20]` is the list of its characters, the
closing zero byte left out. -/
structure PolState where
  text_input : List Char
  amplitude : Nat
  offsete : Nat
  frequency : Nat
  samp_freq : Nat
  next_execution_time : Nat
  last_keypress_time : Int
  deriving DecidableEq, Repr

/-- The locals as initialised by `main`, `time_us_32` being the timer value read for
`next_execution_time`. -/
def PolState.init (time_us_32 : Nat) : PolState where
  text_input := []
  amplitude := 1000
  offsete := 100
  frequency := 10
  samp_freq := initialize_samp_freq 10
  next_execution_time := time_us_32 % 2 ^ 32 / 1000
  last_keypress_time := 0

/-- Branch `key_pressed == 'D'` of the polling loop: the command held in `text_input` is
applied and the string is emptied by `text_input[0] = 0`.  `atoi` reads the string from
its second character up to the closing zero byte. -/
def pol_command (s : PolState) : Option PolState :=
  match s.text_input with
  | [] => some { s with text_input := [] }
  | c :: tl =>
    if c = 'A' then
      match atoi (tl ++ [NUL]) with
      | none => none
      | some v =>
        let amplitud : Nat := (v % 2 ^ 32).toNat
        if 100 ≤ amplitud ∧ amplitud ≤ 2500 then
          some { s with amplitude := amplitud, text_input := [] }
        else some { s with text_input := [] }
    else if c = 'B' then
      match atoi (tl ++ [NUL]) with
      | none => none
      | some v =>
        let offset : Nat := (v % 2 ^ 32).toNat
        if 50 ≤ offset ∧ offset ≤ 1250 then
          some { s with offsete := offset, text_input := [] }
        else some { s with text_input := [] }
    else if c = 'C' then
      match atoi (tl ++ [NUL]) with
      | none => none
      | some v =>
        let frecuencia : Nat := (v % 2 ^ 32).toNat
        if 1 ≤ frecuencia ∧ frecuencia ≤ 12000000 then
          some { s with frequency := frecuencia,
                        samp_freq := initialize_samp_freq frecuencia, text_input := [] }
        else some { s with text_input := [] }
    else some { s with text_input := [] }

/-- Body of `if (current_time - last_keypress_time > 500)` for a key of the keypad, the
update of `last_keypress_time` apart: `D` applies the command, another key is appended
by `strncat` and the string is emptied when it has reached 10 characters.  `none` when
the appended character and its closing zero byte do not fit the 20 bytes of the
array. -/
def pol_key_pressed (s : PolState) (key_pressed : Char) : Option PolState :=
  if key_pressed = 'D' then pol_command s
  else if s.text_input.length + 2 ≤ 20 then
    some { s with
      text_input :=
        if 10 ≤ (s.text_input ++ [key_pressed]).length then []
        else s.text_input ++ [key_pressed] }
  else none

/-- Body of the two `for` loops of the polling loop for one row and column: `pin` is the
level read on the column while the row is driven, `time_us_32` the timer value. -/
def pol_keypad_cell (s : PolState) (row col : Nat) (pin : Bool) (time_us_32 : Nat) :
    Option PolState :=
  if pin then
    let current_time : Int := ((time_us_32 % 2 ^ 32 / 1000 : Nat) : Int)
    if current_time - s.last_keypress_time > 500 then
      match key_at row col with
      | none => none
      | some key =>
        (pol_key_pressed s key).map (fun s1 => { s1 with last_keypress_time := current_time })
    else some s
  else some s

/-- A sequence of passes through the body of the keypad loops, each given by its row,
column, column level and timer value. -/
def pol_cells (s : PolState) : List (Nat × Nat × Bool × Nat) → Option PolState
  | [] => some s
  | e :: es =>
    match pol_keypad_cell s e.1 e.2.1 e.2.2.1 e.2.2.2 with
    | none => none
    | some s1 => pol_cells s1 es

/-- Status block of the polling loop, on 32-bit unsigned milliseconds; the flag tells
whether the status line is printed on this pass. -/
def pol_status (s : PolState) (time_us_32 : Nat) : PolState × Bool :=
  let current_time := time_us_32 % 2 ^ 32 / 1000
  if 10000 ≤ (current_time + 2 ^ 32 - s.next_execution_time % 2 ^ 32) % 2 ^ 32 then
    ({ s with next_execution_time := (current_time + 10000) % 2 ^ 32 }, true)
  else (s, false)

/-! ## Theorems -/

theorem norm_DC_valid (o : Nat) (ho : o ≤ 1250) : norm_DC o = 255 - o * 255 / 1250 := by
  unfold norm_DC
  have h : o * 255 % 2 ^ 32 = o * 255 := Nat.mod_eq_of_lt (by omega)
  rw [h]
  omega

theorem halved_bounds (a : Nat) (h1 : 100 ≤ a) (h2 : a ≤ 2500) :
    50 ≤ a / 2 ∧ a / 2 ≤ 1250 ∧ 2 ≤ 2500 / (a / 2) ∧ 2500 / (a / 2) ≤ 50 := by
  have hlo : 50 ≤ a / 2 := by omega
  have hhi : a / 2 ≤ 1250 := by omega
  refine ⟨hlo, hhi, ?_, ?_⟩
  · exact (Nat.le_div_iff_mul_le (by omega)).2 (by omega)
  · calc 2500 / (a / 2) ≤ 2500 / 50 := Nat.div_le_div_left hlo (by norm_num)
      _ = 50 := by norm_num

theorem norm_Amp_valid (a : Nat) (h1 : 100 ≤ a) (h2 : a ≤ 2500) :
    norm_Amp a = some (2500 / (a / 2)) := by
  obtain ⟨hlo, _, _, hhi⟩ := halved_bounds a h1 h2
  unfold norm_Amp
  rw [if_neg (by omega)]
  congr 1
  exact Nat.mod_eq_of_lt (by omega)

theorem getElem?_eq_some_getD (l : List Nat) (i : Nat) (h : i < l.length) :
    l[i]? = some (l.getD i 0) := by
  rw [List.getD_eq_getElem l 0 h, List.getElem?_eq_getElem h]

theorem generator_signal_table (w i : Nat) (hw : w < 4) (hi : i < 100) :
    generator_signal w i = some ((waveform_table w).getD i 0) := by
  interval_cases w
  · exact getElem?_eq_some_getD seno i (by simpa [seno] using hi)
  · exact getElem?_eq_some_getD triangular i (by simpa [triangular] using hi)
  · exact getElem?_eq_some_getD sierra i (by simpa [sierra] using hi)
  · exact getElem?_eq_some_getD cuadrada i (by simp [cuadrada]; omega)

theorem scale_signal_byte (r d o : Nat) (hd : d ≠ 0) :
    (scale_signal r d o).map (fun v => v % 256)
      = some ((((r / d : Nat) : Int) - (o : Int)) % 256).toNat := by
  unfold scale_signal
  rw [if_neg hd]
  simp only [Option.map_some']
  congr 1
  omega

theorem generator_byte_valid (w i a o : Nat) (hw : w < 4) (hi : i < 100)
    (ha1 : 100 ≤ a) (ha2 : a ≤ 2500) (ho2 : o ≤ 1250) :
    generator_byte i w a o
      = some (((((waveform_table w).getD i 0 / (2500 / (a / 2)) : Nat) : Int)
          - ((255 - o * 255 / 1250 : Nat) : Int)) % 256).toNat := by
  obtain ⟨_, _, hd, _⟩ := halved_bounds a ha1 ha2
  unfold generator_byte generator_value
  rw [generator_signal_table w i hw hi, norm_Amp_valid a ha1 ha2, norm_DC_valid o ho2]
  exact scale_signal_byte _ _ _ (by omega)

/-- C1: for every selector `w < 4`, index `i < 100`, amplitude `a` in `[100,2500]` and
offset `o` in `[50,1250]`, the byte that `generator` hands to `set_dac_value` is
`((T_w[i] / (2500 / (a / 2))) - (255 - (o * 255) / 1250)) mod 256`, the subtraction being
done over the integers; the same `generator` serves both variants. -/
theorem C1_generator_byte (s : State) (w a o : Nat) (hw : w < 4)
    (hi : s.signal_index < 100) (ha1 : 100 ≤ a) (ha2 : a ≤ 2500)
    (ho1 : 50 ≤ o) (ho2 : o ≤ 1250) :
    generator_byte s.signal_index w a o
        = some (((((waveform_table w).getD s.signal_index 0 / (2500 / (a / 2)) : Nat) : Int)
            - ((255 - o * 255 / 1250 : Nat) : Int)) % 256).toNat ∧
      generator s w a o
        = some { s with
            gpio_out := set_dac_value s.gpio_out
              (((((waveform_table w).getD s.signal_index 0 / (2500 / (a / 2)) : Nat) : Int)
                - ((255 - o * 255 / 1250 : Nat) : Int)) % 256).toNat,
            signal_index := next_signal_index s.signal_index } := by
  have _ := ho1
  have h := generator_byte_valid w s.signal_index a o hw hi ha1 ha2 ho2
  refine ⟨h, ?_⟩
  unfold generator
  rw [h]

theorem C1_generator_byte_witness :
    generator_byte State.init.signal_index 0 1000 100
        = some (((((waveform_table 0).getD State.init.signal_index 0 / (2500 / (1000 / 2)) : Nat)
            : Int) - ((255 - 100 * 255 / 1250 : Nat) : Int)) % 256).toNat ∧
      generator State.init 0 1000 100
        = some { State.init with
            gpio_out := set_dac_value State.init.gpio_out
              (((((waveform_table 0).getD State.init.signal_index 0 / (2500 / (1000 / 2)) : Nat)
                : Int) - ((255 - 100 * 255 / 1250 : Nat) : Int)) % 256).toNat,
            signal_index := next_signal_index State.init.signal_index } :=
  C1_generator_byte State.init 0 1000 100 (by decide) (by decide) (by decide) (by decide)
    (by decide) (by decide)

/-- C2: on validated parameters `generator` never divides by zero: for an amplitude `a`
in `[100,2500]` the halved amplitude lies in `[50,1250]` and the divisor `norm_Amp` is
`2500 / (a / 2)`, in `[2,50]`; for an offset `o` in `[50,1250]` the term `norm_DC` is
`255 - (o * 255) / 1250` without unsigned wrap-around and lies in `[0,245]`; and the
sample computation is defined for every selector below 4 and index below 100. -/
theorem C2_generator_no_division_by_zero (a o : Nat) (ha1 : 100 ≤ a) (ha2 : a ≤ 2500)
    (ho1 : 50 ≤ o) (ho2 : o ≤ 1250) :
    (50 ≤ a / 2 ∧ a / 2 ≤ 1250) ∧
      (norm_Amp a = some (2500 / (a / 2)) ∧ 2 ≤ 2500 / (a / 2) ∧ 2500 / (a / 2) ≤ 50) ∧
      (o * 255 / 1250 ≤ 255 ∧ norm_DC o = 255 - o * 255 / 1250 ∧ norm_DC o ≤ 245) ∧
      ∀ w < 4, ∀ i < 100, (generator_value i w a o).isSome = true := by
  obtain ⟨h1, h2, h3, h4⟩ := halved_bounds a ha1 ha2
  have hdc := norm_DC_valid o ho2
  refine ⟨⟨h1, h2⟩, ⟨norm_Amp_valid a ha1 ha2, h3, h4⟩, ⟨by omega, hdc, by omega⟩, ?_⟩
  intro w hw i hi
  have h := generator_byte_valid w i a o hw hi ha1 ha2 ho2
  unfold generator_byte at h
  cases hv : generator_value i w a o with
  | none => rw [hv] at h; simp at h
  | some v => rfl

theorem C2_generator_no_division_by_zero_witness :
    (50 ≤ 100 / 2 ∧ 100 / 2 ≤ 1250) ∧
      (norm_Amp 100 = some (2500 / (100 / 2)) ∧ 2 ≤ 2500 / (100 / 2) ∧ 2500 / (100 / 2) ≤ 50) ∧
      (50 * 255 / 1250 ≤ 255 ∧ norm_DC 50 = 255 - 50 * 255 / 1250 ∧ norm_DC 50 ≤ 245) ∧
      (generator_value 99 3 100 50).isSome = true :=
  have h := C2_generator_no_division_by_zero 100 50 (by decide) (by decide) (by decide)
    (by decide)
  ⟨h.1, h.2.1, h.2.2.1, h.2.2.2 3 (by decide) 99 (by decide)⟩

/-! ### `atoi` -/

theorem atoi_digits_append (ds : List Char) (hds : ∀ d ∈ ds, isdigit d = true)
    (c : Char) (hc : isdigit c = false) (rest : List Char) (acc : Nat) :
    atoi_digits (ds ++ c :: rest) acc
      = some (ds.foldl (fun acc c => 10 * acc + (c.toNat - 48)) acc) := by
  induction ds generalizing acc with
  | nil => simp [atoi_digits, hc]
  | cons d ds ih =>
    have hd : isdigit d = true := hds d (List.mem_cons_self _ _)
    simp only [List.cons_append, atoi_digits, hd, if_true, List.foldl_cons]
    exact ih (fun x hx => hds x (List.mem_cons_of_mem _ hx)) _

theorem isdigit_not_space_sign (c : Char) (h : isdigit c = true) :
    isspace c = false ∧ c ≠ '-' ∧ c ≠ '+' := by
  simp only [isdigit, Bool.and_eq_true, decide_eq_true_eq] at h
  refine ⟨?_, ?_, ?_⟩
  · simp only [isspace, Bool.or_eq_false_iff, decide_eq_false_iff_not, Bool.and_eq_false_iff]
    omega
  · rintro rfl
    revert h
    decide
  · rintro rfl
    revert h
    decide

theorem foldl_digits_lt (ds : List Char) (hds : ∀ d ∈ ds, isdigit d = true) (acc : Nat) :
    ds.foldl (fun acc c => 10 * acc + (c.toNat - 48)) acc < (acc + 1) * 10 ^ ds.length := by
  induction ds generalizing acc with
  | nil => simp
  | cons d ds ih =>
    have hd : isdigit d = true := hds d (List.mem_cons_self _ _)
    simp only [isdigit, Bool.and_eq_true, decide_eq_true_eq] at hd
    simp only [List.foldl_cons, List.length_cons]
    have h := ih (fun x hx => hds x (List.mem_cons_of_mem _ hx)) (10 * acc + (d.toNat - 48))
    calc _ < (10 * acc + (d.toNat - 48) + 1) * 10 ^ ds.length := h
      _ ≤ ((acc + 1) * 10) * 10 ^ ds.length := Nat.mul_le_mul_right _ (by omega)
      _ = (acc + 1) * 10 ^ (ds.length + 1) := by rw [pow_succ]; ring

theorem decimal_value_lt (ds : List Char) (hds : ∀ d ∈ ds, isdigit d = true) :
    decimal_value ds < 10 ^ ds.length := by
  have h := foldl_digits_lt ds hds 0
  simpa [decimal_value] using h

/-- Value of `atoi` on a run of digits closed by a byte that is no digit; when the run is
empty the closing byte must be neither white space nor a sign. -/
theorem atoi_digits_stop (ds : List Char) (hds : ∀ d ∈ ds, isdigit d = true)
    (c : Char) (hc : isdigit c = false)
    (hstop : ds = [] → isspace c = false ∧ c ≠ '-' ∧ c ≠ '+')
    (rest : List Char) (hlen : ds.length ≤ 9) :
    atoi (ds ++ c :: rest) = some (decimal_value ds : Int) := by
  have hval : atoi_skip (ds ++ c :: rest) = some (decimal_value ds : Int) := by
    cases ds with
    | nil =>
      obtain ⟨h1, h2, h3⟩ := hstop rfl
      simp [atoi_skip, atoi_sign, atoi_digits, h1, h2, h3, hc, decimal_value]
    | cons d ds =>
      have hd : isdigit d = true := hds d (List.mem_cons_self _ _)
      obtain ⟨h1, h2, h3⟩ := isdigit_not_space_sign d hd
      have happ := atoi_digits_append (d :: ds) hds c hc rest 0
      simp only [List.cons_append] at happ
      simp only [List.cons_append, atoi_skip, atoi_sign, h1, h2, h3]
      simp only [Bool.false_eq_true, if_false]
      exact congrArg (Option.map Int.ofNat) happ
  have hlt : decimal_value ds < 10 ^ 9 :=
    lt_of_lt_of_le (decimal_value_lt ds hds) (Nat.pow_le_pow_right (by norm_num) hlen)
  unfold atoi
  rw [hval]
  have h1 : (-(2 ^ 31) : Int) ≤ (decimal_value ds : Int) := by
    have : (0 : Int) ≤ (decimal_value ds : Int) := Int.ofNat_nonneg _
    omega
  have h2 : (decimal_value ds : Int) < 2 ^ 31 := by
    have : (decimal_value ds : Int) < 10 ^ 9 := by exact_mod_cast hlt
    omega
  simp only []
  rw [if_pos ⟨h1, h2⟩]

/-! ### `analyze_text_input` on a command letter followed by digits -/

theorem trunc_cast (n k : Nat) : (((n : Int) % 2 ^ k).toNat) = n % 2 ^ k := by
  have h : ((n : Int) % 2 ^ k) = ((n % 2 ^ k : Nat) : Int) := by push_cast; rfl
  rw [h, Int.toNat_ofNat]

theorem analyze_amplitude (s : State) (ds : List Char) (c : Char) (rest : List Char)
    (h : s.text_input = 'A' :: (ds ++ c :: rest))
    (hds : ∀ d ∈ ds, isdigit d = true) (hc : isdigit c = false)
    (hstop : ds = [] → isspace c = false ∧ c ≠ '-' ∧ c ≠ '+') (hlen : ds.length ≤ 9) :
    analyze_text_input s
      = some (clear_text_input
          (if 100 ≤ decimal_value ds % 2 ^ 16 ∧ decimal_value ds % 2 ^ 16 ≤ 2500
            then { s with amplitude := decimal_value ds % 2 ^ 16 } else s)) := by
  have hat := atoi_digits_stop ds hds c hc hstop rest hlen
  unfold analyze_text_input
  simp only [h, List.getElem?_cons_zero, List.drop_succ_cons, List.drop_zero, if_true, hat,
    trunc_cast]
  split <;> rfl

theorem analyze_offset (s : State) (ds : List Char) (c : Char) (rest : List Char)
    (h : s.text_input = 'B' :: (ds ++ c :: rest))
    (hds : ∀ d ∈ ds, isdigit d = true) (hc : isdigit c = false)
    (hstop : ds = [] → isspace c = false ∧ c ≠ '-' ∧ c ≠ '+') (hlen : ds.length ≤ 9) :
    analyze_text_input s
      = some (clear_text_input
          (if 50 ≤ decimal_value ds % 2 ^ 16 ∧ decimal_value ds % 2 ^ 16 ≤ 1250
            then { s with offsete := decimal_value ds % 2 ^ 16 } else s)) := by
  have hat := atoi_digits_stop ds hds c hc hstop rest hlen
  have hBA : ('B' : Char) ≠ 'A' := by decide
  unfold analyze_text_input
  simp only [h, List.getElem?_cons_zero, List.drop_succ_cons, List.drop_zero, if_true, hat,
    trunc_cast, hBA, if_false]
  split <;> rfl

theorem analyze_frequency (s : State) (ds : List Char) (c : Char) (rest : List Char)
    (h : s.text_input = 'C' :: (ds ++ c :: rest))
    (hds : ∀ d ∈ ds, isdigit d = true) (hc : isdigit c = false)
    (hstop : ds = [] → isspace c = false ∧ c ≠ '-' ∧ c ≠ '+') (hlen : ds.length ≤ 9) :
    analyze_text_input s
      = some (clear_text_input
          { s with frequency := decimal_value ds,
                   samp_freq := initialize_samp_freq (decimal_value ds) }) := by
  have hat := atoi_digits_stop ds hds c hc hstop rest hlen
  have hCA : ('C' : Char) ≠ 'A' := by decide
  have hCB : ('C' : Char) ≠ 'B' := by decide
  have hlt : decimal_value ds % 2 ^ 32 = decimal_value ds := by
    apply Nat.mod_eq_of_lt
    calc decimal_value ds < 10 ^ ds.length := decimal_value_lt ds hds
      _ ≤ 10 ^ 9 := Nat.pow_le_pow_right (by norm_num) hlen
      _ < 2 ^ 32 := by norm_num
  unfold analyze_text_input
  simp only [h, List.getElem?_cons_zero, List.drop_succ_cons, List.drop_zero, if_true, hat,
    trunc_cast, hCA, hCB, if_false, hlt]

/-! ### binary64 rounding -/

theorem bitLenAux_zero (fuel : Nat) : bitLenAux fuel 0 = 0 := by
  cases fuel <;> simp [bitLenAux]

theorem bitLenAux_spec (fuel n : Nat) (h : n < 2 ^ fuel) :
    n < 2 ^ bitLenAux fuel n ∧ (n ≠ 0 → 2 ^ bitLenAux fuel n ≤ 2 * n) := by
  induction fuel generalizing n with
  | zero =>
    have : n = 0 := by simpa using h
    subst this
    simp [bitLenAux]
  | succ fuel ih =>
    by_cases hn : n = 0
    · subst hn; simp [bitLenAux]
    · have hlt : n / 2 < 2 ^ fuel := by
        rw [pow_succ] at h; omega
      obtain ⟨h1, h2⟩ := ih (n / 2) hlt
      simp only [bitLenAux, hn, if_false, pow_succ]
      refine ⟨by omega, fun _ => ?_⟩
      by_cases h0 : n / 2 = 0
      · rw [h0, bitLenAux_zero]; simp; omega
      · have := h2 h0; omega

theorem bitLen_spec (n : Nat) : n < 2 ^ bitLen n ∧ (n ≠ 0 → 2 ^ bitLen n ≤ 2 * n) :=
  bitLenAux_spec n n (Nat.lt_two_pow n)

theorem bitLen_le (n k : Nat) (h : n < 2 ^ k) : bitLen n ≤ k := by
  by_cases hn : n = 0
  · subst hn; simp [bitLen, bitLenAux_zero]
  · have h2 := (bitLen_spec n).2 hn
    have h3 : 2 ^ bitLen n < 2 ^ (k + 1) := by rw [pow_succ]; omega
    have := (Nat.pow_lt_pow_iff_right (by norm_num : 1 < 2)).1 h3
    omega

theorem zpow_split (l : Int) : (2 : ℚ) ^ l = 2 ^ l.toNat / 2 ^ (-l).toNat := by
  rcases le_or_lt 0 l with h | h
  · have h1 : (-l).toNat = 0 := by omega
    have h2 : (l.toNat : Int) = l := Int.toNat_of_nonneg h
    rw [h1, pow_zero, div_one, ← zpow_natCast, h2]
  · have h1 : l.toNat = 0 := by omega
    have h2 : ((-l).toNat : Int) = -l := Int.toNat_of_nonneg (by omega)
    rw [h1, pow_zero, one_div, ← zpow_natCast, h2, zpow_neg, inv_inv]

/-- The quotient that `Dbl.round` hands to `roundHalfEven` is `n / d` scaled by `2 ^ (-e)`. -/
theorem scaled_quotient (n d : Nat) (e : Int) :
    ((n * 2 ^ (-e).toNat : Nat) : ℚ) / ((d * 2 ^ e.toNat : Nat) : ℚ)
      = (n : ℚ) / d * ((2 : ℚ) ^ e)⁻¹ := by
  rw [zpow_split e]
  have h1 : (2 : ℚ) ^ e.toNat ≠ 0 := pow_ne_zero _ (by norm_num)
  have h2 : (2 : ℚ) ^ (-e).toNat ≠ 0 := pow_ne_zero _ (by norm_num)
  push_cast
  by_cases hd : (d : ℚ) = 0
  · simp [hd]
  · field_simp

theorem binade_spec (n d : Nat) (hn : 0 < n) (hd : 0 < d) :
    (2 : ℚ) ^ binade n d ≤ (n : ℚ) / d ∧ (n : ℚ) / d < 2 ^ (binade n d + 1) := by
  have hdq : (0 : ℚ) < d := by exact_mod_cast hd
  have hnq : (0 : ℚ) < n := by exact_mod_cast hn
  obtain ⟨n1, n2⟩ := bitLen_spec n
  obtain ⟨d1, d2⟩ := bitLen_spec d
  have n2 := n2 (by omega)
  have d2 := d2 (by omega)
  have n1q : (n : ℚ) < 2 ^ bitLen n := by exact_mod_cast n1
  have n2q : (2 : ℚ) ^ bitLen n ≤ 2 * n := by exact_mod_cast n2
  have d1q : (d : ℚ) < 2 ^ bitLen d := by exact_mod_cast d1
  have d2q : (2 : ℚ) ^ bitLen d ≤ 2 * d := by exact_mod_cast d2
  have hpd : (0 : ℚ) < 2 ^ bitLen d := by positivity
  have hl : (2 : ℚ) ^ ((bitLen n : Int) - (bitLen d : Int)) = 2 ^ bitLen n / 2 ^ bitLen d := by
    rw [zpow_sub₀ (by norm_num), zpow_natCast, zpow_natCast]
  have hchk : (d * 2 ^ ((bitLen n : Int) - (bitLen d : Int)).toNat
        ≤ n * 2 ^ (-((bitLen n : Int) - (bitLen d : Int))).toNat)
      ↔ (2 : ℚ) ^ ((bitLen n : Int) - (bitLen d : Int)) ≤ (n : ℚ) / d := by
    rw [zpow_split, div_le_div_iff₀ (by positivity) hdq]
    constructor
    · intro h
      have : ((d * 2 ^ ((bitLen n : Int) - (bitLen d : Int)).toNat : Nat) : ℚ)
          ≤ ((n * 2 ^ (-((bitLen n : Int) - (bitLen d : Int))).toNat : Nat) : ℚ) := by
        exact_mod_cast h
      push_cast at this
      linarith
    · intro h
      have : ((d * 2 ^ ((bitLen n : Int) - (bitLen d : Int)).toNat : Nat) : ℚ)
          ≤ ((n * 2 ^ (-((bitLen n : Int) - (bitLen d : Int))).toNat : Nat) : ℚ) := by
        push_cast
        linarith
      exact_mod_cast this
  unfold binade
  simp only []
  split
  · rename_i h
    refine ⟨hchk.1 h, ?_⟩
    have e1 : (2 : ℚ) ^ ((bitLen n : Int) - (bitLen d : Int) + 1)
        = (2 * 2 ^ bitLen n) / 2 ^ bitLen d := by
      rw [zpow_add₀ (by norm_num), hl, zpow_one]; ring
    rw [e1, div_lt_div_iff₀ hdq hpd]
    have a1 := mul_le_mul_of_nonneg_left d2q hnq.le
    have a2 := mul_lt_mul_of_pos_right n1q (by positivity : (0 : ℚ) < 2 * d)
    linarith
  · rename_i h
    have h' : ¬ (2 : ℚ) ^ ((bitLen n : Int) - (bitLen d : Int)) ≤ (n : ℚ) / d :=
      fun x => h (hchk.2 x)
    push_neg at h'
    refine ⟨?_, by simpa using h'⟩
    have e2 : (2 : ℚ) ^ ((bitLen n : Int) - (bitLen d : Int) - 1)
        = 2 ^ bitLen n / (2 * 2 ^ bitLen d) := by
      rw [zpow_sub₀ (by norm_num), hl, zpow_one, div_div, mul_comm]
    rw [e2, div_le_div_iff₀ (by positivity) hdq]
    have a1 := mul_le_mul_of_nonneg_right n2q hdq.le
    have a2 := mul_le_mul_of_nonneg_left d1q.le (by positivity : (0 : ℚ) ≤ 2 * n)
    linarith

theorem roundHalfEven_spec (n d : Nat) (hd : 0 < d) :
    2 * (roundHalfEven n d * d) ≤ 2 * n + d ∧ 2 * n ≤ 2 * (roundHalfEven n d * d) + d := by
  have h := Nat.div_add_mod n d
  have hr := Nat.mod_lt n hd
  have hq1 : (n / d + 1) * d = d * (n / d) + d := by ring
  have hq0 : n / d * d = d * (n / d) := by ring
  unfold roundHalfEven
  simp only []
  split
  · rw [hq0]; omega
  · split
    · rw [hq1]; omega
    · split
      · rw [hq0]; omega
      · rw [hq1]; omega

/-- In the normal range `Dbl.round` returns a finite value within relative distance
`2 ^ (-53)` of the exact quotient. -/
theorem round_spec (n d : Nat) (hn : 0 < n) (hd : 0 < d)
    (hlo : (2 : ℚ) ^ (-1022 : Int) ≤ (n : ℚ) / d) (hhi : (n : ℚ) / d < 2 ^ (1023 : Int)) :
    ∃ m e, Dbl.round n d = .fin m e ∧
      |(m : ℚ) * 2 ^ e - (n : ℚ) / d| ≤ (n : ℚ) / d * 2 ^ (-53 : Int) := by
  obtain ⟨hb1, hb2⟩ := binade_spec n d hn hd
  have hblo : -1022 ≤ binade n d := by
    have := lt_of_le_of_lt hlo hb2
    have := (zpow_lt_zpow_iff_right₀ (by norm_num : (1 : ℚ) < 2)).1 this
    omega
  have hbhi : binade n d ≤ 1022 := by
    have := lt_of_le_of_lt hb1 hhi
    have := (zpow_lt_zpow_iff_right₀ (by norm_num : (1 : ℚ) < 2)).1 this
    omega
  have he : max (binade n d - 52) (-1074) = binade n d - 52 := max_eq_left (by omega)
  have hD : 0 < d * 2 ^ (binade n d - 52).toNat := Nat.mul_pos hd (by positivity)
  obtain ⟨r1, r2⟩ := roundHalfEven_spec (n * 2 ^ (-(binade n d - 52)).toNat)
    (d * 2 ^ (binade n d - 52).toNat) hD
  have hq := scaled_quotient n d (binade n d - 52)
  have hform : Dbl.round n d
      = if 1024 < (bitLen (roundHalfEven (n * 2 ^ (-(binade n d - 52)).toNat)
            (d * 2 ^ (binade n d - 52).toNat)) : Int) + (binade n d - 52) then Dbl.inf
        else Dbl.fin (roundHalfEven (n * 2 ^ (-(binade n d - 52)).toNat)
            (d * 2 ^ (binade n d - 52).toNat)) (binade n d - 52) := by
    unfold Dbl.round
    simp only [he]
    rw [if_neg (by omega)]
  set m := roundHalfEven (n * 2 ^ (-(binade n d - 52)).toNat)
    (d * 2 ^ (binade n d - 52).toNat) with hm
  set N := n * 2 ^ (-(binade n d - 52)).toNat with hN
  set D := d * 2 ^ (binade n d - 52).toNat with hDdef
  have hDq : (0 : ℚ) < (D : ℚ) := by exact_mod_cast hD
  have r1q : 2 * ((m : ℚ) * D) ≤ 2 * N + D := by exact_mod_cast r1
  have r2q : 2 * (N : ℚ) ≤ 2 * ((m : ℚ) * D) + D := by exact_mod_cast r2
  have hP : (0 : ℚ) < 2 ^ (binade n d - 52) := by positivity
  have hNr : (N : ℚ) = (n : ℚ) / d * ((2 : ℚ) ^ (binade n d - 52))⁻¹ * D := by
    rw [← hq]; field_simp
  set x := (n : ℚ) / d with hx
  set P := (2 : ℚ) ^ (binade n d - 52) with hPdef
  have hPinv : (0 : ℚ) < P⁻¹ := inv_pos.2 hP
  have u1 : (m : ℚ) - x * P⁻¹ ≤ 1 / 2 := by
    by_contra hc
    push_neg at hc
    nlinarith
  have u2 : x * P⁻¹ - (m : ℚ) ≤ 1 / 2 := by
    by_contra hc
    push_neg at hc
    nlinarith
  have hPP : P⁻¹ * P = 1 := inv_mul_cancel₀ hP.ne'
  have hP53 : P = 2 ^ binade n d * 2 ^ (-53 : Int) * 2 := by
    rw [hPdef, ← zpow_add₀ (by norm_num), ← zpow_add_one₀ (by norm_num)]
    congr 1
    ring
  have h53 : (0 : ℚ) < 2 ^ (-53 : Int) := by positivity
  have hbound : P / 2 ≤ x * 2 ^ (-53 : Int) := by
    rw [hP53]
    have := mul_le_mul_of_nonneg_right hb1 h53.le
    linarith
  have herr : |(m : ℚ) * P - x| ≤ x * 2 ^ (-53 : Int) := by
    have e1 : (m : ℚ) * P - x = ((m : ℚ) - x * P⁻¹) * P := by
      rw [sub_mul, mul_assoc, hPP, mul_one]
    rw [e1, abs_mul, abs_of_pos hP]
    have : |(m : ℚ) - x * P⁻¹| ≤ 1 / 2 := abs_le.2 ⟨by linarith, u1⟩
    have := mul_le_mul_of_nonneg_right this hP.le
    linarith
  have hmle : m < 2 ^ 54 := by
    have hx2 : x * P⁻¹ < 2 ^ (53 : Nat) := by
      have h1 : x * P⁻¹ < 2 ^ (binade n d + 1) * P⁻¹ := mul_lt_mul_of_pos_right hb2 hPinv
      have h2 : (2 : ℚ) ^ (binade n d + 1) * P⁻¹ = 2 ^ (53 : Nat) := by
        rw [hPdef, ← zpow_neg, ← zpow_add₀ (by norm_num), ← zpow_natCast]
        congr 1
        push_cast
        ring
      linarith
    have : (m : ℚ) < 2 ^ (54 : Nat) := by
      have : (2 : ℚ) ^ (54 : Nat) = 2 ^ (53 : Nat) * 2 := by norm_num
      have : (0 : ℚ) < 2 ^ (53 : Nat) := by positivity
      linarith
    exact_mod_cast this
  have hbl := bitLen_le m 54 hmle
  refine ⟨m, binade n d - 52, ?_, herr⟩
  rw [hform, if_neg (by omega)]

theorem samp_freq_scale :
    Dbl.mul (Dbl.ofUInt32 1000000) (Dbl.div (Dbl.ofUInt32 1) (Dbl.ofUInt32 points))
      = .fin 5497558138880000 (-39) := by
  decide

theorem samp_freq_divisors :
    ∀ f ∈ Nat.divisors 10000, initialize_samp_freq f = 10000 / f := by
  decide!

set_option maxHeartbeats 1000000 in
/-- The `double` computation of `initialize_samp_freq` agrees with integer division. -/
theorem initialize_samp_freq_eq (f : Nat) (h1 : 1 ≤ f) (h2 : f < 2 ^ 32) :
    initialize_samp_freq f = 1000000 / 100 / f := by
  have hgoal : (1000000 / 100 / f : Nat) = 10000 / f := by norm_num
  rw [hgoal]
  by_cases hdiv : f ∣ 10000
  · exact samp_freq_divisors f (Nat.mem_divisors.2 ⟨hdiv, by norm_num⟩)
  have hF1 : (1 : ℚ) ≤ f := by exact_mod_cast h1
  have hF : (0 : ℚ) < f := by linarith
  have hF2 : (f : ℚ) < 4294967296 := by exact_mod_cast h2
  have hε : (2 : ℚ) ^ (-53 : Int) = 1 / 9007199254740992 := by norm_num [zpow_neg]
  -- first operation: `1.0 / frequency`
  have hlo1 : (2 : ℚ) ^ (-1022 : Int) ≤ ((1 : Nat) : ℚ) / f := by
    have b : (2 : ℚ) ^ (-32 : Int) = 1 / 4294967296 := by norm_num [zpow_neg]
    calc (2 : ℚ) ^ (-1022 : Int) ≤ 2 ^ (-32 : Int) :=
          zpow_le_zpow_right₀ (by norm_num) (by norm_num)
      _ = 1 / 4294967296 := b
      _ ≤ 1 / f := one_div_le_one_div_of_le hF hF2.le
      _ = ((1 : Nat) : ℚ) / f := by push_cast; rfl
  have hhi1 : ((1 : Nat) : ℚ) / f < 2 ^ (1023 : Int) := by
    calc ((1 : Nat) : ℚ) / f ≤ 1 := by
          push_cast
          rw [div_le_one hF]; exact hF1
      _ < 2 ^ (1023 : Int) := one_lt_zpow₀ (by norm_num) (by norm_num)
  obtain ⟨m1, e1, hr1, herr1⟩ := round_spec 1 f (by norm_num) h1 hlo1 hhi1
  have hdivf : Dbl.div (Dbl.ofUInt32 1) (Dbl.ofUInt32 f) = Dbl.fin m1 e1 := by
    rw [← hr1]
    simp only [Dbl.ofUInt32, Dbl.div]
    rw [if_neg (by omega)]
    simp
  push_cast at herr1
  rw [hε] at herr1
  obtain ⟨l1, u1⟩ := abs_le.1 herr1
  set x1 := (m1 : ℚ) * 2 ^ e1 with hx1
  have hinv : (1 : ℚ) / f * f = 1 := by field_simp
  have hu_lo : 1 - 1 / 9007199254740992 ≤ x1 * f := by
    have h := mul_le_mul_of_nonneg_right l1 hF.le
    have e1 : -(1 / (f : ℚ) * (1 / 9007199254740992)) * f
        = -(1 / 9007199254740992) * (1 / f * f) := by ring
    have e2 : (x1 - 1 / f) * f = x1 * f - 1 / f * f := by ring
    rw [e1, e2, hinv] at h
    linarith
  have hu_hi : x1 * f ≤ 1 + 1 / 9007199254740992 := by
    have h := mul_le_mul_of_nonneg_right u1 hF.le
    have e1 : (1 / (f : ℚ) * (1 / 9007199254740992)) * f
        = (1 / 9007199254740992) * (1 / f * f) := by ring
    have e2 : (x1 - 1 / f) * f = x1 * f - 1 / f * f := by ring
    rw [e1, e2, hinv] at h
    linarith
  have hx1pos : 0 < x1 := by
    by_contra hc
    push_neg at hc
    have := mul_nonpos_of_nonpos_of_nonneg hc hF.le
    linarith
  have hm1 : 0 < m1 := by
    rcases Nat.eq_zero_or_pos m1 with h0 | h0
    · rw [hx1, h0] at hx1pos; simp at hx1pos
    · exact h0
  -- second operation: the product with `1000000.0 * (1.0 / points)`
  have hmul : Dbl.mul (Dbl.fin 5497558138880000 (-39)) (Dbl.fin m1 e1)
      = Dbl.round (5497558138880000 * m1 * 2 ^ (-39 + e1).toNat)
          (2 ^ (-(-39 + e1)).toNat) := rfl
  have hy : (((5497558138880000 * m1 * 2 ^ (-39 + e1).toNat : Nat) : ℚ)
      / ((2 ^ (-(-39 + e1)).toNat : Nat) : ℚ)) = 10000 * x1 := by
    have a : (2 : ℚ) ^ (-39 + e1) = 2 ^ (-39 : Int) * 2 ^ e1 := zpow_add₀ (by norm_num) _ _
    have b : (2 : ℚ) ^ (-39 : Int) = 1 / 549755813888 := by norm_num [zpow_neg]
    have c := zpow_split (-39 + e1)
    push_cast
    rw [mul_div_assoc, ← c, a, b, hx1]
    ring
  have hn2 : 0 < 5497558138880000 * m1 * 2 ^ (-39 + e1).toNat :=
    Nat.mul_pos (Nat.mul_pos (by norm_num) hm1) (by positivity)
  have hd2 : 0 < 2 ^ (-(-39 + e1)).toNat := by positivity
  have hx1lo : 1 / 8589934592 ≤ x1 := by
    have : x1 * f ≤ x1 * 4294967296 := mul_le_mul_of_nonneg_left hF2.le hx1pos.le
    linarith
  have hx1hi : x1 ≤ 2 := by
    have : x1 * 1 ≤ x1 * f := mul_le_mul_of_nonneg_left hF1 hx1pos.le
    linarith
  have hlo2 : (2 : ℚ) ^ (-1022 : Int) ≤ ((5497558138880000 * m1 * 2 ^ (-39 + e1).toNat : Nat) : ℚ)
      / ((2 ^ (-(-39 + e1)).toNat : Nat) : ℚ) := by
    rw [hy]
    have b : (2 : ℚ) ^ (-33 : Int) = 1 / 8589934592 := by norm_num [zpow_neg]
    calc (2 : ℚ) ^ (-1022 : Int) ≤ 2 ^ (-33 : Int) :=
          zpow_le_zpow_right₀ (by norm_num) (by norm_num)
      _ = 1 / 8589934592 := b
      _ ≤ 10000 * x1 := by linarith
  have hhi2 : ((5497558138880000 * m1 * 2 ^ (-39 + e1).toNat : Nat) : ℚ)
      / ((2 ^ (-(-39 + e1)).toNat : Nat) : ℚ) < 2 ^ (1023 : Int) := by
    rw [hy]
    have c : (2 : ℚ) ^ (15 : Int) = 32768 := by norm_num
    calc 10000 * x1 < 32768 := by linarith
      _ = 2 ^ (15 : Int) := c.symm
      _ ≤ 2 ^ (1023 : Int) := zpow_le_zpow_right₀ (by norm_num) (by norm_num)
  obtain ⟨m2, e2, hr2, herr2⟩ := round_spec _ _ hn2 hd2 hlo2 hhi2
  rw [hy, hε] at herr2
  obtain ⟨l2, u2⟩ := abs_le.1 herr2
  set v := (m2 : ℚ) * 2 ^ e2 with hv
  have hw_lo : 9999 < v * f := by
    have h := mul_le_mul_of_nonneg_right l2 hF.le
    have e1 : -(10000 * x1 * (1 / 9007199254740992)) * (f : ℚ)
        = -(10000 / 9007199254740992) * (x1 * f) := by ring
    have e2 : (v - 10000 * x1) * f = v * f - 10000 * (x1 * f) := by ring
    rw [e1, e2] at h
    linarith
  have hw_hi : v * f < 10001 := by
    have h := mul_le_mul_of_nonneg_right u2 hF.le
    have e1 : (10000 * x1 * (1 / 9007199254740992)) * (f : ℚ)
        = (10000 / 9007199254740992) * (x1 * f) := by ring
    have e2 : (v - 10000 * x1) * f = v * f - 10000 * (x1 * f) := by ring
    rw [e1, e2] at h
    linarith
  -- the quotient and remainder of the integer division
  have hqr := Nat.div_add_mod 10000 f
  have ht1 : 1 ≤ 10000 % f := by
    rcases Nat.eq_zero_or_pos (10000 % f) with h0 | h0
    · exact absurd (Nat.dvd_of_mod_eq_zero h0) hdiv
    · exact h0
  have ht2 : 10000 % f + 1 ≤ f := Nat.mod_lt _ h1
  have hqrq : (f : ℚ) * ((10000 / f : Nat) : ℚ) + ((10000 % f : Nat) : ℚ) = 10000 := by
    exact_mod_cast hqr
  have ht1q : (1 : ℚ) ≤ ((10000 % f : Nat) : ℚ) := by exact_mod_cast ht1
  have ht2q : ((10000 % f : Nat) : ℚ) + 1 ≤ f := by exact_mod_cast ht2
  have hv_lo : ((10000 / f : Nat) : ℚ) < v := by
    by_contra hc
    push_neg at hc
    have := mul_le_mul_of_nonneg_right hc hF.le
    linarith
  have hv_hi : v < ((10000 / f : Nat) : ℚ) + 1 := by
    by_contra hc
    push_neg at hc
    have := mul_le_mul_of_nonneg_right hc hF.le
    linarith
  -- the cast back to `uint32_t`
  have hvsplit : v = ((m2 * 2 ^ e2.toNat : Nat) : ℚ) / ((2 ^ (-e2).toNat : Nat) : ℚ) := by
    rw [hv, zpow_split e2]; push_cast; ring
  have hD3 : (0 : ℚ) < ((2 ^ (-e2).toNat : Nat) : ℚ) := by positivity
  have hfloor : m2 * 2 ^ e2.toNat / 2 ^ (-e2).toNat = 10000 / f := by
    apply Nat.div_eq_of_lt_le
    · have : ((10000 / f : Nat) : ℚ) * ((2 ^ (-e2).toNat : Nat) : ℚ)
          ≤ ((m2 * 2 ^ e2.toNat : Nat) : ℚ) := by
        rw [hvsplit, lt_div_iff₀ hD3] at hv_lo
        exact hv_lo.le
      exact_mod_cast this
    · have : ((m2 * 2 ^ e2.toNat : Nat) : ℚ)
          < (((10000 / f).succ : Nat) : ℚ) * ((2 ^ (-e2).toNat : Nat) : ℚ) := by
        rw [hvsplit, div_lt_iff₀ hD3] at hv_hi
        push_cast at hv_hi ⊢
        exact hv_hi
      exact_mod_cast this
  have hq_le : 10000 / f ≤ 10000 := Nat.div_le_self _ _
  unfold initialize_samp_freq
  rw [samp_freq_scale, hdivf, hmul, hr2]
  simp only [Dbl.toUInt32]
  rw [hfloor]
  exact min_eq_left (by omega)

/-! ### Accepted key edges -/

theorem lt_length_of_getElem? {α : Type} (l : List α) (i : Nat) (x : α)
    (h : l[i]? = some x) : i < l.length := by
  by_contra hc
  rw [List.getElem?_eq_none (by omega)] at h
  cases h

theorem key_at_bounds (row col : Nat) (key : Char) (hk : key_at row col = some key) :
    row < 4 ∧ col < 4 := by
  unfold key_at at hk
  cases hr : matrix_keys[row]? with
  | none => rw [hr] at hk; cases hk
  | some keys =>
    rw [hr] at hk
    have hrow : row < 4 := lt_length_of_getElem? _ _ _ hr
    refine ⟨hrow, ?_⟩
    have hcol := lt_length_of_getElem? _ _ _ hk
    interval_cases row <;> simp [matrix_keys] at hr <;> subst hr <;> simpa using hcol

theorem key_edge_accept (s : State) (row col gpio now later : Nat) (key : Char)
    (hpin : gpio_columns[col]? = some gpio) (hk : key_at row col = some key)
    (hacc : ¬ sub64 now s.last_press_time < DEBOUNCE_TIME_US)
    (hli : s.letter_index < s.text_input.length) :
    key_edge s row gpio now later
      = (if key = 'D' then analyze_text_input (store_key { s with sequence := row } key)
          else some (store_key { s with sequence := row } key)).map
            (fun s2 => { s2 with last_press_time := later }) := by
  obtain ⟨hrow, hcol⟩ := key_at_bounds row col key hk
  unfold key_edge callback_keypress
  rw [if_neg hacc]
  interval_cases col <;> simp [gpio_columns] at hpin <;> subst hpin <;>
    interval_cases row <;> simp [key_at, matrix_keys] at hk <;> subst hk <;>
    simp [List.foldlM, keypress_column, gpio_columns, matrix_keys, hli]

/-! ### Parameter commands -/


/-- C3 (defect of the code): `analyze_text_input` stores the parsed amplitude in a 16-bit
variable before the range check.  With the buffer `A65736D` the digits denote
`n = 65736`, outside `[100,2500]`, yet the amplitude changes from 1000 to
`65736 mod 65536 = 200`; the buffer is reached from start-up by the key presses
`keys_A65736D`. -/
theorem C3_amplitude_check_on_truncated_value :
    decimal_value ['6', '5', '7', '3', '6'] = 65736 ∧
      (analyze_text_input
          { State.init with
            text_input := ['A', '6', '5', '7', '3', '6', 'D', NUL, NUL, NUL] }).map
        (fun s => s.amplitude) = some 200 ∧
      State.init.amplitude = 1000 ∧
      (run State.init keys_A65736D).map (fun s => s.amplitude) = some 200 := by
  decide

/-- C4 (defect of the code): `analyze_text_input` stores the parsed offset in a 16-bit
variable before the range check.  With the buffer `B65586D` the digits denote
`n = 65586`, outside `[50,1250]`, yet the offset changes from 100 to
`65586 mod 65536 = 50`; the buffer is reached from start-up by the key presses
`keys_B65586D`. -/
theorem C4_offset_check_on_truncated_value :
    decimal_value ['6', '5', '5', '8', '6'] = 65586 ∧
      (analyze_text_input
          { State.init with
            text_input := ['B', '6', '5', '5', '8', '6', 'D', NUL, NUL, NUL] }).map
        (fun s => s.offsete) = some 50 ∧
      State.init.offsete = 100 ∧
      (run State.init keys_B65586D).map (fun s => s.offsete) = some 50 := by
  decide

theorem decimal_value_pos_ne_nil (ds : List Char) (h : 1 ≤ decimal_value ds) : ds ≠ [] := by
  rintro rfl
  simp [decimal_value] at h

/-- C5: for a buffer `C`, digits denoting `f ≥ 1`, then a byte that is no digit,
`analyze_text_input` sets `frequency` to `f` without a range check and `samp_freq` to
`1000000 / 100 / f` (floor division); the buffer is cleared. -/
theorem C5_frequency_command (s : State) (ds : List Char) (c : Char) (rest : List Char)
    (hbuf : s.text_input = 'C' :: (ds ++ c :: rest))
    (hsize : s.text_input.length = MAX_LETTERS_PRESSED)
    (hds : ∀ d ∈ ds, isdigit d = true) (hc : isdigit c = false)
    (hf : 1 ≤ decimal_value ds) :
    analyze_text_input s
      = some (clear_text_input
          { s with frequency := decimal_value ds,
                   samp_freq := 1000000 / 100 / decimal_value ds }) := by
  have hlen : ds.length ≤ 9 := by
    rw [hbuf] at hsize
    simp [MAX_LETTERS_PRESSED] at hsize
    omega
  have hne := decimal_value_pos_ne_nil ds hf
  have hlt : decimal_value ds < 2 ^ 32 :=
    calc decimal_value ds < 10 ^ ds.length := decimal_value_lt ds hds
      _ ≤ 10 ^ 9 := Nat.pow_le_pow_right (by norm_num) hlen
      _ < 2 ^ 32 := by norm_num
  rw [analyze_frequency s ds c rest hbuf hds hc (fun h => absurd h hne) hlen,
    initialize_samp_freq_eq (decimal_value ds) hf hlt]

theorem C5_frequency_command_witness :
    analyze_text_input
        { State.init with text_input := ['C', '2', '0', 'D', NUL, NUL, NUL, NUL, NUL, NUL] }
      = some (clear_text_input
          { State.init with
            text_input := ['C', '2', '0', 'D', NUL, NUL, NUL, NUL, NUL, NUL],
            frequency := 20, samp_freq := 500 }) :=
  C5_frequency_command
    { State.init with text_input := ['C', '2', '0', 'D', NUL, NUL, NUL, NUL, NUL, NUL] }
    ['2', '0'] 'D' [NUL, NUL, NUL, NUL, NUL, NUL] rfl rfl (by decide) (by decide) (by decide)

/-! ### Key sequences -/

theorem set_append_replicate (pre : List Char) (k : Nat) (key : Char) :
    (pre ++ List.replicate (k + 1) NUL).set pre.length key
      = (pre ++ [key]) ++ List.replicate k NUL := by
  induction pre with
  | nil => simp [List.replicate_succ]
  | cons p pre ih => simpa using ih

theorem key_edges_append (s : State) (es rest : List Edge) :
    key_edges s (es ++ rest) = (key_edges s es).bind (fun s1 => key_edges s1 rest) := by
  induction es generalizing s with
  | nil => simp [key_edges]
  | cons e es ih =>
    simp only [List.cons_append, key_edges]
    cases key_edge s e.row e.gpio e.now e.later with
    | none => rfl
    | some s1 => exact ih s1

/-- One accepted key other than `D` typed into a buffer that still has room. -/
theorem key_edge_plain (s : State) (e : Edge) (key : Char) (pre : List Char) (k : Nat)
    (hdec : decodes e key) (hD : key ≠ 'D')
    (hacc : ¬ sub64 e.now s.last_press_time < DEBOUNCE_TIME_US)
    (hbuf : s.text_input = pre ++ List.replicate (k + 1) NUL)
    (hli : s.letter_index = pre.length) (hroom : pre.length + 1 < MAX_LETTERS_PRESSED) :
    ∃ s1, key_edge s e.row e.gpio e.now e.later = some s1 ∧
      s1.text_input = (pre ++ [key]) ++ List.replicate k NUL ∧
      s1.letter_index = pre.length + 1 ∧ s1.last_press_time = e.later ∧
      s1.amplitude = s.amplitude ∧ s1.offsete = s.offsete ∧
      s1.frequency = s.frequency ∧ s1.signal_count = s.signal_count := by
  obtain ⟨col, hpin, hk⟩ := hdec
  have hlen : s.letter_index < s.text_input.length := by
    rw [hbuf, hli]; simp
  rw [key_edge_accept s e.row col e.gpio e.now e.later key hpin hk hacc hlen, if_neg hD]
  refine ⟨_, rfl, ?_, ?_, rfl, rfl, rfl, rfl, rfl⟩
  · simp only [store_key, hbuf, hli]
    exact set_append_replicate pre k key
  · simp only [store_key, hli]
    exact Nat.mod_eq_of_lt hroom

theorem isdigit_ne_D (d : Char) (h : isdigit d = true) : d ≠ 'D' := by
  rintro rfl
  revert h
  decide

/-- Accepted digit keys typed one after the other into a buffer with enough room. -/
theorem key_edges_digits (ds : List Char) (es : List Edge)
    (hdec : List.Forall₂ decodes es ds) :
    ∀ (s : State) (pre : List Char) (k : Nat) (rest : List Edge),
      (∀ d ∈ ds, isdigit d = true) →
      s.text_input = pre ++ List.replicate (k + ds.length) NUL →
      s.letter_index = pre.length →
      pre.length + ds.length < MAX_LETTERS_PRESSED →
      spaced s.last_press_time (es ++ rest) →
      ∃ s1, key_edges s es = some s1 ∧
        s1.text_input = (pre ++ ds) ++ List.replicate k NUL ∧
        s1.letter_index = pre.length + ds.length ∧ spaced s1.last_press_time rest ∧
        s1.amplitude = s.amplitude ∧ s1.offsete = s.offsete ∧
        s1.frequency = s.frequency ∧ s1.signal_count = s.signal_count := by
  induction hdec with
  | nil =>
    intro s pre k rest _ hbuf hli _ hsp
    exact ⟨s, rfl, by simpa using hbuf, by simpa using hli, by simpa using hsp,
      rfl, rfl, rfl, rfl⟩
  | @cons e d es ds hed _ ih =>
    intro s pre k rest hds hbuf hli hroom hsp
    have hd : isdigit d = true := hds d (List.mem_cons_self _ _)
    simp only [List.length_cons] at hbuf hroom
    obtain ⟨hacc, hsp1⟩ := hsp
    obtain ⟨s1, h1, hb1, hl1, ht1, ha1, ho1, hf1, hc1⟩ :=
      key_edge_plain s e d pre (k + ds.length) hed (isdigit_ne_D d hd) hacc hbuf hli
        (by omega)
    obtain ⟨s2, h2, hb2, hl2, hsp2, ha2, ho2, hf2, hc2⟩ :=
      ih s1 (pre ++ [d]) k rest (fun x hx => hds x (List.mem_cons_of_mem _ hx)) hb1
        (by simpa using hl1) (by simp; omega) (by rw [ht1]; exact hsp1)
    refine ⟨s2, ?_, ?_, ?_, hsp2, ?_, ?_, ?_, ?_⟩
    · simp only [key_edges, h1]; exact h2
    · simpa using hb2
    · simp at hl2 ⊢; omega
    · rw [ha2, ha1]
    · rw [ho2, ho1]
    · rw [hf2, hf1]
    · rw [hc2, hc1]

/-- C6: from a state whose input buffer is empty, the accepted key edges decoding to `A`,
then at most 8 digits denoting `n` in `[100,2500]`, then `D` are all handled, set the
amplitude to `n`, leave every byte of the buffer zero and the write position 0, and
change neither offset, frequency nor waveform selector; `A 2 0 0 D` sets 200. -/
theorem C6_amplitude_key_sequence (s : State) (ds : List Char) (eA eD : Edge)
    (eds : List Edge)
    (hbuf : s.text_input = List.replicate MAX_LETTERS_PRESSED NUL)
    (hli : s.letter_index = 0)
    (hds : ∀ d ∈ ds, isdigit d = true) (hlen : ds.length ≤ 8)
    (hn1 : 100 ≤ decimal_value ds) (hn2 : decimal_value ds ≤ 2500)
    (hA : decodes eA 'A') (hdec : List.Forall₂ decodes eds ds) (hD : decodes eD 'D')
    (hsp : spaced s.last_press_time (eA :: (eds ++ [eD]))) :
    ∃ s1, key_edges s (eA :: (eds ++ [eD])) = some s1 ∧
      s1.amplitude = decimal_value ds ∧
      s1.text_input = List.replicate MAX_LETTERS_PRESSED NUL ∧ s1.letter_index = 0 ∧
      s1.offsete = s.offsete ∧ s1.frequency = s.frequency ∧
      s1.signal_count = s.signal_count := by
  obtain ⟨k, hk⟩ : ∃ k, MAX_LETTERS_PRESSED = (k + 1 + ds.length) + 1 :=
    ⟨8 - ds.length, by simp [MAX_LETTERS_PRESSED]; omega⟩
  obtain ⟨haccA, hsp1⟩ := hsp
  have hbuf0 : s.text_input = [] ++ List.replicate ((k + 1 + ds.length) + 1) NUL := by
    rw [hbuf, hk]; rfl
  obtain ⟨s1, h1, hb1, hl1, ht1, ha1, ho1, hf1, hc1⟩ :=
    key_edge_plain s eA 'A' [] (k + 1 + ds.length) hA (by decide) haccA hbuf0 hli
      (by simp [MAX_LETTERS_PRESSED])
  obtain ⟨s2, h2, hb2, hl2, hsp2, ha2, ho2, hf2, hc2⟩ :=
    key_edges_digits ds eds hdec s1 ['A'] (k + 1) [eD] hds hb1 hl1
      (by simp [MAX_LETTERS_PRESSED]; omega) (by rw [ht1]; exact hsp1)
  obtain ⟨col, hpin, hkey⟩ := hD
  have hlen2 : s2.letter_index < s2.text_input.length := by
    rw [hb2, hl2]; simp; omega
  have hstore : (store_key { s2 with sequence := eD.row } 'D').text_input
      = 'A' :: (ds ++ 'D' :: List.replicate k NUL) := by
    simp only [store_key, hb2, hl2]
    have := set_append_replicate (['A'] ++ ds) k 'D'
    rw [List.length_append] at this
    rw [this]
    simp
  have han := analyze_amplitude (store_key { s2 with sequence := eD.row } 'D') ds 'D'
    (List.replicate k NUL) hstore hds (by decide) (fun _ => by decide) (by omega)
  have hmod : decimal_value ds % 2 ^ 16 = decimal_value ds := Nat.mod_eq_of_lt (by omega)
  rw [hmod, if_pos ⟨hn1, hn2⟩] at han
  have hfin := key_edge_accept s2 eD.row col eD.gpio eD.now eD.later 'D' hpin hkey
    hsp2.1 hlen2
  rw [if_pos rfl, han] at hfin
  have hrun : key_edges s (eA :: (eds ++ [eD]))
      = some { clear_text_input
                { store_key { s2 with sequence := eD.row } 'D' with
                  amplitude := decimal_value ds } with
               last_press_time := eD.later } := by
    simp only [key_edges, h1]
    rw [key_edges_append, h2]
    simp only [Option.bind, key_edges, hfin]
    rfl
  refine ⟨_, hrun, rfl, rfl, rfl, ?_, ?_, ?_⟩
  · show s2.offsete = s.offsete
    rw [ho2, ho1]
  · show s2.frequency = s.frequency
    rw [hf2, hf1]
  · show s2.signal_count = s.signal_count
    rw [hc2, hc1]

theorem C6_amplitude_key_sequence_witness :
    ∃ s1, key_edges State.init
        (⟨0, 9, 600000, 600000⟩ ::
          ([⟨0, 7, 1200000, 1200000⟩, ⟨3, 7, 1800000, 1800000⟩, ⟨3, 7, 2400000, 2400000⟩]
            ++ [⟨3, 9, 3000000, 3000000⟩])) = some s1 ∧
      s1.amplitude = 200 ∧
      s1.text_input = List.replicate MAX_LETTERS_PRESSED NUL ∧ s1.letter_index = 0 ∧
      s1.offsete = State.init.offsete ∧ s1.frequency = State.init.frequency ∧
      s1.signal_count = State.init.signal_count :=
  C6_amplitude_key_sequence State.init ['2', '0', '0'] ⟨0, 9, 600000, 600000⟩
    ⟨3, 9, 3000000, 3000000⟩
    [⟨0, 7, 1200000, 1200000⟩, ⟨3, 7, 1800000, 1800000⟩, ⟨3, 7, 2400000, 2400000⟩]
    rfl rfl (by decide) (by decide) (by decide) (by decide) ⟨3, rfl, rfl⟩
    (.cons ⟨1, rfl, rfl⟩ (.cons ⟨1, rfl, rfl⟩ (.cons ⟨1, rfl, rfl⟩ .nil))) ⟨3, rfl, rfl⟩
    ⟨by decide, by decide, by decide, by decide, by decide, trivial⟩

/-! ### The ranges are kept by every handler -/

theorem atoi_digits_total (l : List Char) (acc : Nat) (h : ∃ c ∈ l, isdigit c = false) :
    ∃ v, atoi_digits l acc = some v ∧ v < (acc + 1) * 10 ^ l.length := by
  induction l generalizing acc with
  | nil => obtain ⟨c, hc, _⟩ := h; cases hc
  | cons d l ih =>
    by_cases hd : isdigit d = true
    · have h' : ∃ c ∈ l, isdigit c = false := by
        obtain ⟨c, hc, hcd⟩ := h
        rcases List.mem_cons.1 hc with rfl | hc
        · rw [hd] at hcd; cases hcd
        · exact ⟨c, hc, hcd⟩
      obtain ⟨v, hv, hlt⟩ := ih (10 * acc + (d.toNat - 48)) h'
      refine ⟨v, by simp only [atoi_digits, hd, if_true]; exact hv, ?_⟩
      simp only [isdigit, Bool.and_eq_true, decide_eq_true_eq] at hd
      calc v < (10 * acc + (d.toNat - 48) + 1) * 10 ^ l.length := hlt
        _ ≤ ((acc + 1) * 10) * 10 ^ l.length := Nat.mul_le_mul_right _ (by omega)
        _ = (acc + 1) * 10 ^ (d :: l).length := by
            rw [List.length_cons, pow_succ]; ring
    · refine ⟨acc, by simp only [atoi_digits, hd]; rfl, ?_⟩
      calc acc < (acc + 1) * 1 := by omega
        _ ≤ (acc + 1) * 10 ^ (d :: l).length :=
            Nat.mul_le_mul_left _ (Nat.one_le_pow _ _ (by norm_num))

theorem atoi_sign_total (l : List Char) (h : 'D' ∈ l) :
    ∃ v, atoi_sign l = some v ∧ -(10 ^ l.length : Int) < v ∧ v < (10 ^ l.length : Int) := by
  have hDd : isdigit 'D' = false := by decide
  cases l with
  | nil => cases h
  | cons c cs =>
    have hpow : (10 : Int) ^ cs.length ≤ 10 ^ (c :: cs).length := by
      rw [List.length_cons, pow_succ]
      have : (0 : Int) < 10 ^ cs.length := by positivity
      omega
    have hpos : (0 : Int) < 10 ^ cs.length := by positivity
    by_cases h1 : c = '-'
    · have hcs : 'D' ∈ cs := by
        rcases List.mem_cons.1 h with hh | hh
        · rw [h1] at hh; exact absurd hh (by decide)
        · exact hh
      obtain ⟨v, hv, hlt⟩ := atoi_digits_total cs 0 ⟨'D', hcs, hDd⟩
      refine ⟨-Int.ofNat v, by simp only [atoi_sign, h1, if_true, hv]; rfl, ?_, ?_⟩
      · have : (v : Int) < 10 ^ cs.length := by exact_mod_cast (by simpa using hlt)
        simp only [Int.ofNat_eq_coe]; omega
      · have : (0 : Int) ≤ (v : Int) := Int.ofNat_nonneg _
        simp only [Int.ofNat_eq_coe]; omega
    · by_cases h2 : c = '+'
      · have hcs : 'D' ∈ cs := by
          rcases List.mem_cons.1 h with hh | hh
          · rw [h2] at hh; exact absurd hh (by decide)
          · exact hh
        obtain ⟨v, hv, hlt⟩ := atoi_digits_total cs 0 ⟨'D', hcs, hDd⟩
        refine ⟨Int.ofNat v, by simp only [atoi_sign, h1, h2, if_false, if_true, hv]; rfl,
          ?_, ?_⟩
        · have : (0 : Int) ≤ (v : Int) := Int.ofNat_nonneg _
          simp only [Int.ofNat_eq_coe]; omega
        · have : (v : Int) < 10 ^ cs.length := by exact_mod_cast (by simpa using hlt)
          simp only [Int.ofNat_eq_coe]; omega
      · obtain ⟨v, hv, hlt⟩ := atoi_digits_total (c :: cs) 0 ⟨'D', h, hDd⟩
        refine ⟨Int.ofNat v, by simp only [atoi_sign, h1, h2, if_false, hv]; rfl, ?_, ?_⟩
        · have : (0 : Int) ≤ (v : Int) := Int.ofNat_nonneg _
          have : (0 : Int) < 10 ^ (c :: cs).length := by positivity
          simp only [Int.ofNat_eq_coe]; omega
        · have : (v : Int) < 10 ^ (c :: cs).length := by exact_mod_cast (by simpa using hlt)
          simpa using this

theorem atoi_skip_total (l : List Char) (h : 'D' ∈ l) :
    ∃ v, atoi_skip l = some v ∧ -(10 ^ l.length : Int) < v ∧ v < (10 ^ l.length : Int) := by
  induction l with
  | nil => cases h
  | cons c cs ih =>
    by_cases hs : isspace c = true
    · have hcs : 'D' ∈ cs := by
        rcases List.mem_cons.1 h with hh | hh
        · rw [← hh] at hs; exact absurd hs (by decide)
        · exact hh
      obtain ⟨v, hv, h1, h2⟩ := ih hcs
      have hpow : (10 : Int) ^ cs.length ≤ 10 ^ (c :: cs).length := by
        rw [List.length_cons, pow_succ]
        have : (0 : Int) < 10 ^ cs.length := by positivity
        omega
      exact ⟨v, by simp only [atoi_skip, hs, if_true]; exact hv, by omega, by omega⟩
    · obtain ⟨v, hv, h1, h2⟩ := atoi_sign_total (c :: cs) h
      exact ⟨v, by simp only [atoi_skip, hs]; exact hv, h1, h2⟩

/-- On an array tail of at most 9 bytes that holds a `D`, `atoi` is defined. -/
theorem atoi_total (l : List Char) (h : 'D' ∈ l) (hlen : l.length ≤ 9) :
    ∃ v, atoi l = some v := by
  obtain ⟨v, hv, h1, h2⟩ := atoi_skip_total l h
  have hpow : (10 : Int) ^ l.length ≤ 10 ^ 9 := pow_le_pow_right₀ (by norm_num) hlen
  refine ⟨v, ?_⟩
  unfold atoi
  rw [hv]
  simp only []
  rw [if_pos ⟨by omega, by omega⟩]

theorem analyze_text_input_inv (s : State) (hI : Inv s) (c : Char) (tl : List Char)
    (hbuf : s.text_input = c :: tl) (hD : c = 'D' ∨ 'D' ∈ tl) :
    ∃ s1, analyze_text_input s = some s1 ∧ Inv s1 := by
  obtain ⟨ha, ho, hc, hi, hq, hl, hn⟩ := hI
  have htl : tl.length ≤ 9 := by
    rw [hbuf] at hn
    simp [MAX_LETTERS_PRESSED] at hn
    omega
  have hrep : (List.replicate MAX_LETTERS_PRESSED NUL).length
      = MAX_LETTERS_PRESSED := List.length_replicate _ _
  have h0 : 0 < MAX_LETTERS_PRESSED := by decide
  unfold analyze_text_input
  simp only [hbuf, List.getElem?_cons_zero, List.drop_succ_cons, List.drop_zero]
  by_cases hA : c = 'A'
  · have hmem : 'D' ∈ tl := by
      rcases hD with h | h
      · rw [hA] at h; exact absurd h (by decide)
      · exact h
    obtain ⟨v, hv⟩ := atoi_total tl hmem htl
    rw [if_pos hA, hv]
    simp only []
    split
    · rename_i hr
      exact ⟨_, rfl, hr, ho, hc, hi, hq, h0, hrep⟩
    · exact ⟨_, rfl, ha, ho, hc, hi, hq, h0, hrep⟩
  · by_cases hB : c = 'B'
    · have hmem : 'D' ∈ tl := by
        rcases hD with h | h
        · rw [hB] at h; exact absurd h (by decide)
        · exact h
      obtain ⟨v, hv⟩ := atoi_total tl hmem htl
      rw [if_neg hA, if_pos hB, hv]
      simp only []
      split
      · rename_i hr
        exact ⟨_, rfl, ha, hr, hc, hi, hq, h0, hrep⟩
      · exact ⟨_, rfl, ha, ho, hc, hi, hq, h0, hrep⟩
    · by_cases hC : c = 'C'
      · have hmem : 'D' ∈ tl := by
          rcases hD with h | h
          · rw [hC] at h; exact absurd h (by decide)
          · exact h
        obtain ⟨v, hv⟩ := atoi_total tl hmem htl
        rw [if_neg hA, if_neg hB, if_pos hC, hv]
        exact ⟨_, rfl, ha, ho, hc, hi, hq, h0, hrep⟩
      · rw [if_neg hA, if_neg hB, if_neg hC]
        exact ⟨_, rfl, ha, ho, hc, hi, hq, h0, hrep⟩

theorem store_key_inv (s : State) (hI : Inv s) (key : Char) : Inv (store_key s key) := by
  obtain ⟨ha, ho, hc, hi, hq, hl, hn⟩ := hI
  refine ⟨ha, ho, hc, hi, hq, ?_, ?_⟩
  · exact Nat.mod_lt _ (by decide)
  · simp only [store_key, List.length_set]
    exact hn

theorem store_key_D (s : State) (hI : Inv s) :
    ∃ c tl, (store_key s 'D').text_input = c :: tl ∧ (c = 'D' ∨ 'D' ∈ tl) := by
  obtain ⟨_, _, _, _, _, hl, hn⟩ := hI
  have hlt : s.letter_index < s.text_input.length := by rw [hn]; exact hl
  have hmem : 'D' ∈ s.text_input.set s.letter_index 'D' := List.mem_set _ _ hlt _
  cases hs : s.text_input.set s.letter_index 'D' with
  | nil => rw [hs] at hmem; cases hmem
  | cons c tl =>
    rw [hs] at hmem
    refine ⟨c, tl, hs, ?_⟩
    rcases List.mem_cons.1 hmem with h | h
    · exact Or.inl h.symm
    · exact Or.inr h

theorem keypress_column_inv (gpio later : Nat) (s : State) (hI : Inv s) (col : Nat)
    (hcol : col < 4) : ∃ s1, keypress_column gpio later s col = some s1 ∧ Inv s1 := by
  have hq : s.sequence < 4 := hI.2.2.2.2.1
  have hlt : s.letter_index < s.text_input.length := by
    rw [hI.2.2.2.2.2.2]; exact hI.2.2.2.2.2.1
  obtain ⟨pin, hpin⟩ : ∃ pin, gpio_columns[col]? = some pin :=
    ⟨_, List.getElem?_eq_getElem (by simpa [gpio_columns] using hcol)⟩
  obtain ⟨row, hrow⟩ : ∃ row, matrix_keys[s.sequence]? = some row :=
    ⟨_, List.getElem?_eq_getElem (by simpa [matrix_keys] using hq)⟩
  have hrl : row.length = 4 := by
    have h := hrow
    generalize s.sequence = q at h hq
    interval_cases q <;> simp [matrix_keys] at h <;> subst h <;> rfl
  obtain ⟨key, hkey⟩ : ∃ key, row[col]? = some key :=
    ⟨_, List.getElem?_eq_getElem (by omega)⟩
  unfold keypress_column
  rw [hpin]
  simp only []
  by_cases hg : pin = gpio
  · rw [if_pos hg, hrow]
    simp only [hkey]
    rw [if_pos hlt]
    by_cases hD : key = 'D'
    · rw [if_pos hD, hD]
      obtain ⟨c, tl, hbuf, hmem⟩ := store_key_D s hI
      obtain ⟨s1, h1, hI1⟩ :=
        analyze_text_input_inv (store_key s 'D') (store_key_inv s hI 'D') c tl hbuf hmem
      rw [h1]
      exact ⟨_, rfl, hI1⟩
    · rw [if_neg hD]
      exact ⟨_, rfl, store_key_inv s hI key⟩
  · rw [if_neg hg]
    exact ⟨s, rfl, hI⟩

theorem callback_keypress_inv (s : State) (hI : Inv s) (gpio now later : Nat) :
    ∃ s1, callback_keypress s gpio now later = some s1 ∧ Inv s1 := by
  unfold callback_keypress
  split
  · exact ⟨s, rfl, hI⟩
  · obtain ⟨s1, h1, hI1⟩ := keypress_column_inv gpio later s hI 0 (by decide)
    obtain ⟨s2, h2, hI2⟩ := keypress_column_inv gpio later s1 hI1 1 (by decide)
    obtain ⟨s3, h3, hI3⟩ := keypress_column_inv gpio later s2 hI2 2 (by decide)
    obtain ⟨s4, h4, hI4⟩ := keypress_column_inv gpio later s3 hI3 3 (by decide)
    refine ⟨s4, ?_, hI4⟩
    simp [List.foldlM, h1, h2, h3, h4]

theorem callback_pressed_inv (s : State) (hI : Inv s) (now later : Nat) :
    Inv (callback_pressed s now later) := by
  obtain ⟨ha, ho, hc, hi, hq, hl, hn⟩ := hI
  unfold callback_pressed
  split
  · exact ⟨ha, ho, hc, hi, hq, hl, hn⟩
  · exact ⟨ha, ho, Nat.mod_lt _ (by decide), hi, hq, hl, hn⟩

theorem timer_sequence_handler_inv (s : State) (hI : Inv s) :
    Inv (timer_sequence_handler s) := by
  obtain ⟨ha, ho, hc, hi, hq, hl, hn⟩ := hI
  exact ⟨ha, ho, hc, hi, Nat.mod_lt _ (by decide), hl, hn⟩

theorem timerSignalHandler_inv (s : State) (hI : Inv s) :
    ∃ s1, timerSignalHandler s = some s1 ∧ Inv s1 := by
  obtain ⟨ha, ho, hc, hi, hq, hl, hn⟩ := hI
  have h := generator_byte_valid s.signal_count s.signal_index s.amplitude s.offsete hc hi
    ha.1 ha.2 ho.2
  unfold timerSignalHandler generator
  rw [h]
  refine ⟨_, rfl, ha, ho, hc, ?_, hq, hl, hn⟩
  exact Nat.mod_lt _ (by decide)

theorem step_inv (s : State) (hI : Inv s) (e : Event) :
    ∃ s1, step s e = some s1 ∧ Inv s1 := by
  cases e with
  | gpio pin now later =>
    simp only [step, gpio_callback]
    split
    · exact ⟨_, rfl, callback_pressed_inv s hI now later⟩
    · exact callback_keypress_inv s hI pin now later
  | timer_sequence => exact ⟨_, rfl, timer_sequence_handler_inv s hI⟩
  | timer_print => exact ⟨_, rfl, hI⟩
  | timer_signal => exact timerSignalHandler_inv s hI

theorem run_inv (events : List Event) (s : State) (hI : Inv s) :
    ∃ s1, run s events = some s1 ∧ Inv s1 := by
  induction events generalizing s with
  | nil => exact ⟨s, rfl, hI⟩
  | cons e es ih =>
    obtain ⟨s1, h1, hI1⟩ := step_inv s hI e
    obtain ⟨s2, h2, hI2⟩ := ih s1 hI1
    refine ⟨s2, ?_, hI2⟩
    simp only [run, List.foldlM, h1] at h2 ⊢
    exact h2

theorem init_inv : Inv State.init := by
  refine ⟨⟨?_, ?_⟩, ⟨?_, ?_⟩, ?_, ?_, ?_, ?_, ?_⟩ <;> decide

/-- C7: from the globals as initialised at start-up, every finite sequence of handler
runs (key and button edges on any pin at any time stamps, sample-timer, row-scan and
status ticks) is executed to its end, and the state it leaves has amplitude in
`[100,2500]`, offset in `[50,1250]`, `signal_count < 4`, `signal_index < 100`,
`sequence < 4` and `letter_index < 10`. -/
theorem C7_reachable_state_invariant (events : List Event) :
    ∃ s, run State.init events = some s ∧
      (100 ≤ s.amplitude ∧ s.amplitude ≤ 2500) ∧ (50 ≤ s.offsete ∧ s.offsete ≤ 1250) ∧
      s.signal_count < 4 ∧ s.signal_index < 100 ∧ s.sequence < 4 ∧ s.letter_index < 10 := by
  obtain ⟨s, hs, ha, ho, hc, hi, hq, hl, _⟩ := run_inv events State.init init_inv
  exact ⟨s, hs, ha, ho, hc, hi, hq, hl⟩

/-! ### Index cycling of `generator` -/

theorem generator_defined (s : State) (w a o : Nat) (hw : w < 4) (hs : s.signal_index < 100)
    (ha1 : 100 ≤ a) (ha2 : a ≤ 2500) (ho2 : o ≤ 1250) :
    ∃ s1, generator s w a o = some s1 ∧
      s1.signal_index = next_signal_index s.signal_index := by
  have h := generator_byte_valid w s.signal_index a o hw hs ha1 ha2 ho2
  exact ⟨_, by unfold generator; rw [h], rfl⟩

theorem generator_iter_index (w a o : Nat) (hw : w < 4) (ha1 : 100 ≤ a) (ha2 : a ≤ 2500)
    (ho2 : o ≤ 1250) (k : Nat) :
    ∀ s : State, s.signal_index < 100 →
      ∃ sk, generator_iter w a o k s = some sk ∧
        sk.signal_index = (s.signal_index + k) % 100 := by
  induction k with
  | zero =>
    intro s hs
    exact ⟨s, rfl, (Nat.mod_eq_of_lt hs).symm⟩
  | succ k ih =>
    intro s hs
    obtain ⟨s1, hg, h1⟩ := generator_defined s w a o hw hs ha1 ha2 ho2
    have hn : s1.signal_index < 100 := by
      rw [h1]; exact Nat.mod_lt _ (by decide)
    obtain ⟨sk, hk, hidx⟩ := ih s1 hn
    refine ⟨sk, ?_, ?_⟩
    · simp only [generator_iter, hg]
      exact hk
    · rw [hidx, h1]
      simp only [next_signal_index]
      omega

/-- C8: for a selector `w < 4` and validated amplitude and offset, starting from sample
index 0, the first `k` calls of `generator` are defined and leave `signal_index = k mod
100`; the `(k+1)`-th call reads entry `k mod 100` of table `w` and leaves `signal_index =
(k+1) mod 100`; 100 calls bring the index back to its start and no smaller positive
number of calls does. -/
theorem C8_generator_index_cycle (s : State) (w a o k : Nat) (hw : w < 4)
    (ha1 : 100 ≤ a) (ha2 : a ≤ 2500) (ho1 : 50 ≤ o) (ho2 : o ≤ 1250)
    (h0 : s.signal_index = 0) :
    (∃ sk, generator_iter w a o k s = some sk ∧ sk.signal_index = k % 100 ∧
        generator_signal w sk.signal_index = some ((waveform_table w).getD (k % 100) 0) ∧
        ∃ sk1, generator sk w a o = some sk1 ∧ sk1.signal_index = (k + 1) % 100) ∧
      (∃ s100, generator_iter w a o 100 s = some s100 ∧
        s100.signal_index = s.signal_index) ∧
      ∀ j, 0 < j → j < 100 →
        ∃ sj, generator_iter w a o j s = some sj ∧ sj.signal_index ≠ s.signal_index := by
  have _ := ho1
  have hs : s.signal_index < 100 := by omega
  refine ⟨?_, ?_, ?_⟩
  · obtain ⟨sk, hk, hidx⟩ := generator_iter_index w a o hw ha1 ha2 ho2 k s hs
    rw [h0, Nat.zero_add] at hidx
    have hlt : k % 100 < 100 := Nat.mod_lt _ (by decide)
    refine ⟨sk, hk, hidx, ?_, ?_⟩
    · rw [hidx]
      exact generator_signal_table w (k % 100) hw hlt
    · obtain ⟨s1, hg, h1⟩ := generator_defined sk w a o hw (by omega) ha1 ha2 ho2
      refine ⟨s1, hg, ?_⟩
      rw [h1, hidx]
      simp only [next_signal_index]
      omega
  · obtain ⟨sk, hk, hidx⟩ := generator_iter_index w a o hw ha1 ha2 ho2 100 s hs
    exact ⟨sk, hk, by rw [hidx]; omega⟩
  · intro j hj1 hj2
    obtain ⟨sk, hk, hidx⟩ := generator_iter_index w a o hw ha1 ha2 ho2 j s hs
    exact ⟨sk, hk, by rw [hidx]; omega⟩

theorem C8_generator_index_cycle_witness :
    (∃ sk, generator_iter 2 1000 100 250 State.init = some sk ∧
        sk.signal_index = 250 % 100 ∧
        generator_signal 2 sk.signal_index = some ((waveform_table 2).getD (250 % 100) 0) ∧
        ∃ sk1, generator sk 2 1000 100 = some sk1 ∧ sk1.signal_index = (250 + 1) % 100) ∧
      (∃ s100, generator_iter 2 1000 100 100 State.init = some s100 ∧
        s100.signal_index = State.init.signal_index) ∧
      ∃ s37, generator_iter 2 1000 100 37 State.init = some s37 ∧
        s37.signal_index ≠ State.init.signal_index :=
  have h := C8_generator_index_cycle State.init 2 1000 100 250 (by decide) (by decide)
    (by decide) (by decide) (by decide) rfl
  ⟨h.1, h.2.1, h.2.2 37 (by decide) (by decide)⟩

/-! ### Mode selector -/

theorem button_edges_count (ts : List (Nat × Nat)) :
    ∀ s : State, button_accepted s ts →
      (button_edges s ts).signal_count = (s.signal_count + ts.length) % 4 ∨
        (ts = [] ∧ (button_edges s ts).signal_count = s.signal_count) := by
  induction ts with
  | nil => intro s _; exact Or.inr ⟨rfl, rfl⟩
  | cons t ts ih =>
    intro s hacc
    obtain ⟨h1, h2⟩ := hacc
    left
    have hstep : (callback_pressed s t.1 t.2).signal_count = (s.signal_count + 1) % 4 := by
      unfold callback_pressed
      rw [if_neg h1]
    rcases ih _ h2 with h | ⟨hnil, h⟩
    · simp only [button_edges, List.length_cons]
      rw [h, hstep]
      omega
    · subst hnil
      simp only [button_edges, List.length_cons, List.length_nil] at h ⊢
      rw [hstep]

/-- C9: for a selector value below 4, a button edge that passes the debounce check of
`callback_pressed` moves the selector to `(s + 1) mod 4`; four accepted edges in a row
bring it back to its value and one, two or three accepted edges never do.  The button
block of the polling loop steps its counter in the same way. -/
theorem C9_mode_selector_cycle (s : State) (hs : s.signal_count < 4) :
    (∀ now later, ¬ sub64 now s.last_press_button_time < DEBOUNCE_TIME_US →
        (callback_pressed s now later).signal_count = (s.signal_count + 1) % 4) ∧
      (∀ ts, button_accepted s ts → ts.length = 4 →
        (button_edges s ts).signal_count = s.signal_count) ∧
      (∀ ts, button_accepted s ts → 0 < ts.length → ts.length < 4 →
        (button_edges s ts).signal_count ≠ s.signal_count) ∧
      (∀ (count last : Int) (t : Nat), 0 ≤ count → count < 4 →
        ((t % 2 ^ 32 / 1000 : Nat) : Int) - last > 300 →
        (button_poll count last true t).1 = (count + 1) % 4) := by
  refine ⟨?_, ?_, ?_, ?_⟩
  · intro now later h
    unfold callback_pressed
    rw [if_neg h]
  · intro ts hacc hlen
    rcases button_edges_count ts s hacc with h | ⟨hnil, _⟩
    · rw [h, hlen]; omega
    · subst hnil; cases hlen
  · intro ts hacc h1 h2
    rcases button_edges_count ts s hacc with h | ⟨hnil, _⟩
    · rw [h]; omega
    · subst hnil; cases h1
  · intro count last t h0 h4 hacc
    simp only [button_poll, if_true]
    rw [if_pos hacc]
    show Int.tmod (count + 1) 4 = (count + 1) % 4
    exact Int.tmod_eq_emod (by omega) (by norm_num)

theorem C9_mode_selector_cycle_witness :
    (callback_pressed State.init 600000 600001).signal_count
        = (State.init.signal_count + 1) % 4 ∧
      (button_edges State.init
          [(600000, 600001), (1200000, 1200001), (1800000, 1800001), (2400000, 2400001)]
        ).signal_count = State.init.signal_count ∧
      (button_edges State.init [(600000, 600001), (1200000, 1200001)]).signal_count
        ≠ State.init.signal_count ∧
      (button_poll 3 0 true 1000000).1 = (3 + 1) % 4 :=
  have h := C9_mode_selector_cycle State.init (by decide)
  ⟨h.1 600000 600001 (by decide),
    h.2.1 [(600000, 600001), (1200000, 1200001), (1800000, 1800001), (2400000, 2400001)]
      ⟨by decide, by decide, by decide, by decide, trivial⟩ rfl,
    h.2.2.1 [(600000, 600001), (1200000, 1200001)] ⟨by decide, by decide, trivial⟩
      (by decide) (by decide),
    h.2.2.2 3 0 1000000 (by decide) (by decide) (by decide)⟩

/-- C10: a button edge at time `t` that comes less than 500000 microseconds after
`last_press_button_time` leaves the whole state as it is, selector and debounce stamp
included; the elapsed time is the 64-bit unsigned difference the code takes, which is
the plain difference `t - last_press_button_time` when the clock has not gone back. -/
theorem C10_button_debounce_drop (s : State) (now later : Nat) :
    (sub64 now s.last_press_button_time < DEBOUNCE_TIME_US →
        callback_pressed s now later = s) ∧
      (s.last_press_button_time ≤ now → now < 2 ^ 64 →
        now - s.last_press_button_time < 500000 → callback_pressed s now later = s) := by
  have key : sub64 now s.last_press_button_time < DEBOUNCE_TIME_US →
      callback_pressed s now later = s := by
    intro h
    unfold callback_pressed
    rw [if_pos h]
  refine ⟨key, ?_⟩
  intro h1 h2 h3
  apply key
  unfold sub64 DEBOUNCE_TIME_US
  omega

theorem C10_button_debounce_drop_witness :
    (sub64 1499999 1000000 < DEBOUNCE_TIME_US ∧
        callback_pressed { State.init with last_press_button_time := 1000000 }
          1499999 1500003 = { State.init with last_press_button_time := 1000000 }) ∧
      ((1000000 ≤ 1499999 ∧ 1499999 < 2 ^ 64 ∧ 1499999 - 1000000 < 500000) ∧
        callback_pressed { State.init with last_press_button_time := 1000000 }
          1499999 1500003 = { State.init with last_press_button_time := 1000000 }) :=
  ⟨⟨by decide,
      (C10_button_debounce_drop { State.init with last_press_button_time := 1000000 }
        1499999 1500003).1 (by decide)⟩,
    ⟨⟨by decide, by decide, by decide⟩,
      (C10_button_debounce_drop { State.init with last_press_button_time := 1000000 }
        1499999 1500003).2 (by decide) (by decide) (by decide)⟩⟩

/-! ### Frame of the parameter parser -/

/-- Whatever `analyze_text_input` returns differs from the state it was called in only
in the field its first character selects, and in the cleared buffer. -/
theorem analyze_text_input_frame (s s1 : State) (h : analyze_text_input s = some s1) :
    ∃ c0, s.text_input[0]? = some c0 ∧
      s1.text_input = List.replicate MAX_LETTERS_PRESSED NUL ∧ s1.letter_index = 0 ∧
      s1.signal_count = s.signal_count ∧ s1.signal_index = s.signal_index ∧
      s1.sequence = s.sequence ∧ s1.current_key = s.current_key ∧
      s1.last_press_time = s.last_press_time ∧
      s1.last_press_button_time = s.last_press_button_time ∧ s1.gpio_out = s.gpio_out ∧
      (c0 = 'A' → s1.offsete = s.offsete ∧ s1.frequency = s.frequency ∧
        s1.samp_freq = s.samp_freq) ∧
      (c0 = 'B' → s1.amplitude = s.amplitude ∧ s1.frequency = s.frequency ∧
        s1.samp_freq = s.samp_freq) ∧
      (c0 = 'C' → s1.amplitude = s.amplitude ∧ s1.offsete = s.offsete) ∧
      (c0 ≠ 'A' → c0 ≠ 'B' → c0 ≠ 'C' → s1.amplitude = s.amplitude ∧
        s1.offsete = s.offsete ∧ s1.frequency = s.frequency ∧
        s1.samp_freq = s.samp_freq) := by
  have hAB : ('A' : Char) ≠ 'B' := by decide
  have hAC : ('A' : Char) ≠ 'C' := by decide
  have hBC : ('B' : Char) ≠ 'C' := by decide
  unfold analyze_text_input at h
  cases hc : s.text_input[0]? with
  | none => rw [hc] at h; cases h
  | some c =>
    rw [hc] at h
    simp only [] at h
    refine ⟨c, rfl, ?_⟩
    by_cases hA : c = 'A'
    · rw [if_pos hA] at h
      cases hv : atoi (s.text_input.drop 1) with
      | none => rw [hv] at h; cases h
      | some v =>
        rw [hv] at h
        simp only [] at h
        split at h <;> cases h <;>
          exact ⟨rfl, rfl, rfl, rfl, rfl, rfl, rfl, rfl, rfl, fun _ => ⟨rfl, rfl, rfl⟩,
            fun hB => absurd (hA.symm.trans hB) hAB, fun hC => absurd (hA.symm.trans hC) hAC,
            fun h1 => absurd hA h1⟩
    · rw [if_neg hA] at h
      by_cases hB : c = 'B'
      · rw [if_pos hB] at h
        cases hv : atoi (s.text_input.drop 1) with
        | none => rw [hv] at h; cases h
        | some v =>
          rw [hv] at h
          simp only [] at h
          split at h <;> cases h <;>
            exact ⟨rfl, rfl, rfl, rfl, rfl, rfl, rfl, rfl, rfl, fun h1 => absurd h1 hA,
              fun _ => ⟨rfl, rfl, rfl⟩, fun hC => absurd (hB.symm.trans hC) hBC,
              fun _ h1 => absurd hB h1⟩
      · rw [if_neg hB] at h
        by_cases hC : c = 'C'
        · rw [if_pos hC] at h
          cases hv : atoi (s.text_input.drop 1) with
          | none => rw [hv] at h; cases h
          | some v =>
            rw [hv] at h
            cases h
            exact ⟨rfl, rfl, rfl, rfl, rfl, rfl, rfl, rfl, rfl, fun h1 => absurd h1 hA,
              fun h1 => absurd h1 hB, fun _ => ⟨rfl, rfl⟩, fun _ _ h1 => absurd hC h1⟩
        · rw [if_neg hC] at h
          cases h
          exact ⟨rfl, rfl, rfl, rfl, rfl, rfl, rfl, rfl, rfl, fun h1 => absurd h1 hA,
            fun h1 => absurd h1 hB, fun h1 => absurd h1 hC, fun _ _ _ => ⟨rfl, rfl, rfl, rfl⟩⟩

theorem atoi_stop_spec (c : Char) (h : atoi_stop c = true) :
    isdigit c = false ∧ isspace c = false ∧ c ≠ '+' ∧ c ≠ '-' := by
  simp only [atoi_stop, Bool.and_eq_true, Bool.not_eq_true', beq_eq_false_iff_ne, ne_eq] at h
  exact ⟨h.1.1.1, h.1.1.2, h.1.2, h.2⟩

theorem atoi_sign_total_stop (l : List Char) (h : ∃ c ∈ l, atoi_stop c = true) :
    ∃ v, atoi_sign l = some v ∧ -(10 ^ l.length : Int) < v ∧ v < (10 ^ l.length : Int) := by
  obtain ⟨c, hc, hstop⟩ := h
  obtain ⟨hcd, _, hcp, hcm⟩ := atoi_stop_spec c hstop
  cases l with
  | nil => cases hc
  | cons c0 cs =>
    have hpow : (10 : Int) ^ cs.length ≤ 10 ^ (c0 :: cs).length := by
      rw [List.length_cons, pow_succ]
      have : (0 : Int) < 10 ^ cs.length := by positivity
      omega
    have hpos : (0 : Int) < 10 ^ cs.length := by positivity
    have htail : c0 = '-' ∨ c0 = '+' → c ∈ cs := by
      intro h0
      rcases List.mem_cons.1 hc with hh | hh
      · rcases h0 with h0 | h0
        · exact absurd (hh.trans h0) hcm
        · exact absurd (hh.trans h0) hcp
      · exact hh
    by_cases h1 : c0 = '-'
    · obtain ⟨v, hv, hlt⟩ := atoi_digits_total cs 0 ⟨c, htail (Or.inl h1), hcd⟩
      refine ⟨-Int.ofNat v, by simp only [atoi_sign, h1, if_true, hv]; rfl, ?_, ?_⟩
      · have : (v : Int) < 10 ^ cs.length := by exact_mod_cast (by simpa using hlt)
        simp only [Int.ofNat_eq_coe]; omega
      · have : (0 : Int) ≤ (v : Int) := Int.ofNat_nonneg _
        simp only [Int.ofNat_eq_coe]; omega
    · by_cases h2 : c0 = '+'
      · obtain ⟨v, hv, hlt⟩ := atoi_digits_total cs 0 ⟨c, htail (Or.inr h2), hcd⟩
        refine ⟨Int.ofNat v, by simp only [atoi_sign, h1, h2, if_false, if_true, hv]; rfl,
          ?_, ?_⟩
        · have : (0 : Int) ≤ (v : Int) := Int.ofNat_nonneg _
          simp only [Int.ofNat_eq_coe]; omega
        · have : (v : Int) < 10 ^ cs.length := by exact_mod_cast (by simpa using hlt)
          simp only [Int.ofNat_eq_coe]; omega
      · obtain ⟨v, hv, hlt⟩ := atoi_digits_total (c0 :: cs) 0 ⟨c, hc, hcd⟩
        refine ⟨Int.ofNat v, by simp only [atoi_sign, h1, h2, if_false, hv]; rfl, ?_, ?_⟩
        · have : (0 : Int) ≤ (v : Int) := Int.ofNat_nonneg _
          have : (0 : Int) < 10 ^ (c0 :: cs).length := by positivity
          simp only [Int.ofNat_eq_coe]; omega
        · have : (v : Int) < 10 ^ (c0 :: cs).length := by exact_mod_cast (by simpa using hlt)
          simpa using this

theorem atoi_skip_total_stop (l : List Char) (h : ∃ c ∈ l, atoi_stop c = true) :
    ∃ v, atoi_skip l = some v ∧ -(10 ^ l.length : Int) < v ∧ v < (10 ^ l.length : Int) := by
  induction l with
  | nil => obtain ⟨c, hc, _⟩ := h; cases hc
  | cons c0 cs ih =>
    by_cases hs : isspace c0 = true
    · have hcs : ∃ c ∈ cs, atoi_stop c = true := by
        obtain ⟨c, hc, hstop⟩ := h
        rcases List.mem_cons.1 hc with hh | hh
        · subst hh
          rw [(atoi_stop_spec c hstop).2.1] at hs
          cases hs
        · exact ⟨c, hh, hstop⟩
      obtain ⟨v, hv, h1, h2⟩ := ih hcs
      have hpow : (10 : Int) ^ cs.length ≤ 10 ^ (c0 :: cs).length := by
        rw [List.length_cons, pow_succ]
        have : (0 : Int) < 10 ^ cs.length := by positivity
        omega
      exact ⟨v, by simp only [atoi_skip, hs, if_true]; exact hv, by omega, by omega⟩
    · obtain ⟨v, hv, h1, h2⟩ := atoi_sign_total_stop (c0 :: cs) h
      exact ⟨v, by simp only [atoi_skip, hs]; exact hv, h1, h2⟩

/-- On an array tail of at most 9 bytes that holds a byte ending the scan, `atoi` is
defined. -/
theorem atoi_total_stop (l : List Char) (h : ∃ c ∈ l, atoi_stop c = true)
    (hlen : l.length ≤ 9) : ∃ v, atoi l = some v := by
  obtain ⟨v, hv, h1, h2⟩ := atoi_skip_total_stop l h
  have hpow : (10 : Int) ^ l.length ≤ 10 ^ 9 := pow_le_pow_right₀ (by norm_num) hlen
  refine ⟨v, ?_⟩
  unfold atoi
  rw [hv]
  simp only []
  rw [if_pos ⟨by omega, by omega⟩]

theorem analyze_text_input_defined (s : State)
    (hsize : s.text_input.length = MAX_LETTERS_PRESSED)
    (hscan : (s.text_input[0]? = some 'A' ∨ s.text_input[0]? = some 'B' ∨
        s.text_input[0]? = some 'C') → ∃ c ∈ s.text_input.drop 1, atoi_stop c = true) :
    ∃ s1, analyze_text_input s = some s1 := by
  have htl : (s.text_input.drop 1).length ≤ 9 := by
    rw [List.length_drop, hsize]; decide
  cases hc : s.text_input[0]? with
  | none =>
    have := List.getElem?_eq_none_iff.1 hc
    rw [hsize] at this
    exact absurd this (by decide)
  | some c =>
    unfold analyze_text_input
    rw [hc]
    simp only []
    by_cases hA : c = 'A'
    · obtain ⟨v, hv⟩ := atoi_total_stop _ (hscan (Or.inl (by rw [hc, hA]))) htl
      rw [if_pos hA, hv]
      simp only []
      split <;> exact ⟨_, rfl⟩
    · by_cases hB : c = 'B'
      · obtain ⟨v, hv⟩ := atoi_total_stop _ (hscan (Or.inr (Or.inl (by rw [hc, hB])))) htl
        rw [if_neg hA, if_pos hB, hv]
        simp only []
        split <;> exact ⟨_, rfl⟩
      · by_cases hC : c = 'C'
        · obtain ⟨v, hv⟩ := atoi_total_stop _ (hscan (Or.inr (Or.inr (by rw [hc, hC])))) htl
          rw [if_neg hA, if_neg hB, if_pos hC, hv]
          exact ⟨_, rfl⟩
        · rw [if_neg hA, if_neg hB, if_neg hC]
          exact ⟨_, rfl⟩

/-- C14: `analyze_text_input`, called on a 10-byte buffer in which the scan of `atoi`
ends inside the array (a key other than a digit, or a zero byte, follows the command
letter somewhere), runs to its end and changes at most the field selected by the first
character: `A` only the amplitude, `B` only the offset, `C` only frequency and sampling
interval, any other character none of the four; it never changes waveform selector,
sample index or row index, and it always zeroes the buffer and resets the write
position. -/
theorem C14_parser_frame (s : State)
    (hsize : s.text_input.length = MAX_LETTERS_PRESSED)
    (hscan : (s.text_input[0]? = some 'A' ∨ s.text_input[0]? = some 'B' ∨
        s.text_input[0]? = some 'C') → ∃ c ∈ s.text_input.drop 1, atoi_stop c = true) :
    ∃ c0 s1, s.text_input[0]? = some c0 ∧ analyze_text_input s = some s1 ∧
      s1.text_input = List.replicate MAX_LETTERS_PRESSED NUL ∧ s1.letter_index = 0 ∧
      s1.signal_count = s.signal_count ∧ s1.signal_index = s.signal_index ∧
      s1.sequence = s.sequence ∧
      (c0 = 'A' → s1.offsete = s.offsete ∧ s1.frequency = s.frequency ∧
        s1.samp_freq = s.samp_freq) ∧
      (c0 = 'B' → s1.amplitude = s.amplitude ∧ s1.frequency = s.frequency ∧
        s1.samp_freq = s.samp_freq) ∧
      (c0 = 'C' → s1.amplitude = s.amplitude ∧ s1.offsete = s.offsete) ∧
      (c0 ≠ 'A' → c0 ≠ 'B' → c0 ≠ 'C' → s1.amplitude = s.amplitude ∧
        s1.offsete = s.offsete ∧ s1.frequency = s.frequency ∧
        s1.samp_freq = s.samp_freq) := by
  obtain ⟨s1, h1⟩ := analyze_text_input_defined s hsize hscan
  obtain ⟨c0, hc0, hb, hl, hcnt, hidx, hseq, _, _, _, _, hA, hB, hC, hO⟩ :=
    analyze_text_input_frame s s1 h1
  exact ⟨c0, s1, hc0, h1, hb, hl, hcnt, hidx, hseq, hA, hB, hC, hO⟩

theorem C14_parser_frame_witness :
    ∃ c0 s1,
      ({ State.init with
          text_input := ['B', '5', '0', 'D', NUL, NUL, NUL, NUL, NUL, NUL],
          letter_index := 4 } : State).text_input[0]? = some c0 ∧
      analyze_text_input
        { State.init with
          text_input := ['B', '5', '0', 'D', NUL, NUL, NUL, NUL, NUL, NUL],
          letter_index := 4 } = some s1 ∧
      s1.text_input = List.replicate MAX_LETTERS_PRESSED NUL ∧ s1.letter_index = 0 ∧
      s1.signal_count = State.init.signal_count ∧
      s1.signal_index = State.init.signal_index ∧
      s1.sequence = State.init.sequence ∧
      (c0 = 'A' → s1.offsete = State.init.offsete ∧ s1.frequency = State.init.frequency ∧
        s1.samp_freq = State.init.samp_freq) ∧
      (c0 = 'B' → s1.amplitude = State.init.amplitude ∧
        s1.frequency = State.init.frequency ∧ s1.samp_freq = State.init.samp_freq) ∧
      (c0 = 'C' → s1.amplitude = State.init.amplitude ∧ s1.offsete = State.init.offsete) ∧
      (c0 ≠ 'A' → c0 ≠ 'B' → c0 ≠ 'C' → s1.amplitude = State.init.amplitude ∧
        s1.offsete = State.init.offsete ∧ s1.frequency = State.init.frequency ∧
        s1.samp_freq = State.init.samp_freq) :=
  C14_parser_frame
    { State.init with
      text_input := ['B', '5', '0', 'D', NUL, NUL, NUL, NUL, NUL, NUL],
      letter_index := 4 }
    rfl (fun _ => ⟨'D', by decide, by decide⟩)

/-! ### Keypad and button debounce -/

theorem sub64_of_le (t last : Nat) (h1 : last ≤ t) (h2 : t < 2 ^ 64) :
    sub64 t last = t - last := by
  unfold sub64
  omega

theorem inv_with_sequence (s : State) (hI : Inv s) (row : Nat) (hrow : row < 4) :
    Inv { s with sequence := row } := by
  obtain ⟨ha, ho, hc, hi, _, hl, hn⟩ := hI
  exact ⟨ha, ho, hc, hi, hrow, hl, hn⟩

/-- An accepted edge on a column pin, in a state within the ranges: the key is recorded
and the handler runs to its end. -/
theorem key_edge_accept_inv (s : State) (hI : Inv s) (row col gpio now later : Nat)
    (hrow : row < 4) (hpin : gpio_columns[col]? = some gpio)
    (hacc : ¬ sub64 now s.last_press_time < DEBOUNCE_TIME_US) :
    ∃ key s1, key_at row col = some key ∧ key_edge s row gpio now later = some s1 ∧
      (if key = 'D' then analyze_text_input (store_key { s with sequence := row } key)
        else some (store_key { s with sequence := row } key)).map
          (fun x => { x with last_press_time := later }) = some s1 ∧
      s1.current_key = key ∧ s1.last_press_time = later ∧ Inv s1 := by
  have hI1 := inv_with_sequence s hI row hrow
  have hcol : col < 4 := by
    have := lt_length_of_getElem? _ _ _ hpin
    simpa [gpio_columns] using this
  obtain ⟨keys, hkeys⟩ : ∃ keys, matrix_keys[row]? = some keys :=
    ⟨_, List.getElem?_eq_getElem (by simpa [matrix_keys] using hrow)⟩
  have hkl : keys.length = 4 := by
    have h := hkeys
    interval_cases row <;> simp [matrix_keys] at h <;> subst h <;> rfl
  obtain ⟨key, hkey⟩ : ∃ key, keys[col]? = some key :=
    ⟨_, List.getElem?_eq_getElem (by omega)⟩
  have hk : key_at row col = some key := by
    unfold key_at
    rw [hkeys]
    exact hkey
  have hli : s.letter_index < s.text_input.length := by
    rw [hI.2.2.2.2.2.2]; exact hI.2.2.2.2.2.1
  have hacc1 := key_edge_accept s row col gpio now later key hpin hk hacc hli
  by_cases hD : key = 'D'
  · obtain ⟨c, tl, hbuf, hmem⟩ := store_key_D _ hI1
    obtain ⟨s1, h1, hInv1⟩ := analyze_text_input_inv _ (store_key_inv _ hI1 'D') c tl hbuf hmem
    obtain ⟨_, _, _, _, _, _, _, hck, _⟩ := analyze_text_input_frame _ s1 h1
    subst hD
    rw [if_pos rfl, h1] at hacc1
    refine ⟨'D', _, hk, hacc1, ?_, ?_, rfl, hInv1⟩
    · rw [if_pos rfl, h1]; rfl
    · exact hck
  · rw [if_neg hD] at hacc1
    refine ⟨key, _, hk, hacc1, ?_, rfl, rfl, store_key_inv _ hI1 key⟩
    rw [if_neg hD]; rfl

/-- An accepted edge on a column pin, in a state within the ranges, field by field: a key
other than `D` is written at the write position, which then advances modulo 10; with `D`
the buffer holding the `D` is parsed; in both cases the time read when the key is
recorded becomes the debounce stamp. -/
theorem key_edge_record (s : State) (hI : Inv s) (row col gpio now later : Nat)
    (key : Char) (hpin : gpio_columns[col]? = some gpio) (hk : key_at row col = some key)
    (hacc : ¬ sub64 now s.last_press_time < DEBOUNCE_TIME_US) :
    ∃ s1, key_edge s row gpio now later = some s1 ∧
      s1.current_key = key ∧ s1.last_press_time = later ∧ Inv s1 ∧
      (key ≠ 'D' →
        s1 = { s with sequence := row, current_key := key,
                      text_input := s.text_input.set s.letter_index key,
                      letter_index := (s.letter_index + 1) % 10,
                      last_press_time := later }) ∧
      (key = 'D' →
        ∃ sp, analyze_text_input
              { s with sequence := row, current_key := 'D',
                       text_input := s.text_input.set s.letter_index 'D',
                       letter_index := (s.letter_index + 1) % 10 } = some sp ∧
          s1 = { sp with last_press_time := later }) := by
  obtain ⟨hrow, _⟩ := key_at_bounds row col key hk
  obtain ⟨key0, s1, hk0, he, hp, hc, ht, hI1⟩ :=
    key_edge_accept_inv s hI row col gpio now later hrow hpin hacc
  have hkey : key0 = key := by
    rw [hk] at hk0
    exact (Option.some.inj hk0).symm
  subst hkey
  refine ⟨s1, he, hc, ht, hI1, ?_, ?_⟩
  · intro hD
    rw [if_neg hD] at hp
    exact (Option.some.inj hp).symm
  · intro hD
    subst hD
    rw [if_pos rfl] at hp
    obtain ⟨sp, hsp, hs1⟩ := Option.map_eq_some'.1 hp
    exact ⟨sp, hsp, hs1.symm⟩

/-- C11, the claim refuted: from start-up, an edge on column pin 6 whose debounce check
reads the clock at 600000 is accepted and records the key `1`, the clock being read again
at 600005 for the stamp.  A second edge on the same pin whose check reads 1100001, that
is 500001 microseconds after the first, is dropped: buffer, write position and stamp are
those left by the first edge, so a single key has been recorded. -/
theorem C11_edge_500001_after_first_is_dropped :
    ¬ sub64 600000 State.init.last_press_time < DEBOUNCE_TIME_US ∧
      key_edge State.init 0 6 600000 600005
        = some { State.init with
            current_key := '1',
            text_input := ['1', NUL, NUL, NUL, NUL, NUL, NUL, NUL, NUL, NUL],
            letter_index := 1, last_press_time := 600005 } ∧
      DEBOUNCE_TIME_US < 1100001 - 600000 ∧
      key_edge
          { State.init with
            current_key := '1',
            text_input := ['1', NUL, NUL, NUL, NUL, NUL, NUL, NUL, NUL, NUL],
            letter_index := 1, last_press_time := 600005 } 0 6 1100001 1100006
        = some { State.init with
            current_key := '1',
            text_input := ['1', NUL, NUL, NUL, NUL, NUL, NUL, NUL, NUL, NUL],
            letter_index := 1, last_press_time := 600005 } := by
  decide

/-- C11 as amended: in a state within the ranges, let an edge on column pin
`gpio_columns[col]` be accepted while row `r1` is active and let `t1` be the time it
stores in `last_press_time`, read when the key is recorded.  It writes
`matrix_keys[r1][col]` at the write position, which advances modulo 10 (with `D` the
buffer is then parsed).  A second edge on the same pin whose debounce check reads
`t2 ≥ t1` changes neither buffer, write position nor `last_press_time` when
`t2 - t1 < 500000`, so that one key has been recorded; when `t2 - t1 ≥ 500000` it records
the key of its row in the same way.  The row named in each edge is the row the scan has
reached. -/
theorem C11_keypad_debounce (s : State) (hI : Inv s) (col gpio r1 now1 t1 : Nat)
    (key1 : Char) (hpin : gpio_columns[col]? = some gpio)
    (hk1 : key_at r1 col = some key1)
    (hacc : ¬ sub64 now1 s.last_press_time < DEBOUNCE_TIME_US) :
    ∃ s1, key_edge s r1 gpio now1 t1 = some s1 ∧
      s1.current_key = key1 ∧ s1.last_press_time = t1 ∧
      (key1 ≠ 'D' →
        s1 = { s with sequence := r1, current_key := key1,
                      text_input := s.text_input.set s.letter_index key1,
                      letter_index := (s.letter_index + 1) % 10,
                      last_press_time := t1 }) ∧
      (key1 = 'D' →
        ∃ sp, analyze_text_input
              { s with sequence := r1, current_key := 'D',
                       text_input := s.text_input.set s.letter_index 'D',
                       letter_index := (s.letter_index + 1) % 10 } = some sp ∧
          s1 = { sp with last_press_time := t1 }) ∧
      ∀ (r2 t2 later2 : Nat) (key2 : Char), key_at r2 col = some key2 → t1 ≤ t2 →
        t2 < 2 ^ 64 →
        (t2 - t1 < 500000 →
          key_edge s1 r2 gpio t2 later2 = some { s1 with sequence := r2 } ∧
          ({ s1 with sequence := r2 } : State).text_input = s1.text_input ∧
          ({ s1 with sequence := r2 } : State).letter_index = s1.letter_index ∧
          ({ s1 with sequence := r2 } : State).last_press_time = t1) ∧
        (500000 ≤ t2 - t1 →
          ∃ s2, key_edge s1 r2 gpio t2 later2 = some s2 ∧
            s2.current_key = key2 ∧ s2.last_press_time = later2 ∧
            (key2 ≠ 'D' →
              s2 = { s1 with sequence := r2, current_key := key2,
                             text_input := s1.text_input.set s1.letter_index key2,
                             letter_index := (s1.letter_index + 1) % 10,
                             last_press_time := later2 }) ∧
            (key2 = 'D' →
              ∃ sp, analyze_text_input
                    { s1 with sequence := r2, current_key := 'D',
                              text_input := s1.text_input.set s1.letter_index 'D',
                              letter_index := (s1.letter_index + 1) % 10 } = some sp ∧
                s2 = { sp with last_press_time := later2 })) := by
  obtain ⟨s1, he1, hc1, ht1, hI1, hn1, hd1⟩ :=
    key_edge_record s hI r1 col gpio now1 t1 key1 hpin hk1 hacc
  refine ⟨s1, he1, hc1, ht1, hn1, hd1, ?_⟩
  intro r2 t2 later2 key2 hk2 hle hlt
  have hsub : sub64 t2 s1.last_press_time = t2 - t1 := by
    rw [ht1]; exact sub64_of_le t2 t1 hle hlt
  constructor
  · intro hin
    refine ⟨?_, rfl, rfl, ht1⟩
    unfold key_edge callback_keypress
    rw [if_pos (by show sub64 t2 s1.last_press_time < DEBOUNCE_TIME_US; rw [hsub]; exact hin)]
  · intro hout
    have hacc2 : ¬ sub64 t2 s1.last_press_time < DEBOUNCE_TIME_US := by
      rw [hsub]; unfold DEBOUNCE_TIME_US; omega
    obtain ⟨s2, he2, hc2, ht2, _, hn2, hd2⟩ :=
      key_edge_record s1 hI1 r2 col gpio t2 later2 key2 hpin hk2 hacc2
    exact ⟨s2, he2, hc2, ht2, hn2, hd2⟩

theorem C11_keypad_debounce_witness :
    ∃ s1, key_edge State.init 0 6 600000 600005 = some s1 ∧
      s1.current_key = '1' ∧ s1.last_press_time = 600005 ∧
      s1 = { State.init with
              sequence := 0, current_key := '1',
              text_input := State.init.text_input.set State.init.letter_index '1',
              letter_index := (State.init.letter_index + 1) % 10,
              last_press_time := 600005 } ∧
      (key_edge s1 1 6 1000000 1000003 = some { s1 with sequence := 1 } ∧
        ({ s1 with sequence := 1 } : State).text_input = s1.text_input ∧
        ({ s1 with sequence := 1 } : State).letter_index = s1.letter_index ∧
        ({ s1 with sequence := 1 } : State).last_press_time = 600005) ∧
      ∃ s2, key_edge s1 1 6 1100005 1100009 = some s2 ∧
        s2.current_key = '4' ∧ s2.last_press_time = 1100009 ∧
        s2 = { s1 with sequence := 1, current_key := '4',
                       text_input := s1.text_input.set s1.letter_index '4',
                       letter_index := (s1.letter_index + 1) % 10,
                       last_press_time := 1100009 } := by
  obtain ⟨s1, h1, h2, h3, h4, _, h6⟩ :=
    C11_keypad_debounce State.init init_inv 0 6 0 600000 600005 '1' rfl rfl (by decide)
  obtain ⟨s2, g1, g2, g3, g4, _⟩ :=
    (h6 1 1100005 1100009 '4' rfl (by decide) (by decide)).2 (by decide)
  exact ⟨s1, h1, h2, h3, h4 (by decide),
    (h6 1 1000000 1000003 '4' rfl (by decide) (by decide)).1 (by decide),
    s2, g1, g2, g3, g4 (by decide)⟩

/-- C12, the claim refuted at the boundary: a button edge and a keypad edge that arrive
exactly 500000 microseconds after the stored stamp are accepted, the first stepping the
selector, the second recording the key `1`. -/
theorem C12_edge_at_500000_is_accepted :
    sub64 1500000 1000000 = 500000 ∧
      callback_pressed { State.init with last_press_button_time := 1000000 }
          1500000 1500000
        = { State.init with last_press_button_time := 1500000, signal_count := 1 } ∧
      callback_pressed { State.init with last_press_button_time := 1000000 }
          1500000 1500000
        ≠ { State.init with last_press_button_time := 1000000 } ∧
      callback_keypress { State.init with last_press_time := 1000000 } 6 1500000 1500000
        = some { State.init with
            current_key := '1',
            text_input := ['1', NUL, NUL, NUL, NUL, NUL, NUL, NUL, NUL, NUL],
            letter_index := 1, last_press_time := 1500000 } ∧
      callback_keypress { State.init with last_press_time := 1000000 } 6 1500000 1500000
        ≠ some { State.init with last_press_time := 1000000 } := by
  decide

/-- C12 as amended: an edge is dropped exactly when the 64-bit difference between the
time read and the stored stamp is below 500000 microseconds.  A button edge with a
difference of at least 500000 steps the selector and stores the new stamp; a keypad
edge on a column pin with a difference of at least 500000 records the key of the active
row; so an edge arriving exactly 500000 microseconds after the stamp is accepted. -/
theorem C12_debounce_threshold (s : State) (now later : Nat) :
    (sub64 now s.last_press_button_time < 500000 → callback_pressed s now later = s) ∧
      (500000 ≤ sub64 now s.last_press_button_time →
        callback_pressed s now later
          = { s with last_press_button_time := later,
                     signal_count := (s.signal_count + 1) % 4 }) ∧
      (∀ gpio, sub64 now s.last_press_time < 500000 →
        callback_keypress s gpio now later = some s) ∧
      (∀ col gpio, Inv s → gpio_columns[col]? = some gpio →
        500000 ≤ sub64 now s.last_press_time →
        ∃ key s1, key_at s.sequence col = some key ∧
          callback_keypress s gpio now later = some s1 ∧
          (if key = 'D' then analyze_text_input (store_key s key)
            else some (store_key s key)).map
              (fun x => { x with last_press_time := later }) = some s1 ∧
          s1.current_key = key ∧ s1.last_press_time = later) := by
  refine ⟨?_, ?_, ?_, ?_⟩
  · intro h
    unfold callback_pressed
    rw [if_pos (by unfold DEBOUNCE_TIME_US; exact h)]
  · intro h
    unfold callback_pressed
    rw [if_neg (by unfold DEBOUNCE_TIME_US; omega)]
  · intro gpio h
    unfold callback_keypress
    rw [if_pos (by unfold DEBOUNCE_TIME_US; exact h)]
  · intro col gpio hI hpin h
    obtain ⟨key, s1, hk, he, hp, hc, ht, _⟩ :=
      key_edge_accept_inv s hI s.sequence col gpio now later hI.2.2.2.2.1 hpin
        (by unfold DEBOUNCE_TIME_US; omega)
    exact ⟨key, s1, hk, he, hp, hc, ht⟩

theorem C12_debounce_threshold_witness :
    (sub64 1499999 1000000 < 500000 ∧
        callback_pressed { State.init with last_press_button_time := 1000000 }
          1499999 1500001 = { State.init with last_press_button_time := 1000000 }) ∧
      (500000 ≤ sub64 1500000 1000000 ∧
        callback_pressed { State.init with last_press_button_time := 1000000 }
          1500000 1500001
          = { State.init with last_press_button_time := 1500001,
                              signal_count := (0 + 1) % 4 }) ∧
      (sub64 1499999 1000000 < 500000 ∧
        callback_keypress { State.init with last_press_time := 1000000 } 6
          1499999 1500001 = some { State.init with last_press_time := 1000000 }) ∧
      (500000 ≤ sub64 1500000 1000000 ∧
        ∃ key s1, key_at 0 0 = some key ∧
          callback_keypress { State.init with last_press_time := 1000000 } 6
            1500000 1500001 = some s1 ∧
          (if key = 'D' then
              analyze_text_input
                (store_key { State.init with last_press_time := 1000000 } key)
            else some (store_key { State.init with last_press_time := 1000000 } key)).map
              (fun x => { x with last_press_time := 1500001 }) = some s1 ∧
          s1.current_key = key ∧ s1.last_press_time = 1500001) :=
  ⟨⟨by decide,
      (C12_debounce_threshold { State.init with last_press_button_time := 1000000 }
        1499999 1500001).1 (by decide)⟩,
    ⟨by decide,
      (C12_debounce_threshold { State.init with last_press_button_time := 1000000 }
        1500000 1500001).2.1 (by decide)⟩,
    ⟨by decide,
      (C12_debounce_threshold { State.init with last_press_time := 1000000 }
        1499999 1500001).2.2.1 6 (by decide)⟩,
    ⟨by decide,
      (C12_debounce_threshold { State.init with last_press_time := 1000000 }
        1500000 1500001).2.2.2 0 6
        (by refine ⟨⟨?_, ?_⟩, ⟨?_, ?_⟩, ?_, ?_, ?_, ?_, ?_⟩ <;> decide) rfl (by decide)⟩⟩

/-! ### Waveform tables -/

/-- C13 (defect of the code): `seno`, `triangular` and `sierra` have 100 entries, but the
initialiser of `cuadrada` has 101 (51 times 255, then 50 times 0); every entry of the
four tables lies in `[0,255]`. -/
theorem C13_table_lengths :
    seno.length = 100 ∧ triangular.length = 100 ∧ sierra.length = 100 ∧
      cuadrada.length = 101 ∧
      cuadrada = List.replicate 51 255 ++ List.replicate 50 0 ∧
      (∀ x ∈ seno, x ≤ 255) ∧ (∀ x ∈ triangular, x ≤ 255) ∧ (∀ x ∈ sierra, x ≤ 255) ∧
      (∀ x ∈ cuadrada, x ≤ 255) := by
  refine ⟨rfl, rfl, rfl, rfl, ?_, ?_, ?_, ?_, ?_⟩ <;> decide

/-! ### Polling variant: commands and input buffer -/

theorem pol_atoi (ds rest : List Char) (hds : ∀ d ∈ ds, isdigit d = true)
    (hrest : ∀ c, rest.head? = some c →
      isdigit c = false ∧ (ds = [] → isspace c = false ∧ c ≠ '-' ∧ c ≠ '+'))
    (hlen : ds.length ≤ 9) :
    atoi ((ds ++ rest) ++ [NUL]) = some (decimal_value ds : Int) := by
  cases rest with
  | nil =>
    rw [List.append_nil]
    exact atoi_digits_stop ds hds NUL (by decide) (fun _ => by decide) [] hlen
  | cons c tl =>
    obtain ⟨h1, h2⟩ := hrest c rfl
    rw [List.append_assoc, List.cons_append]
    exact atoi_digits_stop ds hds c h1 h2 (tl ++ [NUL]) hlen

/-- C15: in the polling variant, when `D` is pressed with a buffer `C`, digits denoting
`f`, then nothing or a key that is no digit, the frequency becomes `f` and the sampling
interval becomes `1000000 / 100 / f` if `1 ≤ f ≤ 12000000`, and otherwise both keep
their values; in both cases the buffer is emptied.  The same holds for the pass of the
keypad loop that sees the `D` key down outside the debounce window. -/
theorem C15_polling_frequency_command (s : PolState) (ds rest : List Char)
    (hbuf : s.text_input = 'C' :: (ds ++ rest)) (hlen : s.text_input.length < 10)
    (hds : ∀ d ∈ ds, isdigit d = true)
    (hrest : ∀ c, rest.head? = some c →
      isdigit c = false ∧ (ds = [] → isspace c = false ∧ c ≠ '-' ∧ c ≠ '+')) :
    pol_key_pressed s 'D'
        = some (if 1 ≤ decimal_value ds ∧ decimal_value ds ≤ 12000000 then
            { s with frequency := decimal_value ds,
                     samp_freq := 1000000 / 100 / decimal_value ds, text_input := [] }
          else { s with text_input := [] }) ∧
      ∀ t : Nat, ((t % 2 ^ 32 / 1000 : Nat) : Int) - s.last_keypress_time > 500 →
        pol_keypad_cell s 3 3 true t
          = some (if 1 ≤ decimal_value ds ∧ decimal_value ds ≤ 12000000 then
              { s with frequency := decimal_value ds,
                       samp_freq := 1000000 / 100 / decimal_value ds, text_input := [],
                       last_keypress_time := ((t % 2 ^ 32 / 1000 : Nat) : Int) }
            else { s with text_input := [],
                          last_keypress_time := ((t % 2 ^ 32 / 1000 : Nat) : Int) }) := by
  have hdl : ds.length ≤ 9 := by
    rw [hbuf] at hlen
    simp at hlen
    omega
  have hat := pol_atoi ds rest hds hrest hdl
  have hCA : ('C' : Char) ≠ 'A' := by decide
  have hCB : ('C' : Char) ≠ 'B' := by decide
  have hlt : decimal_value ds % 2 ^ 32 = decimal_value ds := by
    apply Nat.mod_eq_of_lt
    calc decimal_value ds < 10 ^ ds.length := decimal_value_lt ds hds
      _ ≤ 10 ^ 9 := Nat.pow_le_pow_right (by norm_num) hdl
      _ < 2 ^ 32 := by norm_num
  have hcmd : pol_key_pressed s 'D'
      = some (if 1 ≤ decimal_value ds ∧ decimal_value ds ≤ 12000000 then
          { s with frequency := decimal_value ds,
                   samp_freq := 1000000 / 100 / decimal_value ds, text_input := [] }
        else { s with text_input := [] }) := by
    unfold pol_key_pressed pol_command
    rw [if_pos rfl, hbuf]
    simp only [hCA, hCB, if_false, if_true, hat, trunc_cast, hlt]
    by_cases hr : 1 ≤ decimal_value ds ∧ decimal_value ds ≤ 12000000
    · rw [if_pos hr, if_pos hr,
        initialize_samp_freq_eq (decimal_value ds) hr.1 (by omega)]
    · rw [if_neg hr, if_neg hr]
  refine ⟨hcmd, ?_⟩
  intro t ht
  have hk : key_at 3 3 = some 'D' := rfl
  unfold pol_keypad_cell
  simp only [if_true]
  rw [if_pos ht, hk]
  simp only [hcmd, Option.map_some']
  split <;> rfl

set_option maxRecDepth 20000 in
theorem C15_polling_frequency_command_witness :
    (pol_key_pressed { PolState.init 0 with text_input := ['C', '2', '0'] } 'D'
        = some { PolState.init 0 with frequency := 20, samp_freq := 500, text_input := [] } ∧
      pol_keypad_cell { PolState.init 0 with text_input := ['C', '2', '0'] } 3 3 true 1000000
        = some { PolState.init 0 with
            frequency := 20, samp_freq := 500, text_input := [],
            last_keypress_time := 1000 }) ∧
      pol_key_pressed
          { PolState.init 0 with
            text_input := ['C', '1', '2', '0', '0', '0', '0', '0', '1'] } 'D'
        = some { PolState.init 0 with text_input := [] } :=
  ⟨⟨(C15_polling_frequency_command { PolState.init 0 with text_input := ['C', '2', '0'] }
        ['2', '0'] [] rfl (by decide) (by decide) (fun _ h => nomatch h)).1,
      (C15_polling_frequency_command { PolState.init 0 with text_input := ['C', '2', '0'] }
        ['2', '0'] [] rfl (by decide) (by decide) (fun _ h => nomatch h)).2 1000000
        (by decide)⟩,
    (C15_polling_frequency_command
      { PolState.init 0 with text_input := ['C', '1', '2', '0', '0', '0', '0', '0', '1'] }
      ['1', '2', '0', '0', '0', '0', '0', '1'] [] rfl (by decide) (by decide)
      (fun _ h => nomatch h)).1⟩

theorem pol_command_defined (s : PolState) (hlen : s.text_input.length < 10) :
    ∃ s1, pol_command s = some s1 ∧ s1.text_input = [] := by
  unfold pol_command
  cases hb : s.text_input with
  | nil => exact ⟨_, rfl, rfl⟩
  | cons c tl =>
    have htl : (tl ++ [NUL]).length ≤ 9 := by
      rw [hb] at hlen
      simp at hlen ⊢
      omega
    obtain ⟨v, hv⟩ := atoi_total_stop (tl ++ [NUL])
      ⟨NUL, List.mem_append_right _ (List.mem_singleton_self _), by decide⟩ htl
    simp only [hv]
    by_cases hA : c = 'A'
    · rw [if_pos hA]
      split <;> exact ⟨_, rfl, rfl⟩
    · rw [if_neg hA]
      by_cases hB : c = 'B'
      · rw [if_pos hB]
        split <;> exact ⟨_, rfl, rfl⟩
      · rw [if_neg hB]
        by_cases hC : c = 'C'
        · rw [if_pos hC]
          split <;> exact ⟨_, rfl, rfl⟩
        · rw [if_neg hC]
          exact ⟨_, rfl, rfl⟩

theorem pol_key_pressed_defined (s : PolState) (key : Char)
    (hlen : s.text_input.length < 10) :
    ∃ s1, pol_key_pressed s key = some s1 ∧ s1.text_input.length < 10 := by
  unfold pol_key_pressed
  by_cases hD : key = 'D'
  · rw [if_pos hD]
    obtain ⟨s1, h1, h2⟩ := pol_command_defined s hlen
    exact ⟨s1, h1, by rw [h2]; decide⟩
  · rw [if_neg hD, if_pos (by omega)]
    refine ⟨_, rfl, ?_⟩
    show (if 10 ≤ (s.text_input ++ [key]).length then [] else s.text_input ++ [key]).length
      < 10
    split
    · decide
    · omega

theorem pol_keypad_cell_defined (s : PolState) (row col : Nat) (pin : Bool) (t : Nat)
    (hrow : row < 4) (hcol : col < 4) (hlen : s.text_input.length < 10) :
    ∃ s1, pol_keypad_cell s row col pin t = some s1 ∧ s1.text_input.length < 10 := by
  obtain ⟨key, hk⟩ : ∃ key, key_at row col = some key := by
    interval_cases row <;> interval_cases col <;> exact ⟨_, rfl⟩
  unfold pol_keypad_cell
  cases pin with
  | false => exact ⟨s, rfl, hlen⟩
  | true =>
    simp only [if_true]
    split
    · rw [hk]
      obtain ⟨s1, h1, h2⟩ := pol_key_pressed_defined s key hlen
      simp only [h1, Option.map_some']
      exact ⟨_, rfl, h2⟩
    · exact ⟨s, rfl, hlen⟩

theorem pol_cells_defined (cells : List (Nat × Nat × Bool × Nat))
    (hcells : ∀ e ∈ cells, e.1 < 4 ∧ e.2.1 < 4) :
    ∀ s : PolState, s.text_input.length < 10 →
      ∃ s1, pol_cells s cells = some s1 ∧ s1.text_input.length < 10 := by
  induction cells with
  | nil => intro s hs; exact ⟨s, rfl, hs⟩
  | cons e es ih =>
    intro s hs
    obtain ⟨h1, h2⟩ := hcells e (List.mem_cons_self _ _)
    obtain ⟨s1, hs1, hl1⟩ := pol_keypad_cell_defined s e.1 e.2.1 e.2.2.1 e.2.2.2 h1 h2 hs
    obtain ⟨s2, hs2, hl2⟩ := ih (fun x hx => hcells x (List.mem_cons_of_mem _ hx)) s1 hl1
    refine ⟨s2, ?_, hl2⟩
    simp only [pol_cells, hs1]
    exact hs2

/-- C19: in the polling variant, an accepted key other than `D` pressed with a buffer of
fewer than 10 characters is appended (the string and its closing zero byte fit the 20
bytes of the array), and the buffer is emptied if it has then 10 characters; hence from
start-up, after any sequence of passes of the keypad loop, the buffer holds at most 9
characters. -/
theorem C19_polling_buffer_overflow (s : PolState) (key : Char)
    (hlen : s.text_input.length < 10) (hkey : key ≠ 'D') :
    pol_key_pressed s key
        = some { s with
            text_input :=
              if (s.text_input ++ [key]).length = 10 then [] else s.text_input ++ [key] } ∧
      (s.text_input ++ [key]).length + 1 ≤ 20 ∧
      (∀ s1, pol_key_pressed s key = some s1 → s1.text_input.length ≤ 9) ∧
      ∀ (t0 : Nat) (cells : List (Nat × Nat × Bool × Nat)),
        (∀ e ∈ cells, e.1 < 4 ∧ e.2.1 < 4) →
        ∃ s1, pol_cells (PolState.init t0) cells = some s1 ∧ s1.text_input.length ≤ 9 := by
  have hstep : pol_key_pressed s key
      = some { s with
          text_input :=
            if (s.text_input ++ [key]).length = 10 then [] else s.text_input ++ [key] } := by
    unfold pol_key_pressed
    rw [if_neg hkey, if_pos (by omega)]
    have hl : (s.text_input ++ [key]).length = s.text_input.length + 1 := by simp
    by_cases h10 : (s.text_input ++ [key]).length = 10
    · rw [if_pos (by omega), if_pos h10]
    · rw [if_neg (by omega), if_neg h10]
  refine ⟨hstep, by simp; omega, ?_, ?_⟩
  · intro s1 h1
    obtain ⟨s2, h2, hl2⟩ := pol_key_pressed_defined s key hlen
    rw [h1] at h2
    cases h2
    omega
  · intro t0 cells hcells
    obtain ⟨s1, h1, hl1⟩ := pol_cells_defined cells hcells (PolState.init t0)
      (by show ([] : List Char).length < 10; decide)
    exact ⟨s1, h1, by omega⟩

set_option maxRecDepth 20000 in
theorem C19_polling_buffer_overflow_witness :
    pol_key_pressed
        { PolState.init 0 with
          text_input := ['A', '1', '2', '3', '4', '5', '6', '7', '8'] } '9'
        = some { PolState.init 0 with
            text_input :=
              if (['A', '1', '2', '3', '4', '5', '6', '7', '8'] ++ ['9']).length = 10 then []
              else ['A', '1', '2', '3', '4', '5', '6', '7', '8'] ++ ['9'] } ∧
      (['A', '1', '2', '3', '4', '5', '6', '7', '8'] ++ ['9']).length + 1 ≤ 20 ∧
      (∀ s1, pol_key_pressed
          { PolState.init 0 with
            text_input := ['A', '1', '2', '3', '4', '5', '6', '7', '8'] } '9' = some s1 →
        s1.text_input.length ≤ 9) ∧
      ∃ s1, pol_cells (PolState.init 0)
          [(0, 3, true, 1000000), (0, 1, true, 2000000), (3, 3, false, 2500000)] = some s1 ∧
        s1.text_input.length ≤ 9 :=
  have h := C19_polling_buffer_overflow
    { PolState.init 0 with text_input := ['A', '1', '2', '3', '4', '5', '6', '7', '8'] } '9'
    (by decide) (by decide)
  ⟨h.1, h.2.1, h.2.2.1,
    h.2.2.2 0 [(0, 3, true, 1000000), (0, 1, true, 2000000), (3, 3, false, 2500000)]
      (by decide)⟩

/-! ### Permissive integer parse -/

theorem atoi_run (ds : List Char) (hds : ∀ d ∈ ds, isdigit d = true) (hlen : ds.length ≤ 9)
    (c : Char) (hc : atoi_stop c = true) (rest : List Char) :
    atoi (ds ++ c :: rest) = some (decimal_value ds : Int) := by
  obtain ⟨h1, h2, h3, h4⟩ := atoi_stop_spec c hc
  exact atoi_digits_stop ds hds c h1 (fun _ => ⟨h2, h4, h3⟩) rest hlen

theorem keypad_letter_stop (k : Char) (hk : k ∈ ['A', 'B', 'C', 'D', '*', '#']) :
    atoi_stop k = true := by
  simp only [List.mem_cons, List.mem_singleton, List.not_mem_nil, or_false] at hk
  rcases hk with h | h | h | h | h | h <;> subst h <;> decide

/-- C20: the value `atoi` gives to a command is the value of the run of decimal digits
that follows the command letter up to the first key that is no digit (or the zero byte),
and 0 when that run is empty.  So in both variants a buffer `A` followed directly by one
of the keys `A B C D * #` parses as 0 and leaves the amplitude unchanged, and a buffer
`A 2 0 0 # 5` parses as 200 and sets the amplitude to 200. -/
theorem C20_permissive_parse (ds : List Char) (c : Char) (rest : List Char)
    (hds : ∀ d ∈ ds, isdigit d = true) (hlen : ds.length ≤ 9) (hc : atoi_stop c = true) :
    atoi (ds ++ c :: rest) = some (decimal_value ds : Int) ∧
      atoi (c :: rest) = some 0 ∧
      (∀ (s : State) (k : Char) (tl : List Char), s.text_input = 'A' :: k :: tl →
        k ∈ ['A', 'B', 'C', 'D', '*', '#'] →
        analyze_text_input s = some (clear_text_input s)) ∧
      (∀ (s : State) (tl : List Char),
        s.text_input = 'A' :: '2' :: '0' :: '0' :: '#' :: '5' :: tl →
        analyze_text_input s = some (clear_text_input { s with amplitude := 200 })) ∧
      (∀ (s : PolState) (k : Char) (tl : List Char), s.text_input = 'A' :: k :: tl →
        k ∈ ['A', 'B', 'C', '*', '#'] →
        pol_key_pressed s 'D' = some { s with text_input := [] }) ∧
      (∀ (s : PolState) (tl : List Char),
        s.text_input = 'A' :: '2' :: '0' :: '0' :: '#' :: '5' :: tl →
        pol_key_pressed s 'D' = some { s with amplitude := 200, text_input := [] }) := by
  refine ⟨atoi_run ds hds hlen c hc rest, atoi_run [] (fun _ h => nomatch h) (by decide) c hc rest,
    ?_, ?_, ?_, ?_⟩
  · intro s k tl hbuf hk
    obtain ⟨h1, h2, h3, h4⟩ := atoi_stop_spec k (keypad_letter_stop k hk)
    have h := analyze_amplitude s [] k tl hbuf (fun _ h => nomatch h) h1
      (fun _ => ⟨h2, h4, h3⟩) (by decide)
    rw [h]
    rfl
  · intro s tl hbuf
    have h := analyze_amplitude s ['2', '0', '0'] '#' ('5' :: tl) hbuf (by decide) (by decide)
      (fun h => nomatch h) (by decide)
    rw [h]
    rfl
  · intro s k tl hbuf hk
    have hk' : atoi_stop k = true := by
      simp only [List.mem_cons, List.mem_singleton, List.not_mem_nil, or_false] at hk
      rcases hk with h | h | h | h | h <;> subst h <;> decide
    have hat := atoi_run [] (fun _ h => nomatch h) (by decide) k hk' (tl ++ [NUL])
    unfold pol_key_pressed pol_command
    rw [if_pos rfl, hbuf]
    simp only [if_true, List.cons_append]
    simp only [List.nil_append] at hat
    rw [hat]
    rfl
  · intro s tl hbuf
    have hat := atoi_run ['2', '0', '0'] (by decide) (by decide) '#' (by decide)
      ('5' :: (tl ++ [NUL]))
    unfold pol_key_pressed pol_command
    rw [if_pos rfl, hbuf]
    simp only [if_true, List.cons_append]
    simp only [List.cons_append, List.nil_append] at hat
    rw [hat]
    rfl

/-! ### Row-scan sequencer -/


theorem testBit_60 (k : Nat) : Nat.testBit 60 k = decide (2 ≤ k ∧ k ≤ 5) := by
  by_cases hk : k < 6
  · interval_cases k <;> decide
  · have h : (60 : Nat) < 2 ^ k :=
      lt_of_lt_of_le (by norm_num : (60 : Nat) < 2 ^ 6) (Nat.pow_le_pow_right (by norm_num) (by omega))
    rw [Nat.testBit_lt_two_pow h]
    simp
    omega

theorem row_pattern (q : Nat) (hq : q < 4) :
    (((1 <<< q) % 2 ^ 8) <<< gpio_rows.getD 0 0) % 2 ^ 32 = 2 ^ (q + 2) ∧
      gpio_rows.getD q 0 = q + 2 := by
  interval_cases q <;> exact ⟨rfl, rfl⟩

theorem timer_sequence_handler_pins (s : State) (k : Nat) :
    (timer_sequence_handler s).gpio_out.testBit k
      = if 2 ≤ k ∧ k ≤ 5 then decide (k = gpio_rows.getD ((s.sequence + 1) % 4) 0)
        else s.gpio_out.testBit k := by
  have hq : (s.sequence + 1) % 4 < 4 := Nat.mod_lt _ (by decide)
  obtain ⟨hv, hrow⟩ := row_pattern _ hq
  have hmask : (0xF <<< gpio_rows.getD 0 0) % 2 ^ 32 = 60 := rfl
  show (gpio_put_masked s.gpio_out ((0xF <<< gpio_rows.getD 0 0) % 2 ^ 32)
    ((((1 <<< ((s.sequence + 1) % 4)) % 2 ^ 8) <<< gpio_rows.getD 0 0) % 2 ^ 32)).testBit k = _
  rw [hv, hmask, hrow]
  unfold gpio_put_masked
  rw [Nat.testBit_xor, Nat.testBit_and, Nat.testBit_xor, testBit_60, Nat.testBit_two_pow]
  by_cases hk : 2 ≤ k ∧ k ≤ 5
  · rw [if_pos hk]
    simp only [hk, and_self, decide_True, Bool.and_true]
    cases s.gpio_out.testBit k <;> simp <;> omega
  · rw [if_neg hk]
    simp only [hk, decide_False, Bool.and_false, Bool.xor_false]


theorem timer_sequence_handler_iterate_sequence (n : Nat) (s : State) :
    (timer_sequence_handler^[n] s).sequence = (s.sequence + n) % 4 ∨
      (n = 0 ∧ (timer_sequence_handler^[n] s).sequence = s.sequence) := by
  induction n generalizing s with
  | zero => exact Or.inr ⟨rfl, rfl⟩
  | succ n ih =>
    left
    rw [Function.iterate_succ_apply]
    have hstep : (timer_sequence_handler s).sequence = (s.sequence + 1) % 4 := rfl
    rcases ih (timer_sequence_handler s) with h | ⟨hn, h⟩
    · rw [h, hstep]; omega
    · subst hn
      rw [h, hstep]

/-- C16: every call of `timer_sequence_handler` sets `sequence` to `(sequence + 1) mod 4`
and drives the row pins 2 to 5 one-hot: a row pin is high exactly when it is
`gpio_rows[sequence]` for the new `sequence`; every other pin keeps its level.  Four
ticks bring `sequence` back to its value, and from row 0 the ticks visit rows 1, 2, 3
and 0 in that order. -/
theorem C16_row_scan_sequencer (s : State) :
    (timer_sequence_handler s).sequence = (s.sequence + 1) % 4 ∧
      (∀ k, 2 ≤ k → k ≤ 5 →
        ((timer_sequence_handler s).gpio_out.testBit k = true
          ↔ k = gpio_rows.getD (timer_sequence_handler s).sequence 0)) ∧
      (∀ k, ¬ (2 ≤ k ∧ k ≤ 5) →
        (timer_sequence_handler s).gpio_out.testBit k = s.gpio_out.testBit k) ∧
      (s.sequence < 4 → (timer_sequence_handler^[4] s).sequence = s.sequence) ∧
      (s.sequence = 0 →
        (timer_sequence_handler^[1] s).sequence = 1 ∧
        (timer_sequence_handler^[2] s).sequence = 2 ∧
        (timer_sequence_handler^[3] s).sequence = 3 ∧
        (timer_sequence_handler^[4] s).sequence = 0) := by
  have hiter : ∀ n, 0 < n →
      (timer_sequence_handler^[n] s).sequence = (s.sequence + n) % 4 := by
    intro n hn
    rcases timer_sequence_handler_iterate_sequence n s with h | ⟨h0, _⟩
    · exact h
    · omega
  refine ⟨rfl, ?_, ?_, ?_, ?_⟩
  · intro k h2 h5
    rw [timer_sequence_handler_pins s k, if_pos ⟨h2, h5⟩]
    simp only [decide_eq_true_eq]
    rfl
  · intro k hk
    rw [timer_sequence_handler_pins s k, if_neg hk]
  · intro hs
    rw [hiter 4 (by decide)]
    omega
  · intro hs
    refine ⟨?_, ?_, ?_, ?_⟩
    · rw [hiter 1 (by decide), hs]
    · rw [hiter 2 (by decide), hs]
    · rw [hiter 3 (by decide), hs]
    · rw [hiter 4 (by decide), hs]

theorem C16_row_scan_sequencer_witness :
    (timer_sequence_handler { State.init with sequence := 2, gpio_out := 0xFFFFFFFF }).sequence
        = (2 + 1) % 4 ∧
      ((timer_sequence_handler
          { State.init with sequence := 2, gpio_out := 0xFFFFFFFF }).gpio_out.testBit 5 = true
        ↔ 5 = gpio_rows.getD (timer_sequence_handler
          { State.init with sequence := 2, gpio_out := 0xFFFFFFFF }).sequence 0) ∧
      ((timer_sequence_handler
          { State.init with sequence := 2, gpio_out := 0xFFFFFFFF }).gpio_out.testBit 4 = true
        ↔ 4 = gpio_rows.getD (timer_sequence_handler
          { State.init with sequence := 2, gpio_out := 0xFFFFFFFF }).sequence 0) ∧
      (timer_sequence_handler
          { State.init with sequence := 2, gpio_out := 0xFFFFFFFF }).gpio_out.testBit 16
        = (0xFFFFFFFF : Nat).testBit 16 ∧
      (timer_sequence_handler^[4]
          { State.init with sequence := 2, gpio_out := 0xFFFFFFFF }).sequence = 2 ∧
      ((timer_sequence_handler^[1] State.init).sequence = 1 ∧
        (timer_sequence_handler^[2] State.init).sequence = 2 ∧
        (timer_sequence_handler^[3] State.init).sequence = 3 ∧
        (timer_sequence_handler^[4] State.init).sequence = 0) :=
  have h := C16_row_scan_sequencer { State.init with sequence := 2, gpio_out := 0xFFFFFFFF }
  ⟨h.1, h.2.1 5 (by decide) (by decide), h.2.1 4 (by decide) (by decide),
    h.2.2.1 16 (by decide), h.2.2.2.1 (by decide),
    (C16_row_scan_sequencer State.init).2.2.2.2 rfl⟩

/-! ### Status period of the polling loop -/

theorem pol_status_flag (s : PolState) (t : Nat) :
    (pol_status s t).2 = true
      ↔ 10000 ≤ (t % 2 ^ 32 / 1000 + 2 ^ 32 - s.next_execution_time % 2 ^ 32) % 2 ^ 32 := by
  unfold pol_status
  simp only []
  split
  · rename_i h; exact ⟨fun _ => h, fun _ => rfl⟩
  · rename_i h; exact ⟨fun hf => Bool.noConfusion hf, fun hc => absurd hc h⟩

theorem pol_status_next (s : PolState) (t : Nat) (h : (pol_status s t).2 = true) :
    (pol_status s t).1.next_execution_time = (t % 2 ^ 32 / 1000 + 10000) % 2 ^ 32 := by
  have hc := (pol_status_flag s t).1 h
  unfold pol_status
  simp only []
  rw [if_pos hc]

/-- After a pass that prints the status line, every pass within the next 10 s prints
it again. -/
theorem pol_status_prints_again (s : PolState) (t1 t2 : Nat)
    (h1 : (pol_status s t1).2 = true)
    (hle : t1 % 2 ^ 32 / 1000 ≤ t2 % 2 ^ 32 / 1000)
    (hlt : t2 % 2 ^ 32 / 1000 < t1 % 2 ^ 32 / 1000 + 10000) :
    (pol_status (pol_status s t1).1 t2).2 = true := by
  rw [pol_status_flag, pol_status_next s t1 h1]
  omega

/-- C18 (defect of the code): with `next_execution_time = 0`, the pass at 10000 ms prints
the status line and sets `next_execution_time` to 20000; on the pass one millisecond
later the unsigned difference `10001 - 20000` wraps to 4294957297, which is not below
10000, and the line is printed again. -/
theorem C18_status_printed_one_ms_apart :
    (pol_status (PolState.init 0) 10000000).2 = true ∧
      (pol_status (PolState.init 0) 10000000).1.next_execution_time = 20000 ∧
      (pol_status (pol_status (PolState.init 0) 10000000).1 10001000).2 = true ∧
      (10001000 % 2 ^ 32 / 1000 + 2 ^ 32 - 20000 % 2 ^ 32) % 2 ^ 32 = 4294957297 := by
  decide

/-! ### DAC output adapter -/

theorem and_bit (v k : Nat) : (v &&& 2 ^ k != 0) = v.testBit k := by
  rw [Nat.and_two_pow]
  cases v.testBit k
  · simp
  · have : 2 ^ k ≠ 0 := by positivity
    simp [this]

theorem gpio_put_testBit (out pin : Nat) (b : Bool) (j : Nat) (hj : j < 32) :
    (gpio_put out pin b).testBit j = if j = pin then b else out.testBit j := by
  have hones : (0xFFFFFFFF : Nat) = 2 ^ 32 - 1 := by norm_num
  unfold gpio_put
  cases b with
  | true =>
    simp only [if_true]
    rw [Nat.testBit_or, Nat.one_shiftLeft, Nat.testBit_two_pow]
    by_cases h : j = pin
    · subst h
      simp
    · have h' : ¬ pin = j := fun e => h e.symm
      simp [h, h']
  | false =>
    simp only [Bool.false_eq_true, if_false]
    rw [Nat.testBit_and, Nat.testBit_xor, hones, Nat.testBit_two_pow_sub_one,
      Nat.one_shiftLeft, Nat.testBit_two_pow]
    by_cases h : j = pin
    · subst h
      simp [hj]
    · have h' : ¬ pin = j := fun e => h e.symm
      simp [h, h', hj]

theorem set_dac_value_lines (out v : Nat) :
    dac_lines (set_dac_value out v)
      = [v.testBit 0, v.testBit 1, v.testBit 2, v.testBit 3, v.testBit 4, v.testBit 5,
          v.testBit 6, v.testBit 7] := by
  have b0 : (v &&& 0x01 != 0) = v.testBit 0 := and_bit v 0
  have b1 : (v &&& 0x02 != 0) = v.testBit 1 := and_bit v 1
  have b2 : (v &&& 0x04 != 0) = v.testBit 2 := and_bit v 2
  have b3 : (v &&& 0x08 != 0) = v.testBit 3 := and_bit v 3
  have b4 : (v &&& 0x10 != 0) = v.testBit 4 := and_bit v 4
  have b5 : (v &&& 0x20 != 0) = v.testBit 5 := and_bit v 5
  have b6 : (v &&& 0x40 != 0) = v.testBit 6 := and_bit v 6
  have b7 : (v &&& 0x80 != 0) = v.testBit 7 := and_bit v 7
  unfold set_dac_value
  simp only [b0, b1, b2, b3, b4, b5, b6, b7]
  simp [dac_lines, dac_pins, D0_PIN, D1_PIN, D2_PIN, D3_PIN, D4_PIN, D5_PIN, D6_PIN, D7_PIN,
    gpio_put_testBit]

theorem byte_of_bits : ∀ v < 256,
    byte_of_lines [v.testBit 0, v.testBit 1, v.testBit 2, v.testBit 3, v.testBit 4,
      v.testBit 5, v.testBit 6, v.testBit 7] = v := by
  decide!

/-- C17: `set_dac_value` with a byte `v` drives data line `Dk` high exactly when bit `k`
of `v` is 1, for every `k` from 0 to 7; the eight levels, weighted by `2 ^ k`, add up to
`v`; and two different bytes never give the same eight levels. -/
theorem C17_set_dac_value_bits (out v : Nat) (hv : v < 256) :
    (∀ k < 8, (set_dac_value out v).testBit (dac_pins.getD k 0) = v.testBit k) ∧
      byte_of_lines (dac_lines (set_dac_value out v)) = v ∧
      ∀ out2 v2 : Nat, v2 < 256 → v2 ≠ v →
        dac_lines (set_dac_value out2 v2) ≠ dac_lines (set_dac_value out v) := by
  have hbyte : ∀ o w : Nat, w < 256 → byte_of_lines (dac_lines (set_dac_value o w)) = w := by
    intro o w hw
    rw [set_dac_value_lines]
    exact byte_of_bits w hw
  refine ⟨?_, hbyte out v hv, ?_⟩
  · intro k hk
    have h := set_dac_value_lines out v
    simp only [dac_lines, dac_pins, List.map_cons, List.map_nil, List.cons.injEq,
      and_true] at h
    obtain ⟨h0, h1, h2, h3, h4, h5, h6, h7⟩ := h
    interval_cases k
    · exact h0
    · exact h1
    · exact h2
    · exact h3
    · exact h4
    · exact h5
    · exact h6
    · exact h7
  · intro out2 v2 hv2 hne heq
    apply hne
    rw [← hbyte out2 v2 hv2, heq, hbyte out v hv]

theorem C17_set_dac_value_bits_witness :
    ((set_dac_value 0 0xA5).testBit (dac_pins.getD 7 0) = (0xA5 : Nat).testBit 7 ∧
        (set_dac_value 0 0xA5).testBit (dac_pins.getD 1 0) = (0xA5 : Nat).testBit 1) ∧
      byte_of_lines (dac_lines (set_dac_value 0 0xA5)) = 0xA5 ∧
      dac_lines (set_dac_value 0xFFFFFFFF 0xA4) ≠ dac_lines (set_dac_value 0 0xA5) :=
  have h := C17_set_dac_value_bits 0 0xA5 (by decide)
  ⟨⟨h.1 7 (by decide), h.1 1 (by decide)⟩, h.2.1,
    h.2.2 0xFFFFFFFF 0xA4 (by decide) (by decide)⟩

set_option maxRecDepth 20000 in
theorem C20_permissive_parse_witness :
    atoi (['2', '0', '0'] ++ '#' :: ['5', 'D', NUL, NUL, NUL])
        = some (decimal_value ['2', '0', '0'] : Int) ∧
      atoi ('#' :: ['5', 'D', NUL, NUL, NUL]) = some 0 ∧
      analyze_text_input
          { State.init with
            text_input := ['A', '*', 'D', NUL, NUL, NUL, NUL, NUL, NUL, NUL] }
        = some (clear_text_input
            { State.init with
              text_input := ['A', '*', 'D', NUL, NUL, NUL, NUL, NUL, NUL, NUL] }) ∧
      analyze_text_input
          { State.init with
            text_input := ['A', '2', '0', '0', '#', '5', 'D', NUL, NUL, NUL] }
        = some (clear_text_input
            { State.init with
              text_input := ['A', '2', '0', '0', '#', '5', 'D', NUL, NUL, NUL],
              amplitude := 200 }) ∧
      pol_key_pressed { PolState.init 0 with text_input := ['A', '#', '7'] } 'D'
        = some { PolState.init 0 with text_input := [] } ∧
      pol_key_pressed { PolState.init 0 with text_input := ['A', '2', '0', '0', '#', '5'] } 'D'
        = some { PolState.init 0 with amplitude := 200, text_input := [] } :=
  have h := C20_permissive_parse ['2', '0', '0'] '#' ['5', 'D', NUL, NUL, NUL]
    (by decide) (by decide) (by decide)
  ⟨h.1, h.2.1,
    h.2.2.1
      { State.init with text_input := ['A', '*', 'D', NUL, NUL, NUL, NUL, NUL, NUL, NUL] }
      '*' ['D', NUL, NUL, NUL, NUL, NUL, NUL, NUL] rfl (by decide),
    h.2.2.2.1
      { State.init with text_input := ['A', '2', '0', '0', '#', '5', 'D', NUL, NUL, NUL] }
      ['D', NUL, NUL, NUL] rfl,
    h.2.2.2.2.1 { PolState.init 0 with text_input := ['A', '#', '7'] } '#' ['7'] rfl
      (by decide),
    h.2.2.2.2.2 { PolState.init 0 with text_input := ['A', '2', '0', '0', '#', '5'] } [] rfl⟩

/-! ### Wrap-around of the offset subtraction -/

theorem wrap_sum (q d : Nat) (hd : d ≤ 255) :
    (((q : Int) - ((255 - d : Nat) : Int)) % 256).toNat = (q + d + 1) % 256 := by
  omega

/-- C22: for every raw sample `r` in `[0,255]`, amplitude `a` in `[100,2500]` and offset
`o` in `[50,1250]`, the byte computed by `generator` is
`(r / (2500 / (a / 2)) + (o * 255) / 1250 + 1) mod 256` (so it is for the entry of every
table at every index); with `o = 1250` the byte is exactly `r / (2500 / (a / 2))`; and the
byte equals the unreduced sum exactly when that sum is at most 255. -/
theorem C22_wrap_turns_subtraction_into_addition (r a o : Nat) (hr : r ≤ 255)
    (ha1 : 100 ≤ a) (ha2 : a ≤ 2500) (ho1 : 50 ≤ o) (ho2 : o ≤ 1250) :
    ((norm_Amp a).bind (fun normAmp => scale_signal r normAmp (norm_DC o))).map
        (fun v => v % 256)
      = some ((r / (2500 / (a / 2)) + o * 255 / 1250 + 1) % 256) ∧
    (∀ w < 4, ∀ i < 100, generator_byte i w a o
      = some (((waveform_table w).getD i 0 / (2500 / (a / 2)) + o * 255 / 1250 + 1) % 256)) ∧
    (o = 1250 →
      ((norm_Amp a).bind (fun normAmp => scale_signal r normAmp (norm_DC o))).map
          (fun v => v % 256)
        = some (r / (2500 / (a / 2)))) ∧
    ((r / (2500 / (a / 2)) + o * 255 / 1250 + 1) % 256
        = r / (2500 / (a / 2)) + o * 255 / 1250 + 1
      ↔ r / (2500 / (a / 2)) + o * 255 / 1250 + 1 ≤ 255) := by
  have _ := ho1
  obtain ⟨_, _, hd, _⟩ := halved_bounds a ha1 ha2
  have hoff : o * 255 / 1250 ≤ 255 := by omega
  have hbyte : ((norm_Amp a).bind (fun normAmp => scale_signal r normAmp (norm_DC o))).map
        (fun v => v % 256)
      = some ((r / (2500 / (a / 2)) + o * 255 / 1250 + 1) % 256) := by
    rw [norm_Amp_valid a ha1 ha2, norm_DC_valid o ho2, Option.some_bind,
      scale_signal_byte _ _ _ (by omega), wrap_sum _ _ hoff]
  refine ⟨hbyte, ?_, ?_, ?_⟩
  · intro w hw i hi
    rw [generator_byte_valid w i a o hw hi ha1 ha2 ho2, wrap_sum _ _ hoff]
  · intro h1250
    rw [hbyte]
    subst h1250
    have hq : r / (2500 / (a / 2)) ≤ 127 := by
      calc r / (2500 / (a / 2)) ≤ r / 2 := Nat.div_le_div_left hd (by norm_num)
        _ ≤ 127 := by omega
    have h255 : 1250 * 255 / 1250 = 255 := by norm_num
    rw [h255]
    congr 1
    generalize r / (2500 / (a / 2)) = q at hq ⊢
    omega
  · constructor
    · intro h
      have := Nat.mod_lt (r / (2500 / (a / 2)) + o * 255 / 1250 + 1) (by norm_num : 0 < 256)
      omega
    · intro h
      exact Nat.mod_eq_of_lt (by omega)

theorem C22_wrap_turns_subtraction_into_addition_witness :
    ((norm_Amp 1000).bind (fun normAmp => scale_signal 255 normAmp (norm_DC 1250))).map
        (fun v => v % 256)
      = some ((255 / (2500 / (1000 / 2)) + 1250 * 255 / 1250 + 1) % 256) ∧
    generator_byte 0 3 1000 1250
      = some (((waveform_table 3).getD 0 0 / (2500 / (1000 / 2)) + 1250 * 255 / 1250 + 1)
          % 256) ∧
    ((norm_Amp 1000).bind (fun normAmp => scale_signal 255 normAmp (norm_DC 1250))).map
        (fun v => v % 256)
      = some (255 / (2500 / (1000 / 2))) ∧
    ((255 / (2500 / (1000 / 2)) + 1250 * 255 / 1250 + 1) % 256
        = 255 / (2500 / (1000 / 2)) + 1250 * 255 / 1250 + 1
      ↔ 255 / (2500 / (1000 / 2)) + 1250 * 255 / 1250 + 1 ≤ 255) :=
  have h := C22_wrap_turns_subtraction_into_addition 255 1000 1250 (by decide) (by decide)
    (by decide) (by decide) (by decide)
  ⟨h.1, h.2.1 3 (by decide) 0 (by decide), h.2.2.1 rfl, h.2.2.2⟩

/-! ### Square wave -/

set_option maxRecDepth 100000 in
/-- C24: with selector 3 and a sample index below 100, `generator` loads the raw value
255 exactly at the indices `0..50` and the raw value 0 exactly at the indices `51..99`
(51 high and 49 low samples per period of 100); the sample index never reaches 100, in
any state reached from start-up and after any call of `generator`, so entry 100 of
`cuadrada`, the last of its 101, is never read. -/
theorem C24_square_wave_samples :
    (∀ i, i < 100 → (generator_signal 3 i = some 255 ↔ i ≤ 50)) ∧
    (∀ i, i < 100 → (generator_signal 3 i = some 0 ↔ 51 ≤ i)) ∧
    ((List.range 100).filter (fun i => generator_signal 3 i == some 255)).length = 51 ∧
    ((List.range 100).filter (fun i => generator_signal 3 i == some 0)).length = 49 ∧
    (∀ (a o k : Nat), 100 ≤ a → a ≤ 2500 → o ≤ 1250 →
      ∃ sk, generator_iter 3 a o k State.init = some sk ∧ sk.signal_index = k % 100 ∧
        generator_signal 3 sk.signal_index = some (if k % 100 ≤ 50 then 255 else 0)) ∧
    (∀ i, next_signal_index i < 100) ∧
    (∀ events s, run State.init events = some s → s.signal_index < 100) ∧
    cuadrada.length = 101 ∧ generator_signal 3 100 = some 0 := by
  have h1 : ∀ i, i < 100 → (generator_signal 3 i = some 255 ↔ i ≤ 50) := by decide
  have h2 : ∀ i, i < 100 → (generator_signal 3 i = some 0 ↔ 51 ≤ i) := by decide
  refine ⟨h1, h2, by decide, by decide, ?_, ?_, ?_, rfl, rfl⟩
  · intro a o k ha1 ha2 ho2
    obtain ⟨sk, hk, hidx⟩ :=
      generator_iter_index 3 a o (by decide) ha1 ha2 ho2 k State.init (by decide)
    have hidx2 : sk.signal_index = k % 100 := by
      rw [hidx]
      show (0 + k) % 100 = k % 100
      rw [Nat.zero_add]
    have hlt : k % 100 < 100 := Nat.mod_lt _ (by decide)
    refine ⟨sk, hk, hidx2, ?_⟩
    rw [hidx2]
    by_cases hle : k % 100 ≤ 50
    · rw [if_pos hle]; exact (h1 _ hlt).2 hle
    · rw [if_neg hle]; exact (h2 _ hlt).2 (by omega)
  · intro i
    exact Nat.mod_lt _ (by decide)
  · intro events s hs
    obtain ⟨s1, h1, hI⟩ := run_inv events State.init init_inv
    rw [hs] at h1
    cases h1
    exact hI.2.2.2.1

/-! ### Width of the parsed value in the two variants -/

/-- Value of `atoi` on a run of digits denoting a number below `2 ^ 31`, closed by a byte
that is no digit. -/
theorem atoi_value (ds : List Char) (hds : ∀ d ∈ ds, isdigit d = true)
    (c : Char) (hc : isdigit c = false)
    (hstop : ds = [] → isspace c = false ∧ c ≠ '-' ∧ c ≠ '+')
    (rest : List Char) (hn : decimal_value ds < 2 ^ 31) :
    atoi (ds ++ c :: rest) = some (decimal_value ds : Int) := by
  have hval : atoi_skip (ds ++ c :: rest) = some (decimal_value ds : Int) := by
    cases ds with
    | nil =>
      obtain ⟨h1, h2, h3⟩ := hstop rfl
      simp [atoi_skip, atoi_sign, atoi_digits, h1, h2, h3, hc, decimal_value]
    | cons d ds =>
      have hd : isdigit d = true := hds d (List.mem_cons_self _ _)
      obtain ⟨h1, h2, h3⟩ := isdigit_not_space_sign d hd
      have happ := atoi_digits_append (d :: ds) hds c hc rest 0
      simp only [List.cons_append] at happ
      simp only [List.cons_append, atoi_skip, atoi_sign, h1, h2, h3]
      simp only [Bool.false_eq_true, if_false]
      exact congrArg (Option.map Int.ofNat) happ
  unfold atoi
  rw [hval]
  have h1 : (-(2 ^ 31) : Int) ≤ (decimal_value ds : Int) := by
    have : (0 : Int) ≤ (decimal_value ds : Int) := Int.ofNat_nonneg _
    omega
  have h2 : (decimal_value ds : Int) < 2 ^ 31 := by exact_mod_cast hn
  simp only []
  rw [if_pos ⟨h1, h2⟩]

theorem trunc32 (n : Nat) (hn : n < 2 ^ 31) : (((n : Int) % 2 ^ 32).toNat) = n := by
  rw [trunc_cast]
  exact Nat.mod_eq_of_lt (by omega)

/-- C23: for a command letter followed by digits denoting `n < 2 ^ 31` and then a byte
that is no digit, the interrupt variant applies the range check to `n mod 65536`: with
`A` the amplitude becomes `n mod 65536` if that lies in `[100,2500]` and is otherwise
unchanged, with `B` the offset becomes `n mod 65536` if that lies in `[50,1250]` and is
otherwise unchanged; the polling variant, on `D` pressed with the string `A` or `B`
followed by the same digits, compares `n` itself. -/
theorem C23_range_check_width (s : State) (p : PolState) (ds : List Char) (c : Char)
    (rest : List Char) (hds : ∀ d ∈ ds, isdigit d = true) (hc : isdigit c = false)
    (hstop : ds = [] → isspace c = false ∧ c ≠ '-' ∧ c ≠ '+')
    (hn : decimal_value ds < 2 ^ 31) :
    (s.text_input = 'A' :: (ds ++ c :: rest) →
      analyze_text_input s
        = some (clear_text_input
            (if 100 ≤ decimal_value ds % 65536 ∧ decimal_value ds % 65536 ≤ 2500
              then { s with amplitude := decimal_value ds % 65536 } else s))) ∧
    (s.text_input = 'B' :: (ds ++ c :: rest) →
      analyze_text_input s
        = some (clear_text_input
            (if 50 ≤ decimal_value ds % 65536 ∧ decimal_value ds % 65536 ≤ 1250
              then { s with offsete := decimal_value ds % 65536 } else s))) ∧
    (p.text_input = 'A' :: ds →
      pol_key_pressed p 'D'
        = some (if 100 ≤ decimal_value ds ∧ decimal_value ds ≤ 2500
            then { p with amplitude := decimal_value ds, text_input := [] }
            else { p with text_input := [] })) ∧
    (p.text_input = 'B' :: ds →
      pol_key_pressed p 'D'
        = some (if 50 ≤ decimal_value ds ∧ decimal_value ds ≤ 1250
            then { p with offsete := decimal_value ds, text_input := [] }
            else { p with text_input := [] })) := by
  have hat := atoi_value ds hds c hc hstop rest hn
  have hpol : atoi (ds ++ [NUL]) = some (decimal_value ds : Int) :=
    atoi_value ds hds NUL (by decide) (fun _ => by decide) [] hn
  have hBA : ('B' : Char) ≠ 'A' := by decide
  have h16 : (65536 : Nat) = 2 ^ 16 := by norm_num
  refine ⟨?_, ?_, ?_, ?_⟩
  · intro h
    unfold analyze_text_input
    simp only [h, List.getElem?_cons_zero, List.drop_succ_cons, List.drop_zero, if_true, hat,
      trunc_cast, h16]
    split <;> rfl
  · intro h
    unfold analyze_text_input
    simp only [h, List.getElem?_cons_zero, List.drop_succ_cons, List.drop_zero, if_true, hat,
      trunc_cast, hBA, if_false, h16]
    split <;> rfl
  · intro h
    unfold pol_key_pressed pol_command
    rw [if_pos rfl, h]
    simp only [if_true, hpol, trunc32 _ hn]
    split <;> rfl
  · intro h
    unfold pol_key_pressed pol_command
    rw [if_pos rfl, h]
    simp only [if_true, hpol, trunc32 _ hn, hBA, if_false]
    split <;> rfl

set_option maxRecDepth 20000 in
theorem C23_range_check_width_witness :
    analyze_text_input
        { State.init with text_input := ['A', '6', '5', '7', '3', '6', 'D', NUL, NUL, NUL] }
      = some (clear_text_input
          { State.init with
            text_input := ['A', '6', '5', '7', '3', '6', 'D', NUL, NUL, NUL],
            amplitude := 200 }) ∧
    pol_key_pressed { PolState.init 0 with text_input := ['A', '6', '5', '7', '3', '6'] } 'D'
      = some { PolState.init 0 with text_input := [] } ∧
    analyze_text_input
        { State.init with text_input := ['B', '6', '5', '5', '8', '6', 'D', NUL, NUL, NUL] }
      = some (clear_text_input
          { State.init with
            text_input := ['B', '6', '5', '5', '8', '6', 'D', NUL, NUL, NUL],
            offsete := 50 }) ∧
    pol_key_pressed { PolState.init 0 with text_input := ['B', '6', '5', '5', '8', '6'] } 'D'
      = some { PolState.init 0 with text_input := [] } :=
  have hA := C23_range_check_width
    { State.init with text_input := ['A', '6', '5', '7', '3', '6', 'D', NUL, NUL, NUL] }
    { PolState.init 0 with text_input := ['A', '6', '5', '7', '3', '6'] }
    ['6', '5', '7', '3', '6'] 'D' [NUL, NUL, NUL] (by decide) (by decide)
    (fun h => nomatch h) (by decide)
  have hB := C23_range_check_width
    { State.init with text_input := ['B', '6', '5', '5', '8', '6', 'D', NUL, NUL, NUL] }
    { PolState.init 0 with text_input := ['B', '6', '5', '5', '8', '6'] }
    ['6', '5', '5', '8', '6'] 'D' [NUL, NUL, NUL] (by decide) (by decide)
    (fun h => nomatch h) (by decide)
  ⟨hA.1 rfl, hA.2.2.1 rfl, hB.2.1 rfl, hB.2.2.2 rfl⟩

/-! ### Input accumulator of the interrupt variant -/

theorem set_append_cons (pre : List Char) (x key : Char) (suf : List Char) :
    (pre ++ x :: suf).set pre.length key = pre ++ key :: suf := by
  induction pre with
  | nil => rfl
  | cons p pre ih => simp [ih]

/-- One accepted key other than `D`: the state left by the handler. -/
theorem key_edge_store (s : State) (row col gpio now later : Nat) (key : Char)
    (hpin : gpio_columns[col]? = some gpio) (hk : key_at row col = some key)
    (hacc : ¬ sub64 now s.last_press_time < DEBOUNCE_TIME_US)
    (hli : s.letter_index < s.text_input.length) (hD : key ≠ 'D') :
    key_edge s row gpio now later
      = some { s with sequence := row, current_key := key,
                      text_input := s.text_input.set s.letter_index key,
                      letter_index := (s.letter_index + 1) % 10,
                      last_press_time := later } := by
  rw [key_edge_accept s row col gpio now later key hpin hk hacc hli, if_neg hD]
  rfl

/-- Accepted keys other than `D` typed one after the other fill the buffer from the write
position on, up to its last byte. -/
theorem key_edges_fill (ks : List Char) (es : List Edge)
    (hdec : List.Forall₂ decodes es ks) :
    ∀ (s : State) (pre suf : List Char) (rest : List Edge),
      (∀ k ∈ ks, k ≠ 'D') →
      s.text_input = pre ++ suf → suf.length = ks.length →
      s.letter_index = pre.length % 10 →
      pre.length + ks.length ≤ 10 →
      spaced s.last_press_time (es ++ rest) →
      ∃ s1, key_edges s es = some s1 ∧ s1.text_input = pre ++ ks ∧
        s1.letter_index = (pre.length + ks.length) % 10 ∧
        spaced s1.last_press_time rest := by
  induction hdec with
  | nil =>
    intro s pre suf rest _ hbuf hsuf hli _ hsp
    have hnil : suf = [] := List.length_eq_zero.1 hsuf
    subst hnil
    exact ⟨s, rfl, hbuf, by simpa using hli, by simpa using hsp⟩
  | @cons e k es ks hek _ ih =>
    intro s pre suf rest hks hbuf hsuf hli hroom hsp
    cases suf with
    | nil => simp at hsuf
    | cons x suf =>
      simp only [List.length_cons] at hsuf hroom
      obtain ⟨hacc, hsp1⟩ := hsp
      obtain ⟨col, hpin, hk⟩ := hek
      have hpre : pre.length % 10 = pre.length := Nat.mod_eq_of_lt (by omega)
      rw [hpre] at hli
      have hlen : s.letter_index < s.text_input.length := by
        rw [hbuf, hli]; simp
      have h1 := key_edge_store s e.row col e.gpio e.now e.later k hpin hk hacc hlen
        (hks k (List.mem_cons_self _ _))
      obtain ⟨s2, h2, hb2, hl2, hsp2⟩ :=
        ih { s with sequence := e.row, current_key := k,
                    text_input := s.text_input.set s.letter_index k,
                    letter_index := (s.letter_index + 1) % 10,
                    last_press_time := e.later }
          (pre ++ [k]) suf rest (fun x hx => hks x (List.mem_cons_of_mem _ hx))
          (by
            show s.text_input.set s.letter_index k = (pre ++ [k]) ++ suf
            rw [hbuf, hli, set_append_cons]
            simp)
          (by omega)
          (by
            show (s.letter_index + 1) % 10 = (pre ++ [k]).length % 10
            rw [hli]; simp)
          (by simp; omega) hsp1
      refine ⟨s2, ?_, ?_, ?_, hsp2⟩
      · simp only [key_edges, h1]
        exact h2
      · simpa using hb2
      · rw [hl2]
        simp only [List.length_append, List.length_cons, List.length_nil]
        congr 1
        omega

/-- C21: in a state within the ranges, an accepted edge on column `col` while row `row`
is active stores `matrix_keys[row][col]` at position `letter_index` of the buffer and
sets `letter_index` to `(letter_index + 1) mod 10`.  When the key is `D` the buffer, the
`D` included, is passed to `analyze_text_input`, which runs to its end and leaves the
buffer zeroed and the write position 0.  Starting at write position 0, ten accepted keys
other than `D` fill the ten bytes and bring the write position back to 0, and the
eleventh overwrites position 0.  In every state reached from start-up the write position
lies inside the buffer. -/
theorem C21_input_accumulator (s : State) (hI : Inv s) (row col gpio now later : Nat)
    (key : Char) (hpin : gpio_columns[col]? = some gpio) (hk : key_at row col = some key)
    (hacc : ¬ sub64 now s.last_press_time < DEBOUNCE_TIME_US) :
    (key ≠ 'D' →
      key_edge s row gpio now later
        = some { s with sequence := row, current_key := key,
                        text_input := s.text_input.set s.letter_index key,
                        letter_index := (s.letter_index + 1) % 10,
                        last_press_time := later }) ∧
    (key = 'D' →
      'D' ∈ s.text_input.set s.letter_index 'D' ∧
      ∃ s1, analyze_text_input
            { s with sequence := row, current_key := 'D',
                     text_input := s.text_input.set s.letter_index 'D',
                     letter_index := (s.letter_index + 1) % 10 } = some s1 ∧
        key_edge s row gpio now later = some { s1 with last_press_time := later } ∧
        s1.text_input = List.replicate 10 NUL ∧ s1.letter_index = 0) ∧
    (s.letter_index < 10 ∧ s.text_input.length = 10 ∧
      (s.text_input.set s.letter_index key).length = 10 ∧
      (s.letter_index + 1) % 10 < 10) ∧
    (∀ (es : List Edge) (ks : List Char) (e : Edge) (k : Char),
      s.letter_index = 0 → ks.length = 10 → List.Forall₂ decodes es ks →
      (∀ x ∈ ks, x ≠ 'D') → decodes e k → k ≠ 'D' →
      spaced s.last_press_time (es ++ [e]) →
      ∃ s10 s11, key_edges s es = some s10 ∧ s10.text_input = ks ∧
        s10.letter_index = 0 ∧
        key_edges s (es ++ [e]) = some s11 ∧ s11.text_input = ks.set 0 k ∧
        s11.letter_index = 1) ∧
    (∀ (events : List Event) (s1 : State), run State.init events = some s1 →
      s1.letter_index < s1.text_input.length ∧ s1.text_input.length = 10) := by
  have hl : s.letter_index < 10 := hI.2.2.2.2.2.1
  have hn : s.text_input.length = 10 := hI.2.2.2.2.2.2
  have hli : s.letter_index < s.text_input.length := by rw [hn]; exact hl
  obtain ⟨hrow, _⟩ := key_at_bounds row col key hk
  refine ⟨?_, ?_, ?_, ?_, ?_⟩
  · exact key_edge_store s row col gpio now later key hpin hk hacc hli
  · intro hD
    subst hD
    have hI1 := inv_with_sequence s hI row hrow
    obtain ⟨c, tl, hbuf, hmem⟩ := store_key_D _ hI1
    obtain ⟨s1, h1, _⟩ := analyze_text_input_inv _ (store_key_inv _ hI1 'D') c tl hbuf hmem
    obtain ⟨_, _, hb, hz, _⟩ := analyze_text_input_frame _ s1 h1
    refine ⟨List.mem_set _ _ hli _, s1, h1, ?_, hb, hz⟩
    rw [key_edge_accept s row col gpio now later 'D' hpin hk hacc hli, if_pos rfl, h1]
    rfl
  · refine ⟨hl, hn, ?_, Nat.mod_lt _ (by decide)⟩
    rw [List.length_set]; exact hn
  · intro es ks e k h0 hlen hdec hks hek hkD hsp
    have hsuf : s.text_input.length = ks.length := by rw [hn, hlen]
    obtain ⟨s10, h10, hb10, hl10, hsp10⟩ :=
      key_edges_fill ks es hdec s [] s.text_input [e] hks rfl hsuf (by rw [h0]; rfl)
        (by simp [hlen]) hsp
    have hl10z : s10.letter_index = 0 := by
      rw [hl10, hlen]; rfl
    have hb10k : s10.text_input = ks := by simpa using hb10
    obtain ⟨col1, hpin1, hk1⟩ := hek
    have h11 := key_edge_store s10 e.row col1 e.gpio e.now e.later k hpin1 hk1 hsp10.1
      (by rw [hl10z, hb10k, hlen]; decide) hkD
    refine ⟨s10,
      { s10 with sequence := e.row, current_key := k,
                 text_input := s10.text_input.set s10.letter_index k,
                 letter_index := (s10.letter_index + 1) % 10,
                 last_press_time := e.later },
      h10, hb10k, hl10z, ?_, ?_, ?_⟩
    · rw [key_edges_append, h10]
      simp only [Option.some_bind, key_edges, h11]
    · show s10.text_input.set s10.letter_index k = ks.set 0 k
      rw [hb10k, hl10z]
    · show (s10.letter_index + 1) % 10 = 1
      rw [hl10z]
  · intro events s1 hs
    obtain ⟨s2, h2, hI2⟩ := run_inv events State.init init_inv
    rw [hs] at h2
    cases h2
    exact ⟨by rw [hI2.2.2.2.2.2.2]; exact hI2.2.2.2.2.2.1, hI2.2.2.2.2.2.2⟩

theorem C21_input_accumulator_witness :
    key_edge State.init 0 6 600000 600000
        = some { State.init with
            sequence := 0, current_key := '1',
            text_input := State.init.text_input.set State.init.letter_index '1',
            letter_index := (State.init.letter_index + 1) % 10,
            last_press_time := 600000 } ∧
    ('D' ∈ State.init.text_input.set State.init.letter_index 'D' ∧
      ∃ s1, analyze_text_input
            { State.init with
              sequence := 3, current_key := 'D',
              text_input := State.init.text_input.set State.init.letter_index 'D',
              letter_index := (State.init.letter_index + 1) % 10 } = some s1 ∧
        key_edge State.init 3 9 600000 600000 = some { s1 with last_press_time := 600000 } ∧
        s1.text_input = List.replicate 10 NUL ∧ s1.letter_index = 0) ∧
    (∃ s10 s11,
      key_edges State.init
          [⟨0, 6, 600000, 600000⟩, ⟨0, 6, 1200000, 1200000⟩, ⟨0, 6, 1800000, 1800000⟩,
           ⟨0, 6, 2400000, 2400000⟩, ⟨0, 6, 3000000, 3000000⟩, ⟨0, 6, 3600000, 3600000⟩,
           ⟨0, 6, 4200000, 4200000⟩, ⟨0, 6, 4800000, 4800000⟩, ⟨0, 6, 5400000, 5400000⟩,
           ⟨0, 6, 6000000, 6000000⟩] = some s10 ∧
        s10.text_input = ['1', '1', '1', '1', '1', '1', '1', '1', '1', '1'] ∧
        s10.letter_index = 0 ∧
        key_edges State.init
          ([⟨0, 6, 600000, 600000⟩, ⟨0, 6, 1200000, 1200000⟩, ⟨0, 6, 1800000, 1800000⟩,
            ⟨0, 6, 2400000, 2400000⟩, ⟨0, 6, 3000000, 3000000⟩, ⟨0, 6, 3600000, 3600000⟩,
            ⟨0, 6, 4200000, 4200000⟩, ⟨0, 6, 4800000, 4800000⟩, ⟨0, 6, 5400000, 5400000⟩,
            ⟨0, 6, 6000000, 6000000⟩] ++ [⟨0, 7, 6600000, 6600000⟩]) = some s11 ∧
        s11.text_input = ['1', '1', '1', '1', '1', '1', '1', '1', '1', '1'].set 0 '2' ∧
        s11.letter_index = 1) ∧
    (State.init.letter_index < State.init.text_input.length ∧
      State.init.text_input.length = 10) :=
  have h1 := C21_input_accumulator State.init init_inv 0 0 6 600000 600000 '1' rfl rfl
    (by decide)
  have hD := C21_input_accumulator State.init init_inv 3 3 9 600000 600000 'D' rfl rfl
    (by decide)
  ⟨h1.1 (by decide), hD.2.1 rfl,
    h1.2.2.2.1
      [⟨0, 6, 600000, 600000⟩, ⟨0, 6, 1200000, 1200000⟩, ⟨0, 6, 1800000, 1800000⟩,
       ⟨0, 6, 2400000, 2400000⟩, ⟨0, 6, 3000000, 3000000⟩, ⟨0, 6, 3600000, 3600000⟩,
       ⟨0, 6, 4200000, 4200000⟩, ⟨0, 6, 4800000, 4800000⟩, ⟨0, 6, 5400000, 5400000⟩,
       ⟨0, 6, 6000000, 6000000⟩]
      ['1', '1', '1', '1', '1', '1', '1', '1', '1', '1'] ⟨0, 7, 6600000, 6600000⟩ '2'
      rfl rfl
      (.cons ⟨0, rfl, rfl⟩ (.cons ⟨0, rfl, rfl⟩ (.cons ⟨0, rfl, rfl⟩ (.cons ⟨0, rfl, rfl⟩
        (.cons ⟨0, rfl, rfl⟩ (.cons ⟨0, rfl, rfl⟩ (.cons ⟨0, rfl, rfl⟩ (.cons ⟨0, rfl, rfl⟩
          (.cons ⟨0, rfl, rfl⟩ (.cons ⟨0, rfl, rfl⟩ .nil))))))))))
      (by decide) ⟨1, rfl, rfl⟩ (by decide)
      ⟨by decide, by decide, by decide, by decide, by decide, by decide, by decide,
        by decide, by decide, by decide, by decide, trivial⟩,
    h1.2.2.2.2 [] State.init rfl⟩

end SignalsGeneration
